import Mathlib

/-!
# MV::Signal / MV::Receiver (Utility/signal.hpp)

A shallow embedding of the observer primitive of `signal.hpp`.

* A `std::shared_ptr<Receiver<T>>` is modelled by the address of its control
  block, a natural number; `0` is the null pointer.  `std::owner_less`, the
  comparator of `Signal::observers`, compares exactly these addresses.
* A `std::function<T>` is modelled by `Option Nat`: `none` is the empty
  function, `some c` names a callable whose body, for an argument list `arg`,
  is the list of calls `Env.prog c arg`.
* The argument pack of `operator()` is one natural number.
* The owning references that exist outside the Signal are the list `held`
  (one entry per reference); the `lockedI` locals of the running dispatch
  loops are the list `locked`.  A receiver is alive while a shared pointer to
  it is in `held`, `locked`, `disconnectQueue` or `ownedConnections`.
* An iterator of `observers` is the key of its node, `none` for `end()`.  The
  nodes erased from `observers` are recorded in `erased`, so that the use of an
  iterator whose node was erased in the meantime ends a run as `undefined`.
* The block counters and `uniqueId` are unbounded integers: the overflow of
  `int` after 2^31 nested `block()` calls is outside the model.
-/

namespace MV

/-- The data members of `Receiver<T>` (signal.hpp, lines 109-112). -/
structure Receiver where
  isBlocked : Int
  callback : Option Nat
  id : Nat
deriving DecidableEq, Repr

/-- What a run leaves in the log: `Receiver::notify` of the listener `handle`, whose
receiver has the id `id`, called its callable `callable` with `arg`; or the Signal's
`blockedCallback` was called with `arg`. -/
inductive Event where
  | called (handle id callable arg : Nat)
  | blockedCalled (arg : Nat)
deriving DecidableEq, Repr

/-- One call made by a callable (or by the code that owns the Signal). Results
of the calls are dropped. -/
inductive Action where
  /-- `Receiver<T>::make(cb)`, the caller keeps the result. -/
  | make (cb : Option Nat)
  /-- `signal.connect(cb)`; `keep` tells whether the caller keeps the returned pointer. -/
  | connectFn (cb : Option Nat) (keep : Bool)
  /-- `signal.connect(h)` for a shared pointer `h`. -/
  | connectPtr (h : Nat)
  /-- `signal.connect(key, cb)`; `keep` as for `connectFn`. -/
  | connectKey (key : String) (cb : Option Nat) (keep : Bool)
  /-- `signal.disconnect(h)` for a shared pointer `h`. -/
  | disconnectPtr (h : Nat)
  /-- `signal.disconnect(key)`. -/
  | disconnectKey (key : String)
  /-- `signal.clear()`. -/
  | clear
  /-- `signal.block()`. -/
  | block
  /-- `signal.unblock()`. -/
  | unblock
  /-- `signal.setObserverLimit(n)`. -/
  | setObserverLimit (n : Nat)
  /-- `signal.clearObserverLimit()`. -/
  | clearObserverLimit
  /-- `signal.cullDeadObservers()`. -/
  | cullDeadObservers
  /-- `h->block()` on a receiver. -/
  | receiverBlock (h : Nat)
  /-- `h->unblock()` on a receiver. -/
  | receiverUnblock (h : Nat)
  /-- The caller copies a shared pointer it holds. -/
  | retain (h : Nat)
  /-- The caller lets go of one shared pointer it holds. -/
  | release (h : Nat)
  /-- `signal(arg)`, the dispatch. -/
  | invoke (arg : Nat)
  /-- The callable raises an exception. -/
  | throw
deriving DecidableEq, Repr

/-- What surrounds the Signal: the bodies of the callables and the allocator.
`alloc c used` is the address the allocator gives to the control block of the
`c`-th allocation when the addresses in `used` are taken. -/
structure Env where
  prog : Nat → Nat → List Action
  alloc : Nat → List Nat → Nat

/-- The data members of `Signal<T>` (lines 307-315), then the part of the
program state around it: the receivers by control block address, the static
`Receiver<T>::uniqueId`, the owning references held outside the Signal, the
`lockedI` locals of the running dispatch loops, the history of the nodes erased
from `observers` and the log of the callables called. -/
structure World where
  observers : List Nat
  observerLimit : Nat
  inCall : Bool
  isBlocked : Int
  blockedCallback : Option Nat
  disconnectQueue : List Nat
  calledWhileBlocked : Bool
  ownedConnections : List (String × Nat)
  heap : List (Nat × Receiver)
  uniqueId : Nat
  held : List Nat
  locked : List Nat
  erased : List Nat
  log : List Event
deriving DecidableEq, Repr

/-- The value `std::numeric_limits<size_t>::max()` for a 64 bit `size_t`. -/
def sizeMax : Nat := 2 ^ 64 - 1

/-- A freshly constructed Signal (member initialisers of lines 308-313) in a program that
made no Receiver yet. -/
def World.init : World :=
  { observers := [], observerLimit := sizeMax, inCall := false, isBlocked := 0,
    blockedCallback := none, disconnectQueue := [], calledWhileBlocked := false,
    ownedConnections := [], heap := [], uniqueId := 0, held := [], locked := [],
    erased := [], log := [] }

/-! ## std::set and std::map -/

/-- The operation `std::set::insert`: the list stays ascending, a key that is there is not added. -/
def setInsert (a : Nat) : List Nat → List Nat
  | [] => [a]
  | b :: l => if a < b then a :: b :: l else if a = b then b :: l else b :: setInsert a l

/-- The operation `std::set::erase(key)`. -/
def setErase (a : Nat) (l : List Nat) : List Nat :=
  l.filter (fun b => b ≠ a)

/-- The iterator after the one at key `a` (`++i`): the first key above `a`, `none` for `end()`. -/
def setNext (a : Nat) (l : List Nat) : Option Nat :=
  l.find? (fun b => a < b)

/-- The operation `std::map::operator[]` followed by an assignment. -/
def mapSet (key : String) (v : Nat) (m : List (String × Nat)) : List (String × Nat) :=
  (key, v) :: m.filter (fun e => e.1 ≠ key)

/-- The operation `std::map::erase` of the entry of `key`. -/
def mapErase (key : String) (m : List (String × Nat)) : List (String × Nat) :=
  m.filter (fun e => e.1 ≠ key)

/-! ## Ownership -/

/-- Some shared pointer to `h` exists: `weak_ptr::lock` succeeds, `expired()` is false. -/
def alive (w : World) (h : Nat) : Bool :=
  h != 0 && (w.held.contains h || w.locked.contains h || w.disconnectQueue.contains h
    || (w.ownedConnections.map Prod.snd).contains h)

/-- The addresses of the control blocks that are in use: something owns them
or a weak pointer of `observers` refers to them. -/
def allocated (w : World) : List Nat :=
  w.observers ++ w.held ++ w.locked ++ w.disconnectQueue ++ w.ownedConnections.map Prod.snd

/-- The receiver behind `h`. -/
def receiverAt (w : World) (h : Nat) : Option Receiver :=
  w.heap.lookup h

/-- Replace the receiver behind `h`. -/
def setReceiver (w : World) (h : Nat) (r : Receiver) : World :=
  { w with heap := (h, r) :: w.heap }

/-! ## Receiver -/

/-- The value that a 32 bit `int` holds when the result `x` of `++` or `--` is stored in
it: two's complement wrap-around into the range from `-2^31` to `2^31 - 1`. -/
def wrapInt32 (x : Int) : Int :=
  (x + 2 ^ 31) % 2 ^ 32 - 2 ^ 31

namespace Receiver

/-- Lines 74-76, `++isBlocked` on the `int` of line 109. -/
def block (r : Receiver) : Receiver :=
  { r with isBlocked := wrapInt32 (r.isBlocked + 1) }

/-- Lines 77-82, `--isBlocked` and the reset of a negative depth. -/
def unblock (r : Receiver) : Receiver :=
  let b := wrapInt32 (r.isBlocked - 1)
  { r with isBlocked := if b < 0 then 0 else b }

/-- Lines 83-85. -/
def blocked (r : Receiver) : Bool :=
  r.isBlocked != 0

/-- Lines 43-45. -/
def invalid (r : Receiver) : Bool :=
  r.callback.isNone

/-- The callable that `notify` (lines 28-33) and `operator()` (lines 47-52)
call with their arguments: none when the receiver is blocked or invalid. -/
def notify (r : Receiver) : Option Nat :=
  if !r.blocked && !r.invalid then r.callback else none

/-- The callable that `operator()` (lines 47-52) calls with its arguments: the body is
that of `notify`. -/
def call (r : Receiver) : Option Nat :=
  if !r.blocked && !r.invalid then r.callback else none

/-- The function `predicate` (lines 35-41): the callable it calls, if any, and what it
returns, where `result c` is what the callable `c` returns for the arguments. -/
def predicate (r : Receiver) (result : Nat → Bool) : Option Nat × Bool :=
  if !r.blocked && !r.invalid then
    match r.callback with
    | some c => (some c, result c)
    | none => (none, false)
  else (none, false)

/-- The function `make` (lines 24-26): `++uniqueId`, a new control block owned by the caller. -/
def make (env : Env) (w : World) (cb : Option Nat) : Nat × World :=
  let a := env.alloc w.uniqueId (allocated w)
  let newId := w.uniqueId + 1
  (a, { w with uniqueId := newId,
               heap := (a, { isBlocked := 0, callback := cb, id := newId }) :: w.heap,
               held := a :: w.held })

end Receiver

/-! ## Signal -/

namespace Signal

/-- One `observers.erase` of the key `k`; the erased node is recorded. -/
def eraseObserver (w : World) (k : Nat) : World :=
  { w with observers := setErase k w.observers,
           erased := w.erased ++ (if w.observers.contains k then [k] else []) }

/-- Lines 295-304. -/
def cullDeadObservers (w : World) : Nat × World :=
  let w1 := { w with observers := w.observers.filter (alive w),
                     erased := w.erased ++ w.observers.filter (fun k => !alive w k) }
  (w1.observers.length, w1)

/-- The test of lines 129 and 140: no limit, or fewer live observers than the
limit; the purge runs only when a limit is set. -/
def capacityCheck (w : World) : Bool × World :=
  if w.observerLimit = sizeMax then (true, w)
  else
    let r := cullDeadObservers w
    (decide (r.1 < w.observerLimit), r.2)

/-- Lines 128-136, `connect(std::function<T>)`; the caller owns the result. -/
def connect (env : Env) (w : World) (cb : Option Nat) : Nat × World :=
  let c := capacityCheck w
  if c.1 then
    let m := Receiver.make env c.2 cb
    (m.1, { m.2 with observers := setInsert m.1 m.2.observers })
  else
    (0, c.2)

/-- Lines 139-146, `connect(std::shared_ptr<Receiver<T>>)`. -/
def connectPtr (w : World) (h : Nat) : Bool × World :=
  let c := capacityCheck w
  if c.1 then
    (true, { c.2 with observers := setInsert h c.2.observers })
  else
    (false, c.2)

/-- Lines 149-151, `connect(key, callback)`: the result is stored under the
key and a copy goes to the caller. -/
def connectKey (env : Env) (w : World) (key : String) (cb : Option Nat) : Nat × World :=
  let r := connect env w cb
  (r.1, { r.2 with ownedConnections := mapSet key r.1 r.2.ownedConnections })

/-- Lines 153-159. -/
def connection (w : World) (key : String) : Nat :=
  match w.ownedConnections.lookup key with
  | some h => h
  | none => 0

/-- Lines 161-169, `disconnect(std::shared_ptr<Receiver<T>>)`. -/
def disconnectPtr (w : World) (h : Nat) : World :=
  if h ≠ 0 then
    if !w.inCall then eraseObserver w h
    else { w with disconnectQueue := setInsert h w.disconnectQueue }
  else w

/-- Lines 171-173. -/
def connected (w : World) (key : String) : Bool :=
  (w.ownedConnections.lookup key).isSome

/-- Lines 175-181, `disconnect(key)`. -/
def disconnectKey (w : World) (key : String) : World :=
  match w.ownedConnections.lookup key with
  | some h =>
    let w1 := disconnectPtr w h
    { w1 with ownedConnections := mapErase key w1.ownedConnections }
  | none => w

/-- Lines 183-195. -/
def clearObservers (w : World) : World :=
  let w1 := { w with ownedConnections := [] }
  if !w1.inCall then
    { w1 with observers := [], erased := w1.erased ++ w1.observers }
  else
    let w2 := { w1 with disconnectQueue := [] }
    { w2 with disconnectQueue :=
        (w2.observers.filter (alive w2)).foldl (fun q h => setInsert h q) [] }

/-- Lines 197-199. -/
def clear (w : World) : World :=
  clearObservers w

/-- Lines 201-205, `isBlocked++` on the `int` of line 310. -/
def block (w : World) : World :=
  let w1 := { w with isBlocked := wrapInt32 (w.isBlocked + 1) }
  if w.isBlocked = 0 then { w1 with calledWhileBlocked := false } else w1

/-- Lines 207-215, `--isBlocked` on the `int` of line 310. -/
def unblock (w : World) : Bool × World :=
  let w1 := { w with isBlocked := wrapInt32 (w.isBlocked - 1) }
  if w1.isBlocked = 0 then (w1.calledWhileBlocked, w1)
  else if w1.isBlocked < 0 then (false, { w1 with isBlocked := 0 })
  else (false, w1)

/-- Lines 217-219. -/
def blocked (w : World) : Bool :=
  w.isBlocked != 0

/-- Lines 285-287; the argument is a `size_t`. -/
def setObserverLimit (w : World) (n : Nat) : World :=
  { w with observerLimit := n % 2 ^ 64 }

/-- Lines 288-290. -/
def clearObserverLimit (w : World) : World :=
  { w with observerLimit := sizeMax }

/-- Lines 291-293: the `size_t` is converted to a 32 bit `int`. -/
def getObserverLimit (w : World) : Int :=
  let v : Nat := w.observerLimit % 2 ^ 32
  if v < 2 ^ 31 then (v : Int) else (v : Int) - 2 ^ 32

/-- The scope guard of lines 225-231. -/
def scopeExit (w : World) : World :=
  { w with inCall := false,
           observers := w.observers.filter (fun k => !w.disconnectQueue.contains k),
           erased := w.erased ++ w.disconnectQueue.filter (fun k => w.observers.contains k),
           disconnectQueue := [] }

end Signal

/-! ## SignalRegister -/

/-- The public member functions of `Signal<T>` (lines 128-304). -/
inductive SignalMember where
  | connect
  | connectPtr
  | connectKey
  | connection
  | disconnectPtr
  | connected
  | disconnectKey
  | clearObservers
  | clear
  | block
  | unblock
  | blocked
  | invoke
  | setObserverLimit
  | clearObserverLimit
  | getObserverLimit
  | cullDeadObservers
deriving DecidableEq, Repr

/-- The public member functions of `SignalRegister<T>` (lines 337-375). -/
inductive RegisterMember where
  | connect
  | connectPtr
  | disconnectPtr
  | connectKey
  | connected
  | disconnectKey
  | connection
  | setParameterNames
  | parameterNames
  | hasParameterNames
deriving DecidableEq, Repr

/-- The member of `Signal<T>` that a member of `SignalRegister<T>` calls on the wrapped
Signal; the three `parameterNames` members name functions that `Signal<T>` does not have. -/
def RegisterMember.target : RegisterMember → Option SignalMember
  | .connect => some .connect
  | .connectPtr => some .connectPtr
  | .disconnectPtr => some .disconnectPtr
  | .connectKey => some .connectKey
  | .connected => some .connected
  | .disconnectKey => some .disconnectKey
  | .connection => some .connection
  | .setParameterNames => none
  | .parameterNames => none
  | .hasParameterNames => none

namespace SignalRegister

/-- Lines 337-339; the register acts on the Signal it refers to. -/
def connect (env : Env) (w : World) (cb : Option Nat) : Nat × World :=
  Signal.connect env w cb

/-- Lines 341-343. -/
def connectPtr (w : World) (h : Nat) : Bool × World :=
  Signal.connectPtr w h

/-- Lines 345-347. -/
def disconnectPtr (w : World) (h : Nat) : World :=
  Signal.disconnectPtr w h

/-- Lines 349-351. -/
def connectKey (env : Env) (w : World) (key : String) (cb : Option Nat) : Nat × World :=
  Signal.connectKey env w key cb

/-- Lines 353-355. -/
def connected (w : World) (key : String) : Bool :=
  Signal.connected w key

/-- Lines 357-359. -/
def disconnectKey (w : World) (key : String) : World :=
  Signal.disconnectKey w key

/-- Lines 361-363. -/
def connection (w : World) (key : String) : Nat :=
  Signal.connection w key

end SignalRegister

/-! ## Running callables and the dispatch -/

/-- The effect of a call that runs no callable. -/
def prim (env : Env) (a : Action) (w : World) : World :=
  match a with
  | .make cb => (Receiver.make env w cb).2
  | .connectFn cb keep =>
    let r := Signal.connect env w cb
    if keep then r.2 else { r.2 with held := r.2.held.erase r.1 }
  | .connectPtr h => (Signal.connectPtr w h).2
  | .connectKey key cb keep =>
    let r := Signal.connectKey env w key cb
    if keep then r.2 else { r.2 with held := r.2.held.erase r.1 }
  | .disconnectPtr h => Signal.disconnectPtr w h
  | .disconnectKey key => Signal.disconnectKey w key
  | .clear => Signal.clear w
  | .block => Signal.block w
  | .unblock => (Signal.unblock w).2
  | .setObserverLimit n => Signal.setObserverLimit w n
  | .clearObserverLimit => Signal.clearObserverLimit w
  | .cullDeadObservers => (Signal.cullDeadObservers w).2
  | .receiverBlock h =>
    match receiverAt w h with
    | some r => setReceiver w h r.block
    | none => w
  | .receiverUnblock h =>
    match receiverAt w h with
    | some r => setReceiver w h r.unblock
    | none => w
  | .retain h => { w with held := h :: w.held }
  | .release h => { w with held := w.held.erase h }
  | .invoke _ => w
  | .throw => w

/-- The local `lockedI` of line 234 takes a shared pointer to the listener `k`. -/
def lockListener (w : World) (k : Nat) : World :=
  { w with locked := k :: w.locked }

/-- The local `lockedI` goes out of scope. -/
def unlockListener (w : World) (k : Nat) : World :=
  { w with locked := w.locked.erase k }

/-- The callable that `lockedI->notify(...)` calls, with the receiver's id, if it calls one. -/
def notifyTarget (r : Receiver) : Option (Nat × Nat) :=
  r.notify.map (fun c => (c, r.id))

/-- The handle of the listener of a logged call. -/
def Event.handle? : Event → Option Nat
  | .called h _ _ _ => some h
  | .blockedCalled _ => none

/-- Line 224, `inCall = true`. -/
def enterCall (w : World) : World :=
  { w with inCall := true }

/-- Line 246, `calledWhileBlocked = true`. -/
def markCalled (w : World) : World :=
  { w with calledWhileBlocked := true }

/-- A call of a callable is written to the log. -/
def logEvent (w : World) (e : Event) : World :=
  { w with log := w.log ++ [e] }

/-- The saved iterator `next` is invalid: its node was erased since it was taken. -/
def staleIter (next : Option Nat) (erasedSince : List Nat) : Bool :=
  match next with
  | some k1 => erasedSince.contains k1
  | none => false

/-- How a piece of code ends: it returns, an exception leaves it, or its
behaviour is undefined (an invalidated iterator of `observers` is used). -/
inductive Status where
  | ok
  | raised
  | undefined
deriving DecidableEq, Repr

/-- The pieces of code that `run` executes. -/
inductive Task where
  /-- The rest of the body of a callable. -/
  | body (acts : List Action)
  /-- `Signal::operator()` (lines 221-251) with its arguments. -/
  | call (arg : Nat)
  /-- The loop of lines 233-242 with the iterator `i` at a key, or at `end()`. -/
  | loop (i : Option Nat) (arg : Nat)
  /-- Lines 245-250, the part of `operator()` after the loop. -/
  | blockedPart (arg : Nat)
deriving DecidableEq, Repr

/-- Executes a task with a bound on the number of steps; `none` when the bound
is reached. -/
def run (env : Env) : Nat → Task → World → Option (Status × World)
  | 0, _, _ => none
  | _ + 1, .body [], w => some (.ok, w)
  | _ + 1, .body (.throw :: _), w => some (.raised, w)
  | n + 1, .body (.invoke arg :: rest), w =>
    match run env n (.call arg) w with
    | some (.ok, w1) => run env n (.body rest) w1
    | r => r
  | n + 1, .body (a :: rest), w => run env n (.body rest) (prim env a w)
  | n + 1, .call arg, w =>
    if !Signal.blocked w then
      match run env n (.loop w.observers.head? arg) (enterCall w) with
      | some (.ok, w1) => run env n (.blockedPart arg) (Signal.scopeExit w1)
      | some (.raised, w1) => some (.raised, Signal.scopeExit w1)
      | r => r
    else run env n (.blockedPart arg) w
  | n + 1, .blockedPart arg, w =>
    if Signal.blocked w then
      match w.blockedCallback with
      | some c => run env n (.body (env.prog c arg)) (logEvent (markCalled w) (.blockedCalled arg))
      | none => some (.ok, markCalled w)
    else some (.ok, w)
  | _ + 1, .loop none _, w => some (.ok, w)
  | n + 1, .loop (some k) arg, w =>
    if w.observers.isEmpty then some (.ok, w)
    else if alive w k then
      let w1 := lockListener w k
      let r : Option (Status × World) :=
        match (receiverAt w1 k).bind notifyTarget with
        | some (c, id) => run env n (.body (env.prog c arg)) (logEvent w1 (.called k id c arg))
        | none => some (.ok, w1)
      match r with
      | some (.ok, w2) =>
        if staleIter (setNext k w.observers) (w2.erased.drop w.erased.length) then
          some (.undefined, unlockListener w2 k)
        else run env n (.loop (setNext k w.observers) arg) (unlockListener w2 k)
      | some (.raised, w2) => some (.raised, unlockListener w2 k)
      | r1 => r1
    else
      run env n (.loop (setNext k w.observers) arg) (Signal.eraseObserver w k)

/-! ## Definitions used to state the properties -/

/-- The allocator keeps its contract: the address it returns is not null and
is not the address of a control block in use. -/
def Env.Fresh (env : Env) : Prop :=
  ∀ c used, env.alloc c used ≠ 0 ∧ env.alloc c used ∉ used

/-- The number of references of `observers` that are not expired. -/
def liveCount (w : World) : Nat :=
  (w.observers.filter (alive w)).length

/-- An allocator that hands out the address above all addresses in use. -/
def bumpAlloc : Nat → List Nat → Nat :=
  fun _ used => used.foldr max 0 + 1

/-- An allocator that hands out the lowest free address, as a free list does. -/
def firstFitAlloc : Nat → List Nat → Nat :=
  fun _ used => ((List.range (used.length + 2)).find? (fun a => a != 0 && !used.contains a)).getD
    (used.foldr max 0 + 1)

/-- Callables that make no call, with the bump allocator. -/
def quietEnv : Env :=
  { prog := fun _ _ => [], alloc := bumpAlloc }

/-- A Signal with limit 2 and two connected listeners, both held by their callers. -/
def limitTwoWorld : World :=
  (Signal.connect quietEnv
    (Signal.connect quietEnv (Signal.setObserverLimit World.init 2) (some 0)).2 (some 0)).2

/-- A Signal without limit and one connected listener, held by its caller. -/
def oneListenerWorld : World :=
  (Signal.connect quietEnv World.init (some 0)).2

/-- The calls that `run` executes itself: they are not effects of `prim`. -/
def Action.isControl : Action → Bool
  | .throw => true
  | .invoke _ => true
  | _ => false

/-- The relation `R` between a state and a later state is kept by every step
that `run` makes for callables whose calls all satisfy `allowed`. -/
structure StepClosed (env : Env) (allowed : Action → Prop) (R : World → World → Prop) : Prop where
  refl : ∀ w, R w w
  trans : ∀ a b c, R a b → R b c → R a c
  prim : ∀ a w, allowed a → a.isControl = false → R w (prim env a w)
  prog : ∀ c arg, ∀ a ∈ env.prog c arg, allowed a
  enter : ∀ w, Signal.blocked w = false → R w (enterCall w)
  exit : ∀ w, R w (Signal.scopeExit w)
  flag : ∀ w, Signal.blocked w = true → R w (markCalled w)
  log : ∀ w e, R w (logEvent w e)
  lock : ∀ w k, alive w k = true → R w (lockListener w k)
  unlock : ∀ w k, R w (unlockListener w k)
  erase : ∀ w k, alive w k = false → R w (Signal.eraseObserver w k)

/-- Every call in the body that a task is about to run satisfies `allowed`. -/
def Task.allowed (allowed : Action → Prop) : Task → Prop
  | .body acts => ∀ a ∈ acts, allowed a
  | _ => True

/-- A call made on the Signal by the code that owns it. -/
inductive Op where
  | block
  | unblock
  | dispatch (arg : Nat)
deriving DecidableEq, Repr

/-- Runs a sequence of `block()`, `unblock()` and dispatch calls and collects what the
`unblock()` calls return. An exception that leaves a dispatch is caught by the caller. -/
def runOps (env : Env) (fuel : Nat) : List Op → World → Option (List Bool × World)
  | [], w => some ([], w)
  | .block :: ops, w => runOps env fuel ops (Signal.block w)
  | .unblock :: ops, w =>
    (runOps env fuel ops (Signal.unblock w).2).map (fun r => ((Signal.unblock w).1 :: r.1, r.2))
  | .dispatch arg :: ops, w =>
    match run env fuel (.call arg) w with
    | some (.ok, w1) => runOps env fuel ops w1
    | some (.raised, w1) => runOps env fuel ops w1
    | _ => none

/-- What the `unblock()` calls of a sequence return according to the specification, from
the block depth `depth` and from `attempted`, which tells whether an invocation attempt
occurred while blocked since the `block()` that raised the depth from 0 to 1: the
`unblock()` that brings the depth from 1 to 0 returns `attempted`, every other one false. -/
def specUnblockResults : List Op → Nat → Bool → List Bool
  | [], _, _ => []
  | .block :: ops, depth, attempted =>
    specUnblockResults ops (depth + 1) (if depth = 0 then false else attempted)
  | .dispatch _ :: ops, depth, attempted =>
    specUnblockResults ops depth (if 0 < depth then true else attempted)
  | .unblock :: ops, depth, attempted =>
    (if depth = 1 then attempted else false) :: specUnblockResults ops (depth - 1) attempted

/-- The block depth and the flag of a later state, as a dispatch leaves them when no
callable blocks or unblocks the Signal: the depth is kept, the flag is kept at depth 0
and stays true once it is true. -/
def BlockKept (w w1 : World) : Prop :=
  w1.isBlocked = w.isBlocked ∧ (w.isBlocked = 0 → w1.calledWhileBlocked = w.calledWhileBlocked) ∧
  (w.calledWhileBlocked = true → w1.calledWhileBlocked = true)

/-- The call is neither `signal.block()` nor `signal.unblock()`. -/
def Action.noBlock (a : Action) : Prop :=
  a ≠ .block ∧ a ≠ .unblock

/-- The callable 1 disconnects the handle 1; the callable 2 blocks its own receiver (the
handle 2), dispatches the Signal again with the argument 9 and unblocks the receiver. -/
def reentrantEnv : Env :=
  { prog := fun c _ => if c = 1 then [.disconnectPtr 1]
                       else if c = 2 then [.receiverBlock 2, .invoke 9, .receiverUnblock 2] else [],
    alloc := bumpAlloc }

/-- A sequence of calls with nested blocks, a dispatch while blocked and a dispatch
while not blocked. -/
def sampleOps : List Op :=
  [.dispatch 1, .block, .unblock, .block, .block, .dispatch 2, .unblock, .unblock, .unblock]

/-- The state after `sampleOps` on a Signal with one listener. -/
def sampleOpsEnd : World :=
  ((runOps quietEnv 10 sampleOps oneListenerWorld).getD ([], World.init)).2

/-- Callables that make no call, with the allocator that reuses the lowest free address. -/
def firstFitEnv : Env :=
  { prog := fun _ _ => [], alloc := firstFitAlloc }

/-- Three receivers are made, the first one is given up before the third is made, then
the second and the third are connected and the Signal is dispatched. -/
def reuseScenario : List Action :=
  [.make (some 0), .make (some 0), .release 1, .make (some 0), .connectPtr 2, .connectPtr 1,
    .invoke 7]

/-- The task ends with the result `r` when it is given enough steps. -/
def Runs (env : Env) (t : Task) (w : World) (r : Status × World) : Prop :=
  ∃ n, run env n t w = some r

/-- The handles that the calls `signal.disconnect(h)` of a body name, null pointers left out. -/
def requestedOf (acts : List Action) : List Nat :=
  acts.filterMap (fun a => match a with
    | .disconnectPtr h => if h ≠ 0 then some h else none
    | _ => none)

/-- The `disconnectQueue` after the handles `hs` are inserted one by one. -/
def enqueue (hs : List Nat) (q : List Nat) : List Nat :=
  hs.foldl (fun q h => setInsert h q) q

/-- The callable that a dispatch calls for the listener `k`, with the receiver's id. -/
def targetOf (w : World) (k : Nat) : Option (Nat × Nat) :=
  (receiverAt w k).bind notifyTarget

/-- The callable that a dispatch with `arg` calls for the listener `k` in the state `w`,
if it calls one, only calls `signal.disconnect(h)`, for null or owned handles `h`. -/
def DisconnectOnlyAt (env : Env) (w : World) (arg : Nat) (k : Nat) : Prop :=
  ∀ c id, targetOf w k = some (c, id) →
    ∀ a ∈ env.prog c arg, ∃ h, a = .disconnectPtr h ∧ (h = 0 ∨ alive w h = true)

/-- Every callable that a dispatch with `arg` can call from the state `w` only calls
`signal.disconnect(h)`, for null or owned handles `h`. -/
def DisconnectOnly (env : Env) (w : World) (arg : Nat) : Prop :=
  ∀ k, DisconnectOnlyAt env w arg k

/-- The calls that a dispatch with `arg` logs for the listeners `ks`, in this order. -/
def callsOf (w : World) (arg : Nat) (ks : List Nat) : List Event :=
  ks.filterMap (fun k => (targetOf w k).map (fun p => Event.called k p.2 p.1 arg))

/-- The handles whose disconnect the callables of the listeners `ks` request. -/
def requestsOf (env : Env) (w : World) (arg : Nat) (ks : List Nat) : List Nat :=
  ks.flatMap (fun k => match targetOf w k with
    | some (c, _) => requestedOf (env.prog c arg)
    | none => [])

/-- What the loop of a dispatch keeps between two listeners when the callables only
disconnect: the state `wj` differs from the state `w0` at the start by `observers`,
`disconnectQueue`, `erased` and the log only, and the queue holds owned handles. -/
structure LoopInv (w0 wj : World) : Prop where
  inCall : wj.inCall = true
  heap : wj.heap = w0.heap
  held : wj.held = w0.held
  locked : wj.locked = w0.locked
  owned : wj.ownedConnections = w0.ownedConnections
  queue : ∀ x ∈ wj.disconnectQueue, alive w0 x = true
  sub : ∀ x ∈ w0.disconnectQueue, x ∈ wj.disconnectQueue

/-- The state in which the loop ends when it starts in `wj` with `observers = pre ++ suf`
at the first key of `suf`: the expired keys of `suf` are erased, the live ones are
called and the handles they name are queued. -/
def loopEnd (env : Env) (w0 : World) (arg : Nat) (wj : World) (pre suf : List Nat) : World :=
  { wj with observers := pre ++ suf.filter (alive w0),
            erased := wj.erased ++ suf.filter (fun k => !alive w0 k),
            log := wj.log ++ callsOf w0 arg (suf.filter (alive w0)),
            disconnectQueue :=
              enqueue (requestsOf env w0 arg (suf.filter (alive w0))) wj.disconnectQueue }

/-- The state in which the loop has passed the keys `suf` and stands before the keys
`rest`, when it started in `wj` with `observers = pre ++ suf ++ rest`. -/
def loopMid (env : Env) (w0 : World) (arg : Nat) (wj : World) (pre suf rest : List Nat) : World :=
  { wj with observers := pre ++ suf.filter (alive w0) ++ rest,
            erased := wj.erased ++ suf.filter (fun k => !alive w0 k),
            log := wj.log ++ callsOf w0 arg (suf.filter (alive w0)),
            disconnectQueue :=
              enqueue (requestsOf env w0 arg (suf.filter (alive w0))) wj.disconnectQueue }

/-- The state in which a dispatch with `arg` from `w` ends when the callables only
disconnect: the end of the loop over all of `observers`, then the scope guard. -/
def dispatchEnd (env : Env) (w : World) (arg : Nat) : World :=
  Signal.scopeExit (loopEnd env w arg (enterCall w) [] w.observers)

/-- The handles of the listeners whose callables a piece of the log records as called, in
the order of the calls. -/
def calledHandles (evs : List Event) : List Nat :=
  evs.filterMap Event.handle?

/-- Listener 2 disconnects listener 3; the other callables make no call. -/
def deferEnv : Env :=
  { prog := fun c _ => if c = 2 then [.disconnectPtr 3] else [], alloc := bumpAlloc }

/-- A Signal with the listeners 1, 2 and 3, whose callables are 1, 2 and 3, each held
by its caller. -/
def threeListenerWorld : World :=
  (Signal.connect deferEnv (Signal.connect deferEnv (Signal.connect deferEnv World.init
    (some 1)).2 (some 2)).2 (some 3)).2

/-- The call neither starts a dispatch nor is `signal.clear()`. -/
def Action.plain (a : Action) : Prop :=
  (∀ x, a ≠ .invoke x) ∧ a ≠ .clear

/-- What a callable without `plain`-violating calls keeps while a dispatch runs: the log,
`inCall`, `blockedCallback`, and, during a dispatch, the handles of `disconnectQueue`. -/
def QueueKept (w w1 : World) : Prop :=
  w1.log = w.log ∧ w1.inCall = w.inCall ∧ w1.blockedCallback = w.blockedCallback ∧
  (w.inCall = true → ∀ x ∈ w.disconnectQueue, x ∈ w1.disconnectQueue)

/-- A Signal with the listeners 1 and 2 of `reentrantEnv`: the callable of 1 disconnects
1, the callable of 2 blocks its receiver, dispatches the Signal again and unblocks. -/
def reentrantWorld : World :=
  (Signal.connect reentrantEnv (Signal.connect reentrantEnv World.init (some 1)).2 (some 2)).2

/-- The callable 1 disconnects the handle 1; the other callables make no call. -/
def selfEnv : Env :=
  { prog := fun c _ => if c = 1 then [.disconnectPtr 1] else [], alloc := bumpAlloc }

/-- A Signal with the listeners 1 and 2 of `selfEnv`. -/
def selfWorld : World :=
  (Signal.connect selfEnv (Signal.connect selfEnv World.init (some 1)).2 (some 2)).2

/-- The state after one dispatch from `selfWorld`. -/
def selfWorldEnd : World :=
  ((run selfEnv 9 (.call 7) selfWorld).getD (.ok, World.init)).2

/-- A dispatch with `arg` from `w` in which the callable `cK` of the listener `K` connects
one new listener with the callable `cN` and keeps the handle, and no other callable makes
a call: the Signal is unblocked, without limit and not in a dispatch, and all its
listeners are live, unblocked and callable. -/
structure ConnectScene (env : Env) (w : World) (arg K cK cN : Nat) : Prop where
  fresh : env.Fresh
  unblocked : w.isBlocked = 0
  nolimit : w.observerLimit = sizeMax
  queue : w.disconnectQueue = []
  notInCall : w.inCall = false
  sorted : w.observers.Sorted (· < ·)
  live : ∀ k ∈ w.observers, alive w k = true ∧ (targetOf w k).isSome = true
  mem : K ∈ w.observers
  target : ∃ id, targetOf w K = some (cK, id)
  connects : env.prog cK arg = [.connectFn (some cN) true]
  quiet : ∀ c, c ≠ cK → env.prog c arg = []
  others : ∀ k ∈ w.observers, k ≠ K → ∀ c id, targetOf w k = some (c, id) → c ≠ cK
  newQuiet : cN ≠ cK

/-- The callable 1 disconnects the handle 1 and the callable 2 calls `clear()`. -/
def clearEnv : Env :=
  { prog := fun c _ => if c = 1 then [.disconnectPtr 1] else if c = 2 then [.clear] else [],
    alloc := bumpAlloc }

/-- A Signal with the listener 1, connected under the key "k" and owned by the Signal
alone, and the listener 2, held by its caller; their callables are 1 and 2. -/
def clearWorld : World :=
  prim clearEnv (.connectFn (some 2) true)
    (prim clearEnv (.connectKey "k" (some 1) false) World.init)

/-- A Signal outside a dispatch, without `blockedCallback`, all of whose callables only
disconnect, whatever the argument of the dispatch. -/
structure CalmSignal (env : Env) (w : World) : Prop where
  queue : w.disconnectQueue = []
  sorted : w.observers.Sorted (· < ·)
  noCallback : w.blockedCallback = none
  calm : ∀ arg, DisconnectOnly env w arg

/-- A Signal with the listener 1 connected under the key "finish", held by its caller too. -/
def namedWorld : World :=
  (Signal.connectKey quietEnv World.init "finish" (some 0)).2

/-- A call of `block()` or `unblock()`. -/
inductive BlockOp where
  | block
  | unblock
deriving DecidableEq, Repr

/-- The saturating count of the specification: each block adds 1, each unblock subtracts 1
but never goes below 0. -/
def saturatingCount : List BlockOp → Nat → Nat
  | [], d => d
  | .block :: ops, d => saturatingCount ops (d + 1)
  | .unblock :: ops, d => saturatingCount ops (d - 1)

/-- The saturating count stays in the range of the 32 bit `int` that holds the depth:
it is below `2^31` before the sequence and after each of its calls. -/
def depthInRange (ops : List BlockOp) (d : Nat) : Prop :=
  ∀ k, k ≤ ops.length → saturatingCount (ops.take k) d < 2 ^ 31

/-- The `block()` and `unblock()` calls of a sequence, the dispatches left out. -/
def blockOpsOf : List Op → List BlockOp
  | [] => []
  | .block :: ops => .block :: blockOpsOf ops
  | .unblock :: ops => .unblock :: blockOpsOf ops
  | .dispatch _ :: ops => blockOpsOf ops

/-- The calls of a sequence made on a receiver. -/
def Receiver.applyOps : List BlockOp → Receiver → Receiver
  | [], r => r
  | .block :: ops, r => Receiver.applyOps ops r.block
  | .unblock :: ops, r => Receiver.applyOps ops r.unblock

/-- The calls of a sequence made on the Signal. -/
def Signal.applyOps : List BlockOp → World → World
  | [], w => w
  | .block :: ops, w => Signal.applyOps ops (Signal.block w)
  | .unblock :: ops, w => Signal.applyOps ops (Signal.unblock w).2

/-- A receiver as `make` leaves it, with the callable 0 and the id 1. -/
def sampleReceiver : Receiver :=
  { isBlocked := 0, callback := some 0, id := 1 }

/-- A Signal with limit 1 whose key "finish" holds the listener 1, owned by the Signal alone. -/
def fullNamedWorld : World :=
  Signal.setObserverLimit (prim quietEnv (.connectKey "finish" (some 0) false) World.init) 1

/-- A Signal with the listeners 1, 2 and 3 of `quietEnv`, all held by their callers; the
receiver of listener 2 is blocked. -/
def blockedListenerWorld : World :=
  prim quietEnv (.receiverBlock 2)
    (prim quietEnv (.connectFn (some 0) true)
      (prim quietEnv (.connectFn (some 0) true)
        (prim quietEnv (.connectFn (some 0) true) World.init)))

/-- The operations of the Signal that the specification lists for the register: all of
section 4.2 but the invocation. -/
def claimedRegisterOps : List SignalMember :=
  [.connect, .connectPtr, .connectKey, .disconnectPtr, .disconnectKey, .connection, .connected,
    .clear, .block, .unblock, .setObserverLimit, .clearObserverLimit, .getObserverLimit,
    .cullDeadObservers]

/-- The operations of the Signal that the register forwards. -/
def forwardedOps : List SignalMember :=
  [.connect, .connectPtr, .connectKey, .disconnectPtr, .disconnectKey, .connection, .connected]

/-- The callable 2 disconnects the handle 3 and then raises an exception; the other
callables make no call. -/
def raiseEnv : Env :=
  { prog := fun c _ => if c = 2 then [.disconnectPtr 3, .throw] else [], alloc := bumpAlloc }

/-- The state after one dispatch from `threeListenerWorld` with the callables of
`raiseEnv`. -/
def raiseWorldEnd : World :=
  ((run raiseEnv 20 (.call 7) threeListenerWorld).getD (.ok, World.init)).2

/-- The call does not dispatch the Signal. -/
def Action.noInvoke (a : Action) : Prop :=
  ∀ x, a ≠ .invoke x

/-- The callable 1 blocks its own receiver (the handle 1), dispatches the Signal again
with the argument 9, unblocks the receiver and then disconnects the handle 2; the
callable 2 does the same for its receiver 2 and then disconnects the handle 1. -/
def nestedEnv : Env :=
  { prog := fun c _ =>
      if c = 1 then [.receiverBlock 1, .invoke 9, .receiverUnblock 1, .disconnectPtr 2]
      else if c = 2 then [.receiverBlock 2, .invoke 9, .receiverUnblock 2, .disconnectPtr 1]
      else [],
    alloc := bumpAlloc }

/-- A Signal with the listeners 1 and 2, held by their callers, whose callables are 1
and 0: listener 1 dispatches again and then disconnects listener 2. -/
def nestedWorld : World :=
  (Signal.connect nestedEnv (Signal.connect nestedEnv World.init (some 1)).2 (some 0)).2

/-- A Signal with the listeners 1, 2 and 3, held by their callers, whose callables are
0, 2 and 0: listener 2 dispatches again and then disconnects listener 1. -/
def nestedPassedWorld : World :=
  (Signal.connect nestedEnv (Signal.connect nestedEnv (Signal.connect nestedEnv World.init
    (some 0)).2 (some 2)).2 (some 0)).2

/-- The state in which the loop of a dispatch with `arg` from `w` starts the callable
`c` of the listener `k`, when `k` is the first listener that it calls. -/
def callableStart (w : World) (k id c arg : Nat) : World :=
  logEvent (lockListener (enterCall w) k) (Event.called k id c arg)

/-- A Signal with the listeners 1 and 3, connected under the keys "a" and "b" and owned
by the Signal alone, and the listeners 2 and 4, held by their callers; in `clearEnv` the
callable 2 of listener 2 calls `clear()` and the callable 0 of the others makes no call. -/
def namedClearWorld : World :=
  prim clearEnv (.connectFn (some 0) true)
    (prim clearEnv (.connectKey "b" (some 0) false)
      (prim clearEnv (.connectFn (some 2) true)
        (prim clearEnv (.connectKey "a" (some 0) false) World.init)))

/-- The state of the dispatch with argument 7 from `namedClearWorld` in which the callable
of listener 2 starts, after listener 1 was called. -/
def namedClearStart : World :=
  logEvent (lockListener (logEvent (enterCall namedClearWorld) (Event.called 1 1 0 7)) 2)
    (Event.called 2 2 2 7)

/-- The state in which the loop of that dispatch ends. -/
def namedClearLoopEnd : World :=
  ((run clearEnv 20 (.loop (some 3) 7)
    (unlockListener (Signal.clear namedClearStart) 2)).getD (.ok, World.init)).2

/-- The callable 1 calls `block()` on the Signal; the other callables make no call. -/
def blockingEnv : Env :=
  { prog := fun c _ => if c = 1 then [.block] else [], alloc := bumpAlloc }

/-- A Signal with one listener, held by its caller, whose callable is 1. -/
def blockingWorld : World :=
  (Signal.connect blockingEnv World.init (some 1)).2

/-- The callable 1 disconnects the handle 3 and then lets go of the caller's handle of
listener 2, its only owner; the other callables make no call. -/
def releaseEnv : Env :=
  { prog := fun c _ => if c = 1 then [.disconnectPtr 3, .release 2] else [], alloc := bumpAlloc }

/-- The callable 1 disconnects the handle 3 and then calls `clear()`; the other callables
make no call. -/
def clearAfterEnv : Env :=
  { prog := fun c _ => if c = 1 then [.disconnectPtr 3, .clear] else [], alloc := bumpAlloc }

/-- The callable 1 disconnects the handle 3 and then blocks the receiver of listener 2;
the other callables make no call. -/
def muteEnv : Env :=
  { prog := fun c _ => if c = 1 then [.disconnectPtr 3, .receiverBlock 2] else [],
    alloc := bumpAlloc }

/-- The callable 1 disconnects the handle 3 and then connects a new listener, whose
handle the caller keeps; the other callables make no call. -/
def connectAfterEnv : Env :=
  { prog := fun c _ => if c = 1 then [.disconnectPtr 3, .connectFn (some 0) true] else [],
    alloc := bumpAlloc }

/-! ## The sets -/

theorem mem_setInsert (a x : Nat) (l : List Nat) : x ∈ setInsert a l ↔ x = a ∨ x ∈ l := by
  induction l with
  | nil => simp [setInsert]
  | cons b l ih =>
    unfold setInsert
    split_ifs with h1 h2
    · simp
    · subst h2; simp
    · simp only [List.mem_cons, ih]; tauto

theorem setInsert_sorted (a : Nat) (l : List Nat) (h : l.Sorted (· < ·)) :
    (setInsert a l).Sorted (· < ·) := by
  induction l with
  | nil => simp [setInsert]
  | cons b l ih =>
    unfold setInsert
    rw [List.sorted_cons] at h
    split_ifs with h1 h2
    · refine List.sorted_cons.2 ⟨?_, List.sorted_cons.2 h⟩
      intro x hx
      rcases List.mem_cons.1 hx with rfl | hx
      · exact h1
      · exact lt_trans h1 (h.1 x hx)
    · exact List.sorted_cons.2 h
    · refine List.sorted_cons.2 ⟨?_, ih h.2⟩
      intro x hx
      rcases (mem_setInsert a x l).1 hx with rfl | hx
      · omega
      · exact h.1 x hx

theorem setInsert_of_mem (a : Nat) (l : List Nat) (h : l.Sorted (· < ·)) (ha : a ∈ l) :
    setInsert a l = l := by
  induction l with
  | nil => simp at ha
  | cons b l ih =>
    unfold setInsert
    rw [List.sorted_cons] at h
    rcases List.mem_cons.1 ha with rfl | ha
    · simp
    · have := h.1 a ha
      rw [if_neg (by omega), if_neg (by omega), ih h.2 ha]

theorem mem_setErase (a x : Nat) (l : List Nat) : x ∈ setErase a l ↔ x ∈ l ∧ x ≠ a := by
  simp [setErase]

theorem bumpAlloc_fresh (c : Nat) (used : List Nat) :
    bumpAlloc c used ≠ 0 ∧ bumpAlloc c used ∉ used := by
  have key : ∀ l : List Nat, ∀ x ∈ l, x ≤ l.foldr max 0 := by
    intro l
    induction l with
    | nil => simp
    | cons b l ih =>
      intro x hx
      rcases List.mem_cons.1 hx with rfl | hx
      · simp
      · have := ih x hx
        simp only [List.foldr_cons]
        omega
  refine ⟨by simp [bumpAlloc], fun hmem => ?_⟩
  have := key used _ hmem
  simp [bumpAlloc] at this

theorem quietEnv_fresh : quietEnv.Fresh :=
  fun c used => bumpAlloc_fresh c used

/-! ## Ownership and the capacity check -/

open Signal

theorem alive_congr (w w1 : World) (h1 : w1.held = w.held) (h2 : w1.locked = w.locked)
    (h3 : w1.disconnectQueue = w.disconnectQueue) (h4 : w1.ownedConnections = w.ownedConnections) :
    alive w1 = alive w := by
  funext h
  simp [alive, h1, h2, h3, h4]

theorem alive_iff (w : World) (h : Nat) :
    alive w h = true ↔ h ≠ 0 ∧ (h ∈ w.held ∨ h ∈ w.locked ∨ h ∈ w.disconnectQueue
      ∨ h ∈ w.ownedConnections.map Prod.snd) := by
  simp [alive, or_assoc]

theorem alive_ne_zero {w : World} {h : Nat} (ha : alive w h = true) : h ≠ 0 := by
  intro h0
  simp [alive, h0] at ha

theorem capacityCheck_pass_iff (w : World) :
    (capacityCheck w).1 = true ↔ (w.observerLimit = sizeMax ∨ liveCount w < w.observerLimit) := by
  unfold capacityCheck
  by_cases h : w.observerLimit = sizeMax
  · simp [h]
  · simp [h, cullDeadObservers, liveCount]

theorem capacityCheck_observers (w : World) :
    (capacityCheck w).2.observers
      = if w.observerLimit = sizeMax then w.observers else w.observers.filter (alive w) := by
  unfold capacityCheck
  by_cases h : w.observerLimit = sizeMax <;> simp [h, cullDeadObservers]

theorem connect_fail (env : Env) (w : World) (cb : Option Nat)
    (h : (capacityCheck w).1 = false) :
    Signal.connect env w cb = (0, (capacityCheck w).2) := by
  simp [Signal.connect, h]

theorem connect_pass (env : Env) (w : World) (cb : Option Nat)
    (h : (capacityCheck w).1 = true) :
    Signal.connect env w cb =
      ((Receiver.make env (capacityCheck w).2 cb).1,
        { (Receiver.make env (capacityCheck w).2 cb).2 with
          observers := setInsert (Receiver.make env (capacityCheck w).2 cb).1
            (Receiver.make env (capacityCheck w).2 cb).2.observers }) := by
  simp [Signal.connect, h]

theorem connect_pass_spec (env : Env) (hf : env.Fresh) (w : World) (cb : Option Nat)
    (h : (capacityCheck w).1 = true) :
    (Signal.connect env w cb).1 ≠ 0 ∧
    (Signal.connect env w cb).1 ∈ (Signal.connect env w cb).2.observers ∧
    (Signal.connect env w cb).1 ∉ allocated (capacityCheck w).2 ∧
    alive (Signal.connect env w cb).2 (Signal.connect env w cb).1 = true ∧
    (Signal.connect env w cb).2.observers
      = setInsert (Signal.connect env w cb).1 (capacityCheck w).2.observers := by
  rw [connect_pass env w cb h]
  have hfr := hf (capacityCheck w).2.uniqueId (allocated (capacityCheck w).2)
  refine ⟨hfr.1, ?_, hfr.2, ?_, rfl⟩
  · simp [mem_setInsert, Receiver.make]
  · simp only [alive, Receiver.make, bne_iff_ne, ne_eq, Bool.and_eq_true, decide_eq_true_eq]
    refine ⟨hfr.1, ?_⟩
    simp

theorem filter_and_length_le (l : List Nat) (p q : Nat → Bool) :
    (List.filter (fun x => p x && q x) l).length ≤ (List.filter p l).length := by
  induction l with
  | nil => simp
  | cons b l ih =>
    by_cases hq : q b = true <;> by_cases hp : p b = true <;> simp [List.filter_cons, hq, hp] <;> omega

theorem filter_and_length_lt (l : List Nat) (p q : Nat → Bool) (a : Nat) (ha : a ∈ l)
    (hp : p a = true) (hq : q a = false) :
    (List.filter (fun x => p x && q x) l).length < (List.filter p l).length := by
  induction l with
  | nil => simp at ha
  | cons b l ih =>
    by_cases hb : b = a
    · subst hb
      have := filter_and_length_le l p q
      simp [List.filter_cons, hq, hp]
      omega
    · have ha' : a ∈ l := by
        rcases List.mem_cons.1 ha with rfl | h
        · exact absurd rfl hb
        · exact h
      have := ih ha'
      by_cases hq' : q b = true <;> by_cases hp' : p b = true <;> simp [List.filter_cons, hq', hp'] <;> omega
theorem liveCount_disconnect_lt (w : World) (a : Nat) (hin : w.inCall = false)
    (ha : a ∈ w.observers) (hal : alive w a = true) :
    liveCount (disconnectPtr w a) < liveCount w := by
  have hne := alive_ne_zero hal
  have hal' : alive (eraseObserver w a) = alive w := alive_congr _ _ rfl rfl rfl rfl
  simp only [disconnectPtr, hne, ne_eq, not_false_eq_true, if_true, hin, Bool.not_false, liveCount,
    hal']
  simp only [eraseObserver, setErase, List.filter_filter]
  exact filter_and_length_lt w.observers (alive w) (fun b => decide (b ≠ a)) a ha hal (by simp)

/-- C2: with a limit set and at least that many live observers, `connect(callable)` returns
null and leaves in `observers` only references that were there (the live ones); when no
limit is set or fewer observers are live, it returns a new non-null handle, owned by the
caller and added to `observers`. At the limit, a `disconnect` of a live listener outside
a dispatch, or `clearObserverLimit`, makes the next connect succeed. -/
theorem C2_connect_capacity (env : Env) (hf : env.Fresh) (w : World) (cb : Option Nat) :
    (w.observerLimit ≠ sizeMax → w.observerLimit ≤ liveCount w →
      (Signal.connect env w cb).1 = 0 ∧
      (Signal.connect env w cb).2.observers = w.observers.filter (alive w)) ∧
    (w.observerLimit = sizeMax ∨ liveCount w < w.observerLimit →
      (Signal.connect env w cb).1 ≠ 0 ∧
      (Signal.connect env w cb).1 ∉ allocated (Signal.capacityCheck w).2 ∧
      alive (Signal.connect env w cb).2 (Signal.connect env w cb).1 = true ∧
      (Signal.connect env w cb).2.observers
        = setInsert (Signal.connect env w cb).1 (Signal.capacityCheck w).2.observers) ∧
    (∀ a, w.inCall = false → a ∈ w.observers → alive w a = true →
      liveCount w = w.observerLimit →
      (Signal.connect env (Signal.disconnectPtr w a) cb).1 ≠ 0 ∧
      (Signal.connect env (Signal.disconnectPtr w a) cb).1
        ∈ (Signal.connect env (Signal.disconnectPtr w a) cb).2.observers) ∧
    ((Signal.connect env (Signal.clearObserverLimit w) cb).1 ≠ 0 ∧
      (Signal.connect env (Signal.clearObserverLimit w) cb).1
        ∈ (Signal.connect env (Signal.clearObserverLimit w) cb).2.observers) := by
  refine ⟨?_, ?_, ?_, ?_⟩
  · intro hlim hge
    have hfail : (capacityCheck w).1 = false := by
      rw [← Bool.not_eq_true, capacityCheck_pass_iff]
      intro h
      rcases h with h | h
      · exact hlim h
      · omega
    rw [connect_fail env w cb hfail]
    refine ⟨rfl, ?_⟩
    rw [capacityCheck_observers, if_neg hlim]
  · intro h
    have hp := (capacityCheck_pass_iff w).2 h
    have := connect_pass_spec env hf w cb hp
    exact ⟨this.1, this.2.2.1, this.2.2.2.1, this.2.2.2.2⟩
  · intro a hin ha hal heq
    have hlt := liveCount_disconnect_lt w a hin ha hal
    have hlim : (disconnectPtr w a).observerLimit = w.observerLimit := by
      simp only [disconnectPtr, eraseObserver]
      split_ifs <;> rfl
    have hp : (capacityCheck (disconnectPtr w a)).1 = true :=
      (capacityCheck_pass_iff _).2 (Or.inr (by rw [hlim]; omega))
    have := connect_pass_spec env hf _ cb hp
    exact ⟨this.1, this.2.1⟩
  · have hp : (capacityCheck (clearObserverLimit w)).1 = true :=
      (capacityCheck_pass_iff _).2 (Or.inl rfl)
    have := connect_pass_spec env hf _ cb hp
    exact ⟨this.1, this.2.1⟩

/-- The scenario of C2: limit 2, A and B are connected; C fails; after `disconnect(A)`
the connect of C succeeds. -/
theorem C2_connect_capacity_witness :
    quietEnv.Fresh ∧ limitTwoWorld.observers = [1, 2] ∧
    (Signal.connect quietEnv limitTwoWorld none).1 = 0 ∧
    (Signal.connect quietEnv limitTwoWorld none).2.observers = [1, 2] ∧
    (Signal.connect quietEnv (Signal.disconnectPtr limitTwoWorld 1) none).1 ≠ 0 :=
  ⟨quietEnv_fresh, by decide,
    ((C2_connect_capacity quietEnv quietEnv_fresh limitTwoWorld none).1 (by decide) (by decide)).1,
    by decide,
    ((C2_connect_capacity quietEnv quietEnv_fresh limitTwoWorld none).2.2.1 1 (by decide)
      (by decide) (by decide) (by decide)).1⟩

/-! ## Unfolding the interpreter -/
theorem run_zero (env : Env) (t : Task) (w : World) : run env 0 t w = none := by
  simp [run]

theorem run_body_nil (env : Env) (n : Nat) (w : World) :
    run env (n + 1) (.body []) w = some (.ok, w) := by
  simp [run]

theorem run_body_throw (env : Env) (n : Nat) (rest : List Action) (w : World) :
    run env (n + 1) (.body (.throw :: rest)) w = some (.raised, w) := by
  simp [run]

theorem run_body_invoke (env : Env) (n : Nat) (arg : Nat) (rest : List Action) (w : World) :
    run env (n + 1) (.body (.invoke arg :: rest)) w =
      match run env n (.call arg) w with
      | some (.ok, w1) => run env n (.body rest) w1
      | r => r := by
  simp [run]

theorem run_body_prim (env : Env) (n : Nat) (a : Action) (rest : List Action) (w : World)
    (ha : a.isControl = false) :
    run env (n + 1) (.body (a :: rest)) w = run env n (.body rest) (prim env a w) := by
  cases a <;> simp [Action.isControl] at ha <;> simp [run]

theorem run_call (env : Env) (n : Nat) (arg : Nat) (w : World) :
    run env (n + 1) (.call arg) w =
      if !Signal.blocked w then
        match run env n (.loop w.observers.head? arg) (enterCall w) with
        | some (.ok, w1) => run env n (.blockedPart arg) (Signal.scopeExit w1)
        | some (.raised, w1) => some (.raised, Signal.scopeExit w1)
        | r => r
      else run env n (.blockedPart arg) w := by
  simp [run]

theorem run_blockedPart (env : Env) (n : Nat) (arg : Nat) (w : World) :
    run env (n + 1) (.blockedPart arg) w =
      if Signal.blocked w then
        match w.blockedCallback with
        | some c => run env n (.body (env.prog c arg))
            (logEvent (markCalled w) (Event.blockedCalled arg))
        | none => some (.ok, markCalled w)
      else some (.ok, w) := by
  simp [run]

theorem run_loop_none (env : Env) (n : Nat) (arg : Nat) (w : World) :
    run env (n + 1) (.loop none arg) w = some (.ok, w) := by
  simp [run]

theorem run_loop_some (env : Env) (n : Nat) (k arg : Nat) (w : World) :
    run env (n + 1) (.loop (some k) arg) w =
      if w.observers.isEmpty then some (.ok, w)
      else if alive w k then
        match (match (receiverAt (lockListener w k) k).bind notifyTarget with
          | some (c, id) => run env n (.body (env.prog c arg))
              (logEvent (lockListener w k) (Event.called k id c arg))
          | none => some (.ok, lockListener w k)) with
        | some (.ok, w2) =>
          if staleIter (setNext k w.observers) (w2.erased.drop w.erased.length) then
            some (.undefined, unlockListener w2 k)
          else run env n (.loop (setNext k w.observers) arg) (unlockListener w2 k)
        | some (.raised, w2) => some (.raised, unlockListener w2 k)
        | r1 => r1
      else
        run env n (.loop (setNext k w.observers) arg) (Signal.eraseObserver w k) := by
  simp [run]

theorem action_control_cases (a : Action) :
    a.isControl = false ∨ a = .throw ∨ ∃ arg, a = .invoke arg := by
  cases a <;> simp [Action.isControl]

theorem run_succ (env : Env) : ∀ (n : Nat) (t : Task) (w : World) (r : Status × World),
    run env n t w = some r → run env (n + 1) t w = some r := by
  intro n
  induction n with
  | zero => intro t w r h; simp [run_zero] at h
  | succ n ih =>
    intro t w r h
    cases t with
    | body acts =>
      cases acts with
      | nil => rw [run_body_nil] at h ⊢; exact h
      | cons a rest =>
        rcases action_control_cases a with hc | rfl | ⟨arg, rfl⟩
        · rw [run_body_prim _ _ _ _ _ hc] at h ⊢
          exact ih _ _ _ h
        · rw [run_body_throw] at h ⊢; exact h
        · rw [run_body_invoke] at h ⊢
          cases hr : run env n (.call arg) w with
          | none => simp [hr] at h
          | some p =>
            rw [ih _ _ _ hr]
            rw [hr] at h
            obtain ⟨st, w1⟩ := p
            cases st
            · exact ih _ _ _ h
            · exact h
            · exact h
    | call arg =>
      rw [run_call] at h ⊢
      split_ifs at h ⊢ with hb
      · cases hr : run env n (.loop w.observers.head? arg) (enterCall w) with
        | none => simp [hr] at h
        | some p =>
          rw [ih _ _ _ hr]
          rw [hr] at h
          obtain ⟨st, w1⟩ := p
          cases st
          · exact ih _ _ _ h
          · exact h
          · exact h
      · exact ih _ _ _ h
    | blockedPart arg =>
      rw [run_blockedPart] at h ⊢
      split_ifs at h ⊢ with hb
      · rcases Option.eq_none_or_eq_some w.blockedCallback with hc | ⟨c, hc⟩
        · simpa [hc] using h
        · simp only [hc] at h ⊢
          exact ih _ _ _ h
      · exact h
    | loop i arg =>
      cases i with
      | none => rw [run_loop_none] at h ⊢; exact h
      | some k =>
        rw [run_loop_some] at h ⊢
        split_ifs at h ⊢ with he ha
        · exact h
        · cases ht : (receiverAt (lockListener w k) k).bind notifyTarget with
          | none =>
            simp only [ht] at h ⊢
            split_ifs at h ⊢ with hs
            · exact h
            · exact ih _ _ _ h
          | some ci =>
            obtain ⟨c, id⟩ := ci
            simp only [ht] at h ⊢
            cases hr : run env n (.body (env.prog c arg))
                (logEvent (lockListener w k) (Event.called k id c arg)) with
            | none => simp [hr] at h
            | some p =>
              rw [ih _ _ _ hr]
              rw [hr] at h
              obtain ⟨st, w1⟩ := p
              cases st
              · simp only at h ⊢
                split_ifs at h ⊢ with hs
                · exact h
                · exact ih _ _ _ h
              · exact h
              · exact h
        · exact ih _ _ _ h

theorem run_mono (env : Env) (n m : Nat) (hnm : n ≤ m) (t : Task) (w : World)
    (r : Status × World) (h : run env n t w = some r) : run env m t w = some r := by
  induction hnm with
  | refl => exact h
  | step _ ih => exact run_succ env _ t w r ih



theorem run_rel (env : Env) (allowed : Action → Prop) (R : World → World → Prop)
    (hc : StepClosed env allowed R) :
    ∀ (n : Nat) (t : Task) (w : World) (st : Status) (w' : World),
      t.allowed allowed → run env n t w = some (st, w') → R w w' := by
  intro n
  induction n with
  | zero => intro t w st w' _ h; simp [run_zero] at h
  | succ n ih =>
    intro t w st w' hal h
    cases t with
    | body acts =>
      cases acts with
      | nil =>
        rw [run_body_nil] at h
        cases h
        exact hc.refl w
      | cons a rest =>
        have hrest : (Task.body rest).allowed allowed := fun x hx => hal x (List.mem_cons_of_mem _ hx)
        rcases action_control_cases a with hctl | rfl | ⟨arg, rfl⟩
        · rw [run_body_prim _ _ _ _ _ hctl] at h
          exact hc.trans _ _ _ (hc.prim a w (hal a (List.mem_cons_self _ _)) hctl)
            (ih (.body rest) _ _ _ hrest h)
        · rw [run_body_throw] at h
          cases h
          exact hc.refl w
        · rw [run_body_invoke] at h
          cases hr : run env n (.call arg) w with
          | none => simp [hr] at h
          | some p =>
            rw [hr] at h
            obtain ⟨st1, w1⟩ := p
            have h1 := ih (.call arg) _ _ _ trivial hr
            cases st1
            · exact hc.trans _ _ _ h1 (ih (.body rest) _ _ _ hrest h)
            · cases h; exact h1
            · cases h; exact h1
    | call arg =>
      rw [run_call] at h
      split_ifs at h with hb
      · have hb' : Signal.blocked w = false := by simpa using hb
        cases hr : run env n (.loop w.observers.head? arg) (enterCall w) with
        | none => simp [hr] at h
        | some p =>
          rw [hr] at h
          obtain ⟨st1, w1⟩ := p
          have h1 := hc.trans _ _ _ (hc.enter w hb') (ih (.loop w.observers.head? arg) _ _ _ trivial hr)
          cases st1
          · exact hc.trans _ _ _ (hc.trans _ _ _ h1 (hc.exit w1)) (ih (.blockedPart arg) _ _ _ trivial h)
          · cases h; exact hc.trans _ _ _ h1 (hc.exit w1)
          · cases h; exact h1
      · exact ih (.blockedPart arg) _ _ _ trivial h
    | blockedPart arg =>
      rw [run_blockedPart] at h
      split_ifs at h with hb
      · rcases Option.eq_none_or_eq_some w.blockedCallback with hcb | ⟨c, hcb⟩
        · simp only [hcb] at h
          cases h
          exact hc.flag w hb
        · simp only [hcb] at h
          exact hc.trans _ _ _ (hc.trans _ _ _ (hc.flag w hb) (hc.log _ _))
            (ih (.body (env.prog c arg)) _ _ _ (hc.prog c arg) h)
      · cases h; exact hc.refl w
    | loop i arg =>
      cases i with
      | none => rw [run_loop_none] at h; cases h; exact hc.refl w
      | some k =>
        rw [run_loop_some] at h
        split_ifs at h with he ha
        · cases h; exact hc.refl w
        · cases ht : (receiverAt (lockListener w k) k).bind notifyTarget with
          | none =>
            simp only [ht] at h
            have h2 := hc.trans _ _ _ (hc.lock w k ha) (hc.unlock (lockListener w k) k)
            split_ifs at h with hs
            · cases h; exact h2
            · exact hc.trans _ _ _ h2 (ih (.loop (setNext k w.observers) arg) _ _ _ trivial h)
          | some ci =>
            obtain ⟨c, id⟩ := ci
            simp only [ht] at h
            cases hr : run env n (.body (env.prog c arg))
                (logEvent (lockListener w k) (Event.called k id c arg)) with
            | none => simp [hr] at h
            | some p =>
              rw [hr] at h
              obtain ⟨st1, w1⟩ := p
              have h1 := hc.trans _ _ _ (hc.trans _ _ _ (hc.lock w k ha) (hc.log _ _))
                (ih (.body (env.prog c arg)) _ _ _ (hc.prog c arg) hr)
              have h2 := hc.trans _ _ _ h1 (hc.unlock w1 k)
              cases st1
              · simp only at h
                split_ifs at h with hs
                · cases h; exact h2
                · exact hc.trans _ _ _ h2 (ih (.loop (setNext k w.observers) arg) _ _ _ trivial h)
              · cases h; exact h2
              · cases h; exact h1
        · have ha' : alive w k = false := by simpa using ha
          exact hc.trans _ _ _ (hc.erase w k ha') (ih (.loop (setNext k w.observers) arg) _ _ _ trivial h)


/-! ## Tasks that end -/


theorem Runs.mono {env : Env} {t : Task} {w : World} {r : Status × World} (h : Runs env t w r) :
    ∃ n, ∀ m, n ≤ m → run env m t w = some r := by
  obtain ⟨n, hn⟩ := h
  exact ⟨n, fun m hm => run_mono env n m hm t w r hn⟩

theorem Runs.det {env : Env} {t : Task} {w : World} {r1 r2 : Status × World}
    (h1 : Runs env t w r1) (h2 : Runs env t w r2) : r1 = r2 := by
  obtain ⟨n1, hn1⟩ := h1
  obtain ⟨n2, hn2⟩ := h2
  have a := run_mono env n1 (max n1 n2) (le_max_left _ _) t w r1 hn1
  have b := run_mono env n2 (max n1 n2) (le_max_right _ _) t w r2 hn2
  rw [a] at b
  exact Option.some.inj b

theorem Runs.of_run {env : Env} {t : Task} {w : World} {r : Status × World} {n : Nat}
    (h : Runs env t w r) (hn : (run env n t w).isSome = true) : run env n t w = some r := by
  obtain ⟨r1, hr1⟩ := Option.isSome_iff_exists.1 hn
  rw [hr1, Runs.det ⟨n, hr1⟩ h]

theorem Runs.body_nil (env : Env) (w : World) : Runs env (.body []) w (.ok, w) :=
  ⟨1, run_body_nil env 0 w⟩

theorem Runs.body_prim {env : Env} {a : Action} {rest : List Action} {w : World}
    {r : Status × World} (ha : a.isControl = false)
    (h : Runs env (.body rest) (prim env a w) r) : Runs env (.body (a :: rest)) w r := by
  obtain ⟨n, hn⟩ := h
  exact ⟨n + 1, by rw [run_body_prim _ _ _ _ _ ha]; exact hn⟩

theorem Runs.loop_none (env : Env) (arg : Nat) (w : World) :
    Runs env (.loop none arg) w (.ok, w) :=
  ⟨1, run_loop_none env 0 arg w⟩

theorem Runs.loop_expired {env : Env} {k arg : Nat} {w : World} {r : Status × World}
    (hne : w.observers ≠ []) (hdead : alive w k = false)
    (h : Runs env (.loop (setNext k w.observers) arg) (Signal.eraseObserver w k) r) :
    Runs env (.loop (some k) arg) w r := by
  obtain ⟨n, hn⟩ := h
  refine ⟨n + 1, ?_⟩
  rw [run_loop_some]
  simp [hne, hdead, hn]

theorem Runs.loop_skip {env : Env} {k arg : Nat} {w : World} {r : Status × World}
    (hne : w.observers ≠ []) (hal : alive w k = true)
    (ht : targetOf (lockListener w k) k = none)
    (h : Runs env (.loop (setNext k w.observers) arg) (unlockListener (lockListener w k) k) r) :
    Runs env (.loop (some k) arg) w r := by
  obtain ⟨n, hn⟩ := h
  refine ⟨n + 1, ?_⟩
  rw [run_loop_some]
  simp only [targetOf] at ht
  have hst : staleIter (setNext k w.observers)
      (List.drop w.erased.length (lockListener w k).erased) = false := by
    cases hx : setNext k w.observers <;> simp [staleIter, lockListener]
  simp [hne, hal, ht, hn, hst]

theorem Runs.loop_call {env : Env} {k arg c id : Nat} {w w2 : World} {r : Status × World}
    (hne : w.observers ≠ []) (hal : alive w k = true)
    (ht : targetOf (lockListener w k) k = some (c, id))
    (hbody : Runs env (.body (env.prog c arg))
      (logEvent (lockListener w k) (Event.called k id c arg)) (.ok, w2))
    (hst : staleIter (setNext k w.observers) (w2.erased.drop w.erased.length) = false)
    (h : Runs env (.loop (setNext k w.observers) arg) (unlockListener w2 k) r) :
    Runs env (.loop (some k) arg) w r := by
  obtain ⟨n1, hn1⟩ := hbody
  obtain ⟨n2, hn2⟩ := h
  refine ⟨max n1 n2 + 1, ?_⟩
  rw [run_loop_some]
  simp only [targetOf] at ht
  have a := run_mono env n1 (max n1 n2) (le_max_left _ _) _ _ _ hn1
  have b := run_mono env n2 (max n1 n2) (le_max_right _ _) _ _ _ hn2
  simp [hne, hal, ht, a, hst, b]

theorem Runs.call_ok {env : Env} {arg : Nat} {w w1 : World} {r : Status × World}
    (hb : Signal.blocked w = false)
    (hloop : Runs env (.loop w.observers.head? arg) (enterCall w) (.ok, w1))
    (h : Runs env (.blockedPart arg) (Signal.scopeExit w1) r) :
    Runs env (.call arg) w r := by
  obtain ⟨n1, hn1⟩ := hloop
  obtain ⟨n2, hn2⟩ := h
  refine ⟨max n1 n2 + 1, ?_⟩
  rw [run_call]
  have a := run_mono env n1 (max n1 n2) (le_max_left _ _) _ _ _ hn1
  have b := run_mono env n2 (max n1 n2) (le_max_right _ _) _ _ _ hn2
  simp [hb, a, b]

theorem Runs.blockedPart_skip (env : Env) (arg : Nat) (w : World)
    (hb : Signal.blocked w = false) : Runs env (.blockedPart arg) w (.ok, w) :=
  ⟨1, by rw [run_blockedPart]; simp [hb]⟩


/-! ## A dispatch whose callables only disconnect -/


theorem setNext_append (pre suf : List Nat) (k : Nat) (hs : (pre ++ k :: suf).Sorted (· < ·)) :
    setNext k (pre ++ k :: suf) = suf.head? := by
  have hp := List.pairwise_append.1 hs
  have hk := List.pairwise_cons.1 hp.2.1
  simp only [setNext, List.find?_append]
  have h1 : List.find? (fun b => decide (k < b)) pre = none := by
    rw [List.find?_eq_none]
    intro x hx
    have := hp.2.2 x hx k (List.mem_cons_self _ _)
    simp only [decide_eq_true_eq]
    omega
  rw [h1]
  simp only [Option.none_or, List.find?_cons, lt_self_iff_false, decide_False]
  cases suf with
  | nil => rfl
  | cons b l =>
    have := hk.1 b (List.mem_cons_self _ _)
    simp [List.find?_cons, this]

theorem setErase_append (pre suf : List Nat) (k : Nat) (hs : (pre ++ k :: suf).Sorted (· < ·)) :
    setErase k (pre ++ k :: suf) = pre ++ suf := by
  have hp := List.pairwise_append.1 hs
  have hk := List.pairwise_cons.1 hp.2.1
  simp only [setErase, List.filter_append, List.filter_cons, ne_eq, not_true_eq_false,
    decide_False, Bool.false_eq_true, if_false]
  congr 1
  · rw [List.filter_eq_self]
    intro x hx
    have := hp.2.2 x hx k (List.mem_cons_self _ _)
    simp only [decide_not, Bool.not_eq_true', decide_eq_false_iff_not]
    omega
  · rw [List.filter_eq_self]
    intro x hx
    have := hk.1 x hx
    simp only [decide_not, Bool.not_eq_true', decide_eq_false_iff_not]
    omega

theorem mem_enqueue (hs q : List Nat) (x : Nat) : x ∈ enqueue hs q ↔ x ∈ hs ∨ x ∈ q := by
  induction hs generalizing q with
  | nil => simp [enqueue]
  | cons h hs ih =>
    have := ih (setInsert h q)
    simp only [enqueue, List.foldl_cons] at this ⊢
    rw [this, mem_setInsert]
    simp only [List.mem_cons]
    tauto

theorem enqueue_append (a b q : List Nat) : enqueue (a ++ b) q = enqueue b (enqueue a q) := by
  simp [enqueue, List.foldl_append]

theorem body_disconnects (env : Env) (acts : List Action) (w : World) (hin : w.inCall = true)
    (hall : ∀ a ∈ acts, ∃ h, a = Action.disconnectPtr h) :
    Runs env (.body acts) w
      (.ok, { w with disconnectQueue := enqueue (requestedOf acts) w.disconnectQueue }) := by
  induction acts generalizing w with
  | nil => exact Runs.body_nil env w
  | cons a rest ih =>
    obtain ⟨h, rfl⟩ := hall _ (List.mem_cons_self _ _)
    refine Runs.body_prim rfl ?_
    have hrest : ∀ a ∈ rest, ∃ h, a = Action.disconnectPtr h :=
      fun a ha => hall a (List.mem_cons_of_mem _ ha)
    by_cases h0 : h = 0
    · have hp : prim env (.disconnectPtr h) w = w := by simp [prim, Signal.disconnectPtr, h0]
      have hr : requestedOf (Action.disconnectPtr h :: rest) = requestedOf rest := by
        simp [requestedOf, h0]
      rw [hp, hr]
      exact ih w hin hrest
    · have hp : prim env (.disconnectPtr h) w
          = { w with disconnectQueue := setInsert h w.disconnectQueue } := by
        simp [prim, Signal.disconnectPtr, h0, hin]
      have hr : requestedOf (Action.disconnectPtr h :: rest) = h :: requestedOf rest := by
        simp [requestedOf, h0]
      rw [hp, hr]
      have := ih { w with disconnectQueue := setInsert h w.disconnectQueue } hin hrest
      simpa [enqueue] using this


theorem LoopInv.alive_eq {w0 wj : World} (h : LoopInv w0 wj) : alive wj = alive w0 := by
  funext x
  rw [Bool.eq_iff_iff, alive_iff, alive_iff, h.held, h.locked, h.owned]
  constructor
  · rintro ⟨hx, h1 | h1 | h1 | h1⟩
    · exact ⟨hx, Or.inl h1⟩
    · exact ⟨hx, Or.inr (Or.inl h1)⟩
    · exact (alive_iff w0 x).1 (h.queue x h1)
    · exact ⟨hx, Or.inr (Or.inr (Or.inr h1))⟩
  · rintro ⟨hx, h1 | h1 | h1 | h1⟩
    · exact ⟨hx, Or.inl h1⟩
    · exact ⟨hx, Or.inr (Or.inl h1)⟩
    · exact ⟨hx, Or.inr (Or.inr (Or.inl (h.sub x h1)))⟩
    · exact ⟨hx, Or.inr (Or.inr (Or.inr h1))⟩

theorem requestedOf_alive (env : Env) (w0 : World) (arg : Nat) (k c id : Nat)
    (hd : DisconnectOnlyAt env w0 arg k) (ht : targetOf w0 k = some (c, id)) :
    ∀ x ∈ requestedOf (env.prog c arg), alive w0 x = true := by
  intro x hx
  simp only [requestedOf, List.mem_filterMap] at hx
  obtain ⟨a, ha, hax⟩ := hx
  obtain ⟨h, rfl, hh⟩ := hd c id ht a ha
  by_cases h0 : h = 0
  · simp [h0] at hax
  · simp only [h0, ne_eq, not_false_eq_true, if_true, Option.some.injEq] at hax
    subst hax
    rcases hh with hh | hh
    · exact absurd hh h0
    · exact hh

theorem loop_prefix (env : Env) (w0 : World) (arg : Nat) (rest : List Nat)
    (r : Status × World) :
    ∀ (suf pre : List Nat) (wj : World), (∀ k ∈ suf, DisconnectOnlyAt env w0 arg k) →
      wj.observers = pre ++ suf ++ rest →
      (pre ++ suf ++ rest).Sorted (· < ·) → LoopInv w0 wj →
      Runs env (.loop rest.head? arg) (loopMid env w0 arg wj pre suf rest) r →
      Runs env (.loop (suf ++ rest).head? arg) wj r := by
  intro suf
  induction suf with
  | nil =>
    intro pre wj _ hobs _ _ hrest
    have hobs' : pre ++ rest = wj.observers := by simp [hobs]
    have : loopMid env w0 arg wj pre [] rest = wj := by
      simp [loopMid, callsOf, requestsOf, enqueue, hobs']
    rw [this] at hrest
    exact hrest
  | cons k suf ih =>
    intro pre wj hdall hobs hs hinv hrest
    have hd := hdall k (List.mem_cons_self _ _)
    have hdall' : ∀ x ∈ suf, DisconnectOnlyAt env w0 arg x :=
      fun x hx => hdall x (List.mem_cons_of_mem _ hx)
    have hobs2 : wj.observers = pre ++ k :: (suf ++ rest) := by simp [hobs]
    have hs2 : (pre ++ k :: (suf ++ rest)).Sorted (· < ·) := by simpa using hs
    have hne : wj.observers ≠ [] := by rw [hobs2]; simp
    have hnext : setNext k wj.observers = (suf ++ rest).head? := by
      rw [hobs2]; exact setNext_append pre (suf ++ rest) k hs2
    have hs' : ((pre ++ [k]) ++ suf ++ rest).Sorted (· < ·) := by simpa using hs
    simp only [List.cons_append, List.head?_cons]
    by_cases hal : alive w0 k = true
    · have halj : alive wj k = true := by rw [hinv.alive_eq]; exact hal
      have htl : targetOf (lockListener wj k) k = targetOf w0 k := by
        simp [targetOf, receiverAt, lockListener, hinv.heap]
      rcases hto : targetOf w0 k with _ | ⟨c, id⟩
      · -- the listener is blocked or has no callable
        refine Runs.loop_skip hne halj (htl.trans hto) ?_
        rw [hnext]
        have hw : unlockListener (lockListener wj k) k = wj := by
          simp [unlockListener, lockListener]
        rw [hw]
        have he : loopMid env w0 arg wj (pre ++ [k]) suf rest
            = loopMid env w0 arg wj pre (k :: suf) rest := by
          simp [loopMid, List.filter_cons, hal, callsOf, requestsOf, hto]
        exact ih (pre ++ [k]) wj hdall' (by simp [hobs]) hs' hinv (by rw [he]; exact hrest)
      · -- the callable of the listener runs
        obtain ⟨w2, hw2, hbody⟩ : ∃ w2 : World,
            w2 = { logEvent (lockListener wj k) (Event.called k id c arg) with
                   disconnectQueue := enqueue (requestedOf (env.prog c arg)) wj.disconnectQueue } ∧
            Runs env (.body (env.prog c arg))
              (logEvent (lockListener wj k) (Event.called k id c arg)) (.ok, w2) :=
          ⟨_, rfl, body_disconnects env (env.prog c arg)
            (logEvent (lockListener wj k) (Event.called k id c arg))
            (by simp [logEvent, lockListener, hinv.inCall])
            (fun a ha => by
              obtain ⟨h, hh, _⟩ := hd c id hto a ha
              exact ⟨h, hh⟩)⟩
        refine Runs.loop_call hne halj (htl.trans hto) hbody ?_ ?_
        · cases hx : setNext k wj.observers <;> simp [staleIter, hw2, logEvent, lockListener]
        · rw [hnext]
          have hinv' : LoopInv w0 (unlockListener w2 k) := by
            subst hw2
            refine ⟨?_, ?_, ?_, ?_, ?_, ?_, ?_⟩
            · simp [unlockListener, logEvent, lockListener, hinv.inCall]
            · simp [unlockListener, logEvent, lockListener, hinv.heap]
            · simp [unlockListener, logEvent, lockListener, hinv.held]
            · simp [unlockListener, logEvent, lockListener, hinv.locked]
            · simp [unlockListener, logEvent, lockListener, hinv.owned]
            · intro x hx
              simp only [unlockListener, logEvent, lockListener, mem_enqueue] at hx
              rcases hx with hx | hx
              · exact requestedOf_alive env w0 arg k c id hd hto x hx
              · exact hinv.queue x hx
            · intro x hx
              simp only [unlockListener, logEvent, lockListener, mem_enqueue]
              exact Or.inr (hinv.sub x hx)
          have he : loopMid env w0 arg (unlockListener w2 k) (pre ++ [k]) suf rest
              = loopMid env w0 arg wj pre (k :: suf) rest := by
            simp [hw2, loopMid, List.filter_cons, hal, callsOf, requestsOf, hto, unlockListener,
              logEvent, lockListener, enqueue_append]
          exact ih (pre ++ [k]) (unlockListener w2 k) hdall'
            (by simp [hw2, unlockListener, logEvent, lockListener, hobs]) hs' hinv'
            (by rw [he]; exact hrest)
    · -- the reference is expired
      have hal' : alive w0 k = false := by simpa using hal
      have halj : alive wj k = false := by rw [hinv.alive_eq]; exact hal'
      refine Runs.loop_expired hne halj ?_
      rw [hnext]
      have hinv' : LoopInv w0 (Signal.eraseObserver wj k) :=
        ⟨hinv.inCall, hinv.heap, hinv.held, hinv.locked, hinv.owned, hinv.queue, hinv.sub⟩
      have hobs' : (Signal.eraseObserver wj k).observers = pre ++ suf ++ rest := by
        simp only [Signal.eraseObserver, hobs2, List.append_assoc]
        exact setErase_append pre (suf ++ rest) k hs2
      have hs'' : (pre ++ suf ++ rest).Sorted (· < ·) := by
        have := List.pairwise_append.1 hs2
        rw [List.append_assoc]
        refine List.pairwise_append.2 ⟨this.1, (List.pairwise_cons.1 this.2.1).2, ?_⟩
        intro a ha b hb
        exact this.2.2 a ha b (List.mem_cons_of_mem _ hb)
      have he : loopMid env w0 arg (Signal.eraseObserver wj k) pre suf rest
          = loopMid env w0 arg wj pre (k :: suf) rest := by
        simp [loopMid, List.filter_cons, hal', Signal.eraseObserver, hobs]
      exact ih pre _ hdall' hobs' hs'' hinv' (by rw [he]; exact hrest)

theorem loop_disconnectOnly (env : Env) (w0 : World) (arg : Nat)
    (hd : DisconnectOnly env w0 arg) (suf pre : List Nat) (wj : World)
    (hobs : wj.observers = pre ++ suf) (hs : (pre ++ suf).Sorted (· < ·))
    (hinv : LoopInv w0 wj) :
    Runs env (.loop suf.head? arg) wj (.ok, loopEnd env w0 arg wj pre suf) := by
  have he : loopMid env w0 arg wj pre suf [] = loopEnd env w0 arg wj pre suf := by
    simp [loopMid, loopEnd]
  have := loop_prefix env w0 arg [] (.ok, loopEnd env w0 arg wj pre suf) suf pre wj
    (fun k _ => hd k) (by simpa using hobs) (by simpa using hs) hinv
    (by rw [he]; exact Runs.loop_none env arg _)
  simpa using this


theorem dispatch_disconnectOnly (env : Env) (w : World) (arg : Nat)
    (h0 : w.isBlocked = 0) (hq : w.disconnectQueue = [])
    (hs : w.observers.Sorted (· < ·)) (hd : DisconnectOnly env w arg) :
    Runs env (.call arg) w (.ok, dispatchEnd env w arg) := by
  have hinv : LoopInv w (enterCall w) :=
    ⟨rfl, rfl, rfl, rfl, rfl, fun x hx => by simp [enterCall, hq] at hx,
      fun x hx => by simp [hq] at hx⟩
  have hloop := loop_disconnectOnly env w arg hd w.observers [] (enterCall w) rfl hs hinv
  have hb : Signal.blocked w = false := by simp [Signal.blocked, h0]
  refine Runs.call_ok hb hloop ?_
  exact Runs.blockedPart_skip env arg _ (by simp [Signal.blocked, Signal.scopeExit, loopEnd, enterCall, h0])

theorem dispatchEnd_fields (env : Env) (w : World) (arg : Nat) (hq : w.disconnectQueue = []) :
    (dispatchEnd env w arg).log = w.log ++ callsOf w arg (w.observers.filter (alive w)) ∧
    (dispatchEnd env w arg).observers
      = (w.observers.filter (alive w)).filter
          (fun k => decide (k ∉ requestsOf env w arg (w.observers.filter (alive w)))) ∧
    (dispatchEnd env w arg).inCall = false ∧ (dispatchEnd env w arg).disconnectQueue = [] ∧
    (dispatchEnd env w arg).heap = w.heap ∧ (dispatchEnd env w arg).held = w.held ∧
    (dispatchEnd env w arg).locked = w.locked ∧
    (dispatchEnd env w arg).ownedConnections = w.ownedConnections ∧
    (dispatchEnd env w arg).isBlocked = w.isBlocked := by
  refine ⟨rfl, ?_, rfl, rfl, rfl, rfl, rfl, rfl, rfl⟩
  simp only [dispatchEnd, Signal.scopeExit, loopEnd, enterCall, List.nil_append, hq]
  apply List.filter_congr
  intro x _
  simp [mem_enqueue]

theorem calledHandles_callsOf (w : World) (arg : Nat) (ks : List Nat)
    (h : ∀ k ∈ ks, (targetOf w k).isSome = true) : calledHandles (callsOf w arg ks) = ks := by
  induction ks with
  | nil => rfl
  | cons k ks ih =>
    obtain ⟨p, hp⟩ := Option.isSome_iff_exists.1 (h k (List.mem_cons_self _ _))
    have := ih (fun x hx => h x (List.mem_cons_of_mem _ hx))
    simp only [calledHandles, callsOf] at this ⊢
    simp [List.filterMap_cons, hp, Event.handle?, this]


/-! ## A dispatch that starts no nested dispatch -/


theorem prim_queueKept (env : Env) (a : Action) (w : World) (ha : a.plain)
    (hc : a.isControl = false) : QueueKept w (prim env a w) := by
  obtain ⟨h1, h2⟩ := ha
  cases a <;> simp [Action.isControl] at hc h2 <;>
    simp only [QueueKept, prim, Receiver.make, Signal.connect, capacityCheck, cullDeadObservers,
      Signal.connectPtr, Signal.connectKey, Signal.disconnectPtr, eraseObserver,
      Signal.disconnectKey, Signal.block, Signal.unblock, Signal.setObserverLimit,
      Signal.clearObserverLimit, setReceiver] <;>
    (repeat' split) <;> simp_all [mem_setInsert]

theorem QueueKept.refl (w : World) : QueueKept w w :=
  ⟨rfl, rfl, rfl, fun _ _ h => h⟩

theorem QueueKept.trans {a b c : World} (h1 : QueueKept a b) (h2 : QueueKept b c) :
    QueueKept a c :=
  ⟨h2.1.trans h1.1, h2.2.1.trans h1.2.1, h2.2.2.1.trans h1.2.2.1,
    fun hin x hx => h2.2.2.2 (h1.2.1.trans hin) x (h1.2.2.2 hin x hx)⟩

theorem body_queueKept (env : Env) :
    ∀ (acts : List Action) (n : Nat) (w : World) (st : Status) (w1 : World),
      (∀ a ∈ acts, a.plain) → run env n (.body acts) w = some (st, w1) →
      QueueKept w w1 ∧ st ≠ .undefined := by
  intro acts
  induction acts with
  | nil =>
    intro n w st w1 _ h
    cases n with
    | zero => simp [run_zero] at h
    | succ n =>
      rw [run_body_nil] at h
      cases h
      exact ⟨QueueKept.refl w, by simp⟩
  | cons a rest ih =>
    intro n w st w1 hall h
    cases n with
    | zero => simp [run_zero] at h
    | succ n =>
      have ha := hall a (List.mem_cons_self _ _)
      rcases action_control_cases a with hctl | rfl | ⟨arg, rfl⟩
      · rw [run_body_prim _ _ _ _ _ hctl] at h
        have := ih n _ st w1 (fun x hx => hall x (List.mem_cons_of_mem _ hx)) h
        exact ⟨(prim_queueKept env a w ha hctl).trans this.1, this.2⟩
      · rw [run_body_throw] at h
        cases h
        exact ⟨QueueKept.refl w, by simp⟩
      · exact absurd rfl (ha.1 arg)


theorem setNext_lt {k k1 : Nat} {l : List Nat} (h : setNext k l = some k1) : k < k1 := by
  have := List.find?_some h
  simpa using this

theorem body_reaches_disconnect (env : Env) (h : Nat) (hh : h ≠ 0) (rest : List Action) :
    ∀ (pre : List Action) (n : Nat) (w : World) (st : Status) (w2 : World),
      (∀ a ∈ pre ++ Action.disconnectPtr h :: rest, a.plain) → (∀ a ∈ pre, a ≠ Action.throw) →
      w.inCall = true →
      run env n (.body (pre ++ Action.disconnectPtr h :: rest)) w = some (st, w2) →
      h ∈ w2.disconnectQueue := by
  intro pre
  induction pre with
  | nil =>
    intro n w st w2 hpl _ hin hrun
    cases n with
    | zero => simp [run_zero] at hrun
    | succ n =>
      rw [List.nil_append, run_body_prim env n (.disconnectPtr h) rest w rfl] at hrun
      have hk := (body_queueKept env rest n _ st w2
        (fun a ha => hpl a (by simp [ha])) hrun).1
      have hp : prim env (.disconnectPtr h) w
          = { w with disconnectQueue := setInsert h w.disconnectQueue } := by
        simp [prim, Signal.disconnectPtr, hh, hin]
      rw [hp] at hk
      exact hk.2.2.2 hin h ((mem_setInsert h h _).2 (Or.inl rfl))
  | cons a pre ih =>
    intro n w st w2 hpl hnt hin hrun
    cases n with
    | zero => simp [run_zero] at hrun
    | succ n =>
      have ha : a.plain := hpl a (by simp)
      have hctl : a.isControl = false := by
        rcases action_control_cases a with hc | rfl | ⟨x, rfl⟩
        · exact hc
        · exact absurd rfl (hnt _ (List.mem_cons_self _ _))
        · exact absurd rfl (ha.1 x)
      rw [List.cons_append, run_body_prim env n a _ w hctl] at hrun
      exact ih n (prim env a w) st w2 (fun x hx => hpl x (by simp [List.mem_cons] at hx ⊢; tauto))
        (fun x hx => hnt x (List.mem_cons_of_mem _ hx))
        ((prim_queueKept env a w ha hctl).2.1.trans hin) hrun

theorem body_self_disconnect (env : Env) (hplain : ∀ c arg, ∀ a ∈ env.prog c arg, a.plain)
    (h c0 arg : Nat) (hh : h ≠ 0)
    (hself : ∃ pre rest, env.prog c0 arg = pre ++ Action.disconnectPtr h :: rest ∧
      ∀ a ∈ pre, a ≠ Action.throw)
    (n : Nat) (w : World) (st : Status) (w2 : World) (hin : w.inCall = true)
    (hrun : run env n (.body (env.prog c0 arg)) w = some (st, w2)) :
    h ∈ w2.disconnectQueue := by
  obtain ⟨pre, rest, hrest, hnt⟩ := hself
  have hpl := hplain c0 arg
  rw [hrest] at hrun hpl
  exact body_reaches_disconnect env h hh rest pre n w st w2 hpl hnt hin hrun

theorem loop_plain (env : Env) (hplain : ∀ c arg, ∀ a ∈ env.prog c arg, a.plain)
    (h c0 arg : Nat) (hh : h ≠ 0)
    (hself : ∃ pre rest, env.prog c0 arg = pre ++ Action.disconnectPtr h :: rest ∧
      ∀ a ∈ pre, a ≠ Action.throw) :
    ∀ (n : Nat) (i : Option Nat) (w : World) (st : Status) (w1 : World),
      w.inCall = true → run env n (.loop i arg) w = some (st, w1) → st ≠ .undefined →
      ∃ evs, w1.log = w.log ++ evs ∧ w1.inCall = true ∧
        w1.blockedCallback = w.blockedCallback ∧
        (∀ x ∈ w.disconnectQueue, x ∈ w1.disconnectQueue) ∧
        (calledHandles evs).Sorted (· < ·) ∧
        (∀ k, i = some k → ∀ x ∈ calledHandles evs, k ≤ x) ∧
        (i = none → evs = []) ∧
        (∀ id, Event.called h id c0 arg ∈ evs → h ∈ w1.disconnectQueue) := by
  intro n
  induction n with
  | zero => intro i w st w1 _ hr; simp [run_zero] at hr
  | succ n ih =>
    intro i w st w1 hin hr hst
    have hnil : ∀ w1 : World, w1 = w → ∃ evs, w1.log = w.log ++ evs ∧ w1.inCall = true ∧
        w1.blockedCallback = w.blockedCallback ∧
        (∀ x ∈ w.disconnectQueue, x ∈ w1.disconnectQueue) ∧
        (calledHandles evs).Sorted (· < ·) ∧
        (∀ k, i = some k → ∀ x ∈ calledHandles evs, k ≤ x) ∧
        (i = none → evs = []) ∧
        (∀ id, Event.called h id c0 arg ∈ evs → h ∈ w1.disconnectQueue) := by
      rintro w1 rfl
      exact ⟨[], by simp, hin, rfl, fun _ hx => hx, by simp [calledHandles],
        by simp [calledHandles], fun _ => rfl, by simp⟩
    cases i with
    | none =>
      rw [run_loop_none] at hr
      cases hr
      exact hnil w rfl
    | some k =>
      rw [run_loop_some] at hr
      split_ifs at hr with he ha
      · cases hr
        exact hnil w rfl
      · -- the listener is alive
        rcases hto : (receiverAt (lockListener w k) k).bind notifyTarget with _ | ⟨c, id⟩
        · simp only [hto] at hr
          split_ifs at hr with hs
          · cases hr; exact absurd rfl hst
          · obtain ⟨evs, h1, h2, h3, h4, h5, h6, h7, h8⟩ :=
              ih _ (unlockListener (lockListener w k) k) st w1 hin hr hst
            refine ⟨evs, h1, h2, h3, h4, h5, ?_, by simp, h8⟩
            intro k' hk' x hx
            cases hk'
            rcases hn : setNext k w.observers with _ | k1
            · rw [h7 hn] at hx; simp [calledHandles] at hx
            · have := h6 k1 hn x hx
              have := setNext_lt hn
              omega
        · simp only [hto] at hr
          rcases hb : run env n (.body (env.prog c arg))
              (logEvent (lockListener w k) (Event.called k id c arg)) with _ | ⟨st1, w2⟩
          · simp [hb] at hr
          · rw [hb] at hr
            have hin1 : (logEvent (lockListener w k) (Event.called k id c arg)).inCall = true := hin
            obtain ⟨hk, hst1⟩ := body_queueKept env _ n _ st1 w2 (hplain c arg) hb
            have hself2 : ∀ id', Event.called h id' c0 arg = Event.called k id c arg →
                h ∈ w2.disconnectQueue := by
              intro id' heq
              simp only [Event.called.injEq] at heq
              obtain ⟨rfl, _, rfl, _⟩ := heq
              exact body_self_disconnect env hplain h c0 arg hh hself n _ st1 w2 hin1 hb
            cases st1 with
            | undefined => exact absurd rfl hst1
            | raised =>
              simp only at hr
              cases hr
              refine ⟨[Event.called k id c arg], ?_, ?_, ?_, ?_, ?_, ?_, by simp, ?_⟩
              · simp [unlockListener, hk.1, logEvent, lockListener]
              · simp [unlockListener, hk.2.1, hin1]
              · simp [unlockListener, hk.2.2.1, logEvent, lockListener]
              · intro x hx
                exact hk.2.2.2 hin1 x hx
              · simp [calledHandles, Event.handle?]
              · intro k' hk' x hx
                cases hk'
                simp [calledHandles, Event.handle?] at hx
                omega
              · intro id' hmem
                simp only [List.mem_singleton] at hmem
                exact hself2 id' hmem
            | ok =>
              simp only at hr
              split_ifs at hr with hs
              · cases hr; exact absurd rfl hst
              · have hin2 : (unlockListener w2 k).inCall = true := by
                  simp [unlockListener, hk.2.1, hin1]
                obtain ⟨evs, h1, h2, h3, h4, h5, h6, h7, h8⟩ :=
                  ih _ (unlockListener w2 k) st w1 hin2 hr hst
                have hlow : ∀ x ∈ calledHandles evs, k < x := by
                  intro x hx
                  rcases hn : setNext k w.observers with _ | k1
                  · rw [h7 hn] at hx; simp [calledHandles] at hx
                  · have := h6 k1 hn x hx
                    have := setNext_lt hn
                    omega
                refine ⟨Event.called k id c arg :: evs, ?_, h2, ?_, ?_, ?_, ?_, by simp, ?_⟩
                · rw [h1]
                  simp [unlockListener, hk.1, logEvent, lockListener]
                · rw [h3]
                  simp [unlockListener, hk.2.2.1, logEvent, lockListener]
                · intro x hx
                  exact h4 x (hk.2.2.2 hin1 x hx)
                · simp only [calledHandles, List.filterMap_cons, Event.handle?]
                  exact List.sorted_cons.2 ⟨hlow, h5⟩
                · intro k' hk' x hx
                  cases hk'
                  simp only [calledHandles, List.filterMap_cons, Event.handle?,
                    List.mem_cons] at hx
                  rcases hx with rfl | hx
                  · exact le_refl _
                  · exact le_of_lt (hlow x hx)
                · intro id' hmem
                  rcases List.mem_cons.1 hmem with heq | hmem
                  · exact h4 h (hself2 id' heq)
                  · exact h8 id' hmem
      · -- the reference is expired
        obtain ⟨evs, h1, h2, h3, h4, h5, h6, h7, h8⟩ :=
          ih _ (Signal.eraseObserver w k) st w1 hin hr hst
        refine ⟨evs, h1, h2, h3, h4, h5, ?_, by simp, h8⟩
        intro k' hk' x hx
        cases hk'
        rcases hn : setNext k w.observers with _ | k1
        · rw [h7 hn] at hx; simp [calledHandles] at hx
        · have := h6 k1 hn x hx
          have := setNext_lt hn
          omega


/-! ## connect(shared_ptr) -/

theorem capacityCheck_sorted (w : World) (hs : w.observers.Sorted (· < ·)) :
    (capacityCheck w).2.observers.Sorted (· < ·) := by
  rw [capacityCheck_observers]
  split_ifs
  · exact hs
  · exact hs.filter _

theorem capacityCheck_nolimit (w : World) (h : w.observerLimit = sizeMax) :
    capacityCheck w = (true, w) := by
  simp [capacityCheck, h]

/-- C3, as the claim states it, fails: a handle that is already in `observers` is
connected again and `connect(h)` returns true. -/
theorem C3_counterexample :
    1 ∈ oneListenerWorld.observers ∧ alive oneListenerWorld 1 = true ∧
    (Signal.capacityCheck oneListenerWorld).1 = true ∧
    (Signal.connectPtr oneListenerWorld 1).1 = true := by
  decide

/-- C3 amended: when the capacity check passes, `connect(h)` returns true whether or not
`h` was already in `observers`; afterwards `observers` holds `h` and what the capacity
check left, and a handle that was already there (and is owned by someone) leaves
`observers` as the capacity check left it: unchanged when no limit is set. -/
theorem C3_connectPtr_returns_true (w : World) (h : Nat) (hs : w.observers.Sorted (· < ·))
    (hc : (Signal.capacityCheck w).1 = true) :
    (Signal.connectPtr w h).1 = true ∧
    (∀ k, k ∈ (Signal.connectPtr w h).2.observers
        ↔ k = h ∨ k ∈ (Signal.capacityCheck w).2.observers) ∧
    (h ∈ w.observers → alive w h = true →
      (Signal.connectPtr w h).2.observers = (Signal.capacityCheck w).2.observers) ∧
    (h ∈ w.observers → w.observerLimit = sizeMax → (Signal.connectPtr w h).2 = w) := by
  have hdef : Signal.connectPtr w h
      = (true, { (capacityCheck w).2 with observers := setInsert h (capacityCheck w).2.observers }) := by
    simp [Signal.connectPtr, hc]
  rw [hdef]
  refine ⟨rfl, fun k => mem_setInsert h k _, ?_, ?_⟩
  · intro hin hal
    have hmem : h ∈ (capacityCheck w).2.observers := by
      rw [capacityCheck_observers]
      split_ifs
      · exact hin
      · exact List.mem_filter.2 ⟨hin, hal⟩
    exact setInsert_of_mem h _ (capacityCheck_sorted w hs) hmem
  · intro hin hlim
    simp only [capacityCheck_nolimit w hlim]
    rw [setInsert_of_mem h _ hs hin]

/-- The amended C3 at a Signal whose only listener is connected a second time. -/
theorem C3_connectPtr_returns_true_witness :
    (Signal.connectPtr oneListenerWorld 1).1 = true ∧
    (Signal.connectPtr oneListenerWorld 1).2 = oneListenerWorld :=
  ⟨(C3_connectPtr_returns_true oneListenerWorld 1 (by decide) (by decide)).1,
   (C3_connectPtr_returns_true oneListenerWorld 1 (by decide) (by decide)).2.2.2 (by decide)
     (by decide)⟩

/-! ## A listener connected during a dispatch -/


theorem sorted_split (l : List Nat) (K : Nat) (hs : l.Sorted (· < ·)) (hK : K ∈ l) :
    l = l.filter (fun x => decide (x < K)) ++ K :: l.filter (fun x => decide (K < x)) := by
  induction l with
  | nil => simp at hK
  | cons b l ih =>
    rw [List.sorted_cons] at hs
    by_cases hb : b = K
    · subst hb
      have h1 : l.filter (fun x => decide (x < b)) = [] := by
        rw [List.filter_eq_nil_iff]
        intro x hx
        have := hs.1 x hx
        simp only [decide_eq_true_eq]; omega
      have h2 : l.filter (fun x => decide (b < x)) = l := by
        rw [List.filter_eq_self]
        intro x hx
        simpa using hs.1 x hx
      simp [List.filter_cons, h1, h2]
    · have hK' : K ∈ l := by
        rcases List.mem_cons.1 hK with h | h
        · exact absurd h.symm hb
        · exact h
      have hlt : b < K := hs.1 K hK'
      have := ih hs.2 hK'
      have hnlt : ¬ K < b := by omega
      simp only [List.filter_cons, hlt, decide_True, if_true, hnlt, decide_False,
        Bool.false_eq_true, if_false, List.cons_append]
      rw [← this]

theorem ConnectScene.split {env : Env} {w : World} {arg K cK cN : Nat}
    (hsc : ConnectScene env w arg K cK cN) :
    w.observers = w.observers.filter (fun x => decide (x < K))
      ++ K :: w.observers.filter (fun x => decide (K < x)) :=
  sorted_split w.observers K hsc.sorted hsc.mem

theorem lookup_mapSet (key : String) (v : Nat) (m : List (String × Nat)) :
    (mapSet key v m).lookup key = some v := by
  simp [mapSet, List.lookup]

theorem connection_connectKey (env : Env) (w : World) (key : String) (cb : Option Nat) :
    Signal.connection (Signal.connectKey env w key cb).2 key
      = (Signal.connectKey env w key cb).1 := by
  simp [Signal.connection, Signal.connectKey, lookup_mapSet]

theorem capacityCheck_ownedConnections (w : World) :
    (capacityCheck w).2.ownedConnections = w.ownedConnections := by
  unfold capacityCheck
  split_ifs <;> rfl

theorem connectKey_ownedConnections (env : Env) (w : World) (key : String) (cb : Option Nat) :
    (Signal.connectKey env w key cb).2.ownedConnections
      = mapSet key (Signal.connectKey env w key cb).1 w.ownedConnections := by
  simp only [Signal.connectKey, Signal.connect]
  split_ifs <;> simp [Receiver.make, capacityCheck_ownedConnections]

theorem connect_ne_of_owned (env : Env) (hf : env.Fresh) (w : World) (cb : Option Nat)
    (key : String) (h1 : Nat) (hin : (key, h1) ∈ w.ownedConnections)
    (hne : (Signal.connect env w cb).1 ≠ 0) : (Signal.connect env w cb).1 ≠ h1 := by
  by_cases hp : (capacityCheck w).1 = true
  · have hnot := (connect_pass_spec env hf w cb hp).2.2.1
    intro heq
    apply hnot
    rw [heq]
    simp only [allocated, List.mem_append, List.mem_map, capacityCheck_ownedConnections]
    exact Or.inr ⟨(key, h1), hin, rfl⟩
  · rw [Bool.not_eq_true] at hp
    rw [connect_fail env w cb hp] at hne
    exact absurd rfl hne

/-- C10: `connection(key)` right after `connect(key, callable)` returns the handle that
`connect` returned, also when the key was in use; after two connects under one key
`connection(key)` is the second handle, which is not the first one. -/
theorem C10_connection_roundtrip (env : Env) (w : World) (key : String) (cb cb2 : Option Nat) :
    Signal.connection (Signal.connectKey env w key cb).2 key
      = (Signal.connectKey env w key cb).1 ∧
    Signal.connection (Signal.connectKey env (Signal.connectKey env w key cb).2 key cb2).2 key
      = (Signal.connectKey env (Signal.connectKey env w key cb).2 key cb2).1 ∧
    (env.Fresh → (Signal.connectKey env (Signal.connectKey env w key cb).2 key cb2).1 ≠ 0 →
      (Signal.connectKey env (Signal.connectKey env w key cb).2 key cb2).1
        ≠ (Signal.connectKey env w key cb).1) := by
  refine ⟨connection_connectKey env w key cb, connection_connectKey env _ key cb2, ?_⟩
  intro hf hne
  have hin : (key, (Signal.connectKey env w key cb).1)
      ∈ (Signal.connectKey env w key cb).2.ownedConnections := by
    rw [connectKey_ownedConnections]
    simp [mapSet]
  exact connect_ne_of_owned env hf _ cb2 key _ hin hne

/-- C10 on a new Signal: "finish" is connected twice, the handles are 1 and 2, and
`connection("finish")` is 2. -/
theorem C10_connection_roundtrip_witness :
    (Signal.connectKey quietEnv World.init "finish" (some 0)).1 = 1 ∧
    Signal.connection
      (Signal.connectKey quietEnv (Signal.connectKey quietEnv World.init "finish" (some 0)).2
        "finish" (some 1)).2 "finish" = 2 ∧
    (Signal.connectKey quietEnv (Signal.connectKey quietEnv World.init "finish" (some 0)).2
        "finish" (some 1)).1 ≠ (Signal.connectKey quietEnv World.init "finish" (some 0)).1 :=
  ⟨by decide, by decide,
   (C10_connection_roundtrip quietEnv World.init "finish" (some 0) (some 1)).2.2 quietEnv_fresh
     (by decide)⟩

/-! ## The blocked dispatch -/

/-- C8: on a Signal with block depth above 0, `operator()` runs no listener and touches
nothing but `calledWhileBlocked`, which it sets to true. When `blockedCallback` is not
set nothing is called: the call returns in the state that differs from the one before by
the flag only, so `observers` and the log of calls are unchanged. When `blockedCallback`
is set it is called with the arguments of the dispatch: the call is logged and the body
of the callback runs from the state with the flag set. -/
theorem C8_blocked_dispatch (env : Env) (n : Nat) (w : World) (arg : Nat)
    (hb : 0 < w.isBlocked) :
    (w.blockedCallback = none →
      ∃ w1, run env (n + 2) (.call arg) w = some (.ok, w1) ∧
        w1 = { w with calledWhileBlocked := true } ∧
        w1.calledWhileBlocked = true ∧ w1.observers = w.observers ∧ w1.log = w.log) ∧
    (∀ c, w.blockedCallback = some c →
      ∃ w0, w0 = { w with calledWhileBlocked := true, log := w.log ++ [Event.blockedCalled arg] } ∧
        w0.calledWhileBlocked = true ∧ w0.observers = w.observers ∧
        run env (n + 2) (.call arg) w = run env n (.body (env.prog c arg)) w0) := by
  have hbl : Signal.blocked w = true := by
    simp only [Signal.blocked, bne_iff_ne, ne_eq]
    omega
  refine ⟨fun hnone => ⟨_, ?_, rfl, rfl, rfl, rfl⟩, fun c hc => ⟨_, rfl, rfl, rfl, ?_⟩⟩
  · simp [run, hbl, hnone, markCalled]
  · simp [run, hbl, hc, markCalled, logEvent]

/-- C8 on a blocked Signal with one listener whose flag is not set: without
`blockedCallback` the dispatch sets the flag, logs no call and leaves `observers`; with
one, the flag is set and the only call logged is that of `blockedCallback` with the
argument. -/
theorem C8_blocked_dispatch_witness :
    0 < (Signal.block oneListenerWorld).isBlocked ∧
    (Signal.block oneListenerWorld).calledWhileBlocked = false ∧
    (run quietEnv 2 (.call 7) (Signal.block oneListenerWorld)).map
      (fun r => (r.1, r.2.calledWhileBlocked, r.2.log, r.2.observers))
        = some (.ok, true, [], [1]) ∧
    (∃ w1, run quietEnv 2 (.call 7) (Signal.block oneListenerWorld) = some (.ok, w1) ∧
      w1 = { Signal.block oneListenerWorld with calledWhileBlocked := true } ∧
      w1.calledWhileBlocked = true ∧ w1.observers = (Signal.block oneListenerWorld).observers ∧
      w1.log = (Signal.block oneListenerWorld).log) ∧
    (run quietEnv 3 (.call 7) { Signal.block oneListenerWorld with blockedCallback := some 4 }).map
      (fun r => (r.1, r.2.calledWhileBlocked, r.2.log, r.2.observers))
        = some (.ok, true, [Event.blockedCalled 7], [1]) :=
  ⟨by decide, by decide, by decide,
   (C8_blocked_dispatch quietEnv 0 (Signal.block oneListenerWorld) 7 (by decide)).1 rfl,
   by decide⟩

/-! ## The 32 bit block depth -/


theorem wrapInt32_of_range (x : Int) (h1 : -2147483648 ≤ x) (h2 : x < 2147483648) :
    wrapInt32 x = x := by
  unfold wrapInt32
  have h : (x + 2 ^ 31) % 2 ^ 32 = x + 2 ^ 31 :=
    Int.emod_eq_of_lt (by norm_num; omega) (by norm_num; omega)
  rw [h]
  ring

theorem depthInRange_start {ops : List BlockOp} {d : Nat} (h : depthInRange ops d) :
    d < 2 ^ 31 := by
  simpa [saturatingCount] using h 0 (Nat.zero_le _)

theorem depthInRange_block {ops : List BlockOp} {d : Nat}
    (h : depthInRange (.block :: ops) d) : depthInRange ops (d + 1) := by
  intro k hk
  simpa [saturatingCount] using h (k + 1) (by simpa using hk)

theorem depthInRange_unblock {ops : List BlockOp} {d : Nat}
    (h : depthInRange (.unblock :: ops) d) : depthInRange ops (d - 1) := by
  intro k hk
  simpa [saturatingCount] using h (k + 1) (by simpa using hk)

theorem receiver_block_depth (r : Receiver) (d : Nat) (h : r.isBlocked = (d : Int))
    (hd : d + 1 < 2 ^ 31) : r.block.isBlocked = ((d + 1 : Nat) : Int) := by
  simp only [Receiver.block, h]
  rw [wrapInt32_of_range _ (by omega) (by norm_num at hd; omega)]
  simp

theorem receiver_unblock_depth (r : Receiver) (d : Nat) (h : r.isBlocked = (d : Int))
    (hd : d < 2 ^ 31) : r.unblock.isBlocked = ((d - 1 : Nat) : Int) := by
  simp only [Receiver.unblock, h]
  rw [wrapInt32_of_range _ (by omega) (by norm_num at hd; omega)]
  split_ifs <;> omega

theorem signal_block_depth (w : World) (d : Nat) (h : w.isBlocked = (d : Int))
    (hd : d + 1 < 2 ^ 31) : (Signal.block w).isBlocked = ((d + 1 : Nat) : Int) := by
  have hw : wrapInt32 ((d : Int) + 1) = ((d + 1 : Nat) : Int) := by
    rw [wrapInt32_of_range _ (by omega) (by norm_num at hd; omega)]
    simp
  simp only [Signal.block, h]
  split_ifs <;> exact hw

theorem signal_unblock_depth (w : World) (d : Nat) (h : w.isBlocked = (d : Int))
    (hd : d < 2 ^ 31) : (Signal.unblock w).2.isBlocked = ((d - 1 : Nat) : Int) := by
  have hw : wrapInt32 ((d : Int) - 1) = (d : Int) - 1 :=
    wrapInt32_of_range _ (by omega) (by norm_num at hd; omega)
  simp only [Signal.unblock, h, hw]
  split_ifs <;> simp <;> omega

theorem receiver_applyOps_depth : ∀ (ops : List BlockOp) (r : Receiver) (d : Nat),
    r.isBlocked = (d : Int) → depthInRange ops d →
    (Receiver.applyOps ops r).isBlocked = (saturatingCount ops d : Int)
  | [], r, d, h, _ => by simpa [Receiver.applyOps, saturatingCount] using h
  | .block :: ops, r, d, h, hr => by
    simp only [Receiver.applyOps, saturatingCount]
    exact receiver_applyOps_depth ops r.block (d + 1)
      (receiver_block_depth r d h (depthInRange_start (depthInRange_block hr)))
      (depthInRange_block hr)
  | .unblock :: ops, r, d, h, hr => by
    simp only [Receiver.applyOps, saturatingCount]
    exact receiver_applyOps_depth ops r.unblock (d - 1)
      (receiver_unblock_depth r d h (depthInRange_start hr)) (depthInRange_unblock hr)

theorem signal_applyOps_depth : ∀ (ops : List BlockOp) (w : World) (d : Nat),
    w.isBlocked = (d : Int) → depthInRange ops d →
    (Signal.applyOps ops w).isBlocked = (saturatingCount ops d : Int)
  | [], w, d, h, _ => by simpa [Signal.applyOps, saturatingCount] using h
  | .block :: ops, w, d, h, hr => by
    simp only [Signal.applyOps, saturatingCount]
    exact signal_applyOps_depth ops (Signal.block w) (d + 1)
      (signal_block_depth w d h (depthInRange_start (depthInRange_block hr)))
      (depthInRange_block hr)
  | .unblock :: ops, w, d, h, hr => by
    simp only [Signal.applyOps, saturatingCount]
    exact signal_applyOps_depth ops _ (d - 1)
      (signal_unblock_depth w d h (depthInRange_start hr)) (depthInRange_unblock hr)

theorem saturatingCount_blocks (n d : Nat) :
    saturatingCount (List.replicate n BlockOp.block) d = d + n := by
  induction n generalizing d with
  | zero => rfl
  | succ n ih =>
    rw [List.replicate_succ, saturatingCount, ih]
    omega

theorem saturatingCount_append (a b : List BlockOp) (d : Nat) :
    saturatingCount (a ++ b) d = saturatingCount b (saturatingCount a d) := by
  induction a generalizing d with
  | nil => rfl
  | cons op a ih => cases op <;> exact ih _

theorem receiver_applyOps_append (a b : List BlockOp) (r : Receiver) :
    Receiver.applyOps (a ++ b) r = Receiver.applyOps b (Receiver.applyOps a r) := by
  induction a generalizing r with
  | nil => rfl
  | cons op a ih => cases op <;> exact ih _

theorem signal_applyOps_append (a b : List BlockOp) (w : World) :
    Signal.applyOps (a ++ b) w = Signal.applyOps b (Signal.applyOps a w) := by
  induction a generalizing w with
  | nil => rfl
  | cons op a ih => cases op <;> exact ih _

theorem depthInRange_blocks (n d : Nat) (h : d + n < 2 ^ 31) :
    depthInRange (List.replicate n BlockOp.block) d := by
  intro k _
  rw [List.take_replicate, saturatingCount_blocks]
  have : min k n ≤ n := Nat.min_le_right _ _
  omega

theorem wrapInt32_overflow : wrapInt32 (((2147483647 : Nat) : Int) + 1) = -2147483648 := by
  unfold wrapInt32
  norm_num

theorem receiver_block_isBlocked (r : Receiver) :
    r.block.isBlocked = wrapInt32 (r.isBlocked + 1) :=
  rfl

theorem signal_block_isBlocked (w : World) :
    (Signal.block w).isBlocked = wrapInt32 (w.isBlocked + 1) := by
  simp only [Signal.block]
  split_ifs <;> rfl

theorem receiver_applyOps_one (r : Receiver) :
    Receiver.applyOps [BlockOp.block] r = r.block :=
  rfl

theorem signal_applyOps_one (w : World) :
    Signal.applyOps [BlockOp.block] w = Signal.block w :=
  rfl

theorem saturatingCount_le (ops : List BlockOp) (d : Nat) :
    saturatingCount ops d ≤ d + ops.length := by
  induction ops generalizing d with
  | nil => simp [saturatingCount]
  | cons op ops ih =>
    cases op
    · have := ih (d + 1)
      simp only [saturatingCount, List.length_cons]
      omega
    · have := ih (d - 1)
      simp only [saturatingCount, List.length_cons]
      omega

theorem depthInRange_of_length (ops : List BlockOp) (d : Nat) (h : d + ops.length < 2 ^ 31) :
    depthInRange ops d := by
  intro k _
  have h1 := saturatingCount_le (ops.take k) d
  have h2 : (ops.take k).length ≤ ops.length := by
    rw [List.length_take]
    exact Nat.min_le_right _ _
  omega

theorem wrapInt32_add (x y : Int) : wrapInt32 (wrapInt32 x + y) = wrapInt32 (x + y) := by
  unfold wrapInt32
  have h : (x + 2 ^ 31) % 2 ^ 32 - 2 ^ 31 + y + 2 ^ 31 = (x + 2 ^ 31) % 2 ^ 32 + y := by ring
  rw [h, Int.emod_add_emod]
  congr 2
  ring

theorem wrapInt32_idem (x : Int) : wrapInt32 (wrapInt32 x) = wrapInt32 x := by
  have h := wrapInt32_add x 0
  simpa using h

theorem signal_block_eq (w : World) (hf : w.calledWhileBlocked = false) :
    Signal.block w = { w with isBlocked := wrapInt32 (w.isBlocked + 1) } := by
  simp only [Signal.block]
  split_ifs
  · cases w
    simp_all
  · rfl

theorem signal_blocks_state : ∀ (n : Nat) (w : World), w.calledWhileBlocked = false →
    wrapInt32 w.isBlocked = w.isBlocked →
    Signal.applyOps (List.replicate n BlockOp.block) w
      = { w with isBlocked := wrapInt32 (w.isBlocked + (n : Int)) }
  | 0, w, _, hr => by
    have h : wrapInt32 (w.isBlocked + ((0 : Nat) : Int)) = w.isBlocked := by
      rw [Nat.cast_zero, add_zero, hr]
    rw [h]
    rfl
  | n + 1, w, hf, _ => by
    have hb := signal_block_eq w hf
    have ih := signal_blocks_state n (Signal.block w) (by rw [hb]; exact hf) (by
      rw [signal_block_isBlocked, wrapInt32_idem])
    rw [List.replicate_succ]
    show Signal.applyOps (List.replicate n BlockOp.block) (Signal.block w) = _
    rw [ih, signal_block_isBlocked, wrapInt32_add, hb]
    have h : w.isBlocked + 1 + (n : Int) = w.isBlocked + ((n + 1 : Nat) : Int) := by
      push_cast
      ring
    rw [h]

theorem runOps_blocks (env : Env) (fuel : Nat) (rest : List Op) :
    ∀ (n : Nat) (w : World),
      runOps env fuel (List.replicate n Op.block ++ rest) w
        = runOps env fuel rest (Signal.applyOps (List.replicate n BlockOp.block) w)
  | 0, _ => rfl
  | n + 1, w => by
    rw [List.replicate_succ, List.replicate_succ]
    show runOps env fuel (List.replicate n Op.block ++ rest) (Signal.block w) = _
    rw [runOps_blocks env fuel rest n (Signal.block w)]
    rfl

theorem specUnblockResults_blocks (rest : List Op) :
    ∀ (n d : Nat),
      specUnblockResults (List.replicate n Op.block ++ rest) d false
        = specUnblockResults rest (d + n) false
  | 0, _ => rfl
  | n + 1, d => by
    rw [List.replicate_succ]
    show specUnblockResults (List.replicate n Op.block ++ rest) (d + 1)
      (if d = 0 then false else false) = _
    rw [ite_self, specUnblockResults_blocks rest n (d + 1)]
    congr 1
    omega

theorem wrapInt32_full : wrapInt32 (0 + ((4294967296 : Nat) : Int)) = 0 := by
  unfold wrapInt32
  norm_num

/-! ## block, unblock and the dispatch -/


theorem prim_block_fields (env : Env) (a : Action) (w : World) (ha : a.noBlock) :
    (prim env a w).isBlocked = w.isBlocked ∧
    (prim env a w).calledWhileBlocked = w.calledWhileBlocked := by
  obtain ⟨h1, h2⟩ := ha
  cases a <;> simp [prim, Receiver.make, Signal.connect, capacityCheck, cullDeadObservers,
    Signal.connectPtr, Signal.connectKey, Signal.disconnectPtr, eraseObserver,
    Signal.disconnectKey, Signal.clear, clearObservers, Signal.setObserverLimit,
    Signal.clearObserverLimit, setReceiver] at h1 h2 ⊢ <;> (repeat' split) <;> simp

theorem blockKept_stepClosed (env : Env)
    (hprog : ∀ c arg, ∀ a ∈ env.prog c arg, a.noBlock) :
    StepClosed env Action.noBlock BlockKept where
  refl := fun w => ⟨rfl, fun _ => rfl, fun h => h⟩
  trans := fun a b c hab hbc =>
    ⟨hbc.1.trans hab.1, fun h0 => (hbc.2.1 (hab.1.trans h0)).trans (hab.2.1 h0),
      fun h => hbc.2.2 (hab.2.2 h)⟩
  prim := fun a w ha _ => by
    have := prim_block_fields env a w ha
    exact ⟨this.1, fun _ => this.2, fun h => this.2.trans h⟩
  prog := hprog
  enter := fun w _ => ⟨rfl, fun _ => rfl, fun h => h⟩
  exit := fun w => ⟨rfl, fun _ => rfl, fun h => h⟩
  flag := fun w hb => by
    refine ⟨rfl, fun h0 => ?_, fun _ => rfl⟩
    simp [Signal.blocked, h0] at hb
  log := fun w e => ⟨rfl, fun _ => rfl, fun h => h⟩
  lock := fun w k _ => ⟨rfl, fun _ => rfl, fun h => h⟩
  unlock := fun w k => ⟨rfl, fun _ => rfl, fun h => h⟩
  erase := fun w k _ => ⟨rfl, fun _ => rfl, fun h => h⟩

theorem call_blockKept (env : Env) (hprog : ∀ c arg, ∀ a ∈ env.prog c arg, a.noBlock)
    (n arg : Nat) (w : World) (st : Status) (w1 : World)
    (h : run env n (.call arg) w = some (st, w1)) :
    w1.isBlocked = w.isBlocked ∧
    (w.isBlocked = 0 → w1.calledWhileBlocked = w.calledWhileBlocked) ∧
    (w.isBlocked ≠ 0 → w1.calledWhileBlocked = true) := by
  have hR := run_rel env Action.noBlock BlockKept (blockKept_stepClosed env hprog)
  have h1 := hR n (.call arg) w st w1 trivial h
  refine ⟨h1.1, h1.2.1, fun hne => ?_⟩
  cases n with
  | zero => simp [run_zero] at h
  | succ n =>
    have hb : Signal.blocked w = true := by simpa [Signal.blocked] using hne
    rw [run_call] at h
    simp only [hb, Bool.not_true, Bool.false_eq_true, if_false] at h
    cases n with
    | zero => simp [run_zero] at h
    | succ n =>
      rw [run_blockedPart] at h
      simp only [hb, if_true] at h
      rcases Option.eq_none_or_eq_some w.blockedCallback with hcb | ⟨c, hcb⟩
      · simp only [hcb] at h
        cases h
        rfl
      · simp only [hcb] at h
        exact (hR n (.body (env.prog c arg)) _ st w1 (hprog c arg) h).2.2 rfl

theorem runOps_spec (env : Env) (hprog : ∀ c arg, ∀ a ∈ env.prog c arg, a.noBlock) (fuel : Nat) :
    ∀ (ops : List Op) (w : World) (depth : Nat) (attempted : Bool) (res : List Bool) (w1 : World),
      w.isBlocked = (depth : Int) → depthInRange (blockOpsOf ops) depth →
      (0 < depth → attempted = w.calledWhileBlocked) →
      runOps env fuel ops w = some (res, w1) → res = specUnblockResults ops depth attempted := by
  intro ops
  induction ops with
  | nil =>
    intro w depth attempted res w1 _ _ _ h
    simp only [runOps, Option.some.injEq, Prod.mk.injEq] at h
    rw [← h.1]
    rfl
  | cons op ops ih =>
    intro w depth attempted res w1 hd hr hatt h
    cases op with
    | block =>
      simp only [runOps] at h
      simp only [specUnblockResults]
      have hr1 : depthInRange (blockOpsOf ops) (depth + 1) := depthInRange_block hr
      refine ih (Signal.block w) (depth + 1) _ res w1
        (signal_block_depth w depth hd (depthInRange_start hr1)) hr1 ?_ h
      intro _
      simp only [Signal.block]
      by_cases h0 : depth = 0
      · have : w.isBlocked = 0 := by rw [hd, h0]; rfl
        simp [h0, this]
      · have : w.isBlocked ≠ 0 := by rw [hd]; exact_mod_cast h0
        simp only [h0, this, if_false]
        exact hatt (Nat.pos_of_ne_zero h0)
    | unblock =>
      simp only [runOps, Option.map_eq_some', Prod.exists] at h
      obtain ⟨res1, w2, hrun, heq⟩ := h
      simp only [Prod.mk.injEq] at heq
      obtain ⟨hres, rfl⟩ := heq
      rw [← hres]
      simp only [specUnblockResults]
      have hr1 : depthInRange (blockOpsOf ops) (depth - 1) := depthInRange_unblock hr
      have hlt : depth < 2 ^ 31 := depthInRange_start hr
      have hw : wrapInt32 ((depth : Int) - 1) = (depth : Int) - 1 :=
        wrapInt32_of_range _ (by omega) (by norm_num at hlt; omega)
      have hres1 := ih (Signal.unblock w).2 (depth - 1) attempted res1 w2
        (signal_unblock_depth w depth hd hlt) hr1 ?_ hrun
      · rw [← hres1]
        congr 1
        simp only [Signal.unblock, hd, hw]
        by_cases h1 : depth = 1
        · subst h1
          simp [hatt]
        · have hne : ((depth : Int) - 1 = 0) = False := by
            simp only [eq_iff_iff, iff_false]; omega
          simp only [hne, if_false, h1]
          split_ifs <;> rfl
      · intro hpos
        have hne : ¬ ((depth : Int) - 1 = 0) := by omega
        have hnn : ¬ ((depth : Int) - 1 < 0) := by omega
        simp only [Signal.unblock, hd, hw, hne, hnn, if_false]
        exact hatt (by omega)
    | dispatch arg =>
      simp only [runOps] at h
      simp only [specUnblockResults]
      have hr1 : depthInRange (blockOpsOf ops) depth := hr
      have key : ∀ st w2, run env fuel (.call arg) w = some (st, w2) →
          runOps env fuel ops w2 = some (res, w1) →
          res = specUnblockResults ops depth (if 0 < depth then true else attempted) := by
        intro st w2 hrun hrest
        have hk := call_blockKept env hprog fuel arg w st w2 hrun
        refine ih w2 depth _ res w1 (hk.1.trans hd) hr1 ?_ hrest
        intro hpos
        have hne : w.isBlocked ≠ 0 := by rw [hd]; omega
        simp [hpos, hk.2.2 hne]
      split at h
      · exact key _ _ (by assumption) h
      · exact key _ _ (by assumption) h
      · simp at h

/-! ## The order of a dispatch -/

/-- C1 fails on the code: `observers` is ordered by `std::owner_less`, the address of the
control block, not by `Receiver::id`. With an allocator that reuses a freed block the
receiver made last (id 3) sits at the lowest address and is called before the receiver
with id 2. -/
theorem C1_dispatch_order_is_by_address :
    (run firstFitEnv 20 (.body reuseScenario) World.init).map (fun r => r.2.log)
      = some [Event.called 1 3 0 7, Event.called 2 2 0 7] := by
  decide

/-! ## Deferred disconnects -/


theorem dispatchEnd_alive (env : Env) (w : World) (arg : Nat) (hq : w.disconnectQueue = []) :
    alive (dispatchEnd env w arg) = alive w := by
  have hf := dispatchEnd_fields env w arg hq
  funext x
  rw [Bool.eq_iff_iff, alive_iff, alive_iff, hf.2.2.2.1, hf.2.2.2.2.2.1, hf.2.2.2.2.2.2.1,
    hf.2.2.2.2.2.2.2.1, hq]

theorem dispatchEnd_targetOf (env : Env) (w : World) (arg : Nat) (hq : w.disconnectQueue = []) :
    targetOf (dispatchEnd env w arg) = targetOf w := by
  funext k
  simp [targetOf, receiverAt, (dispatchEnd_fields env w arg hq).2.2.2.2.1]

theorem dispatchEnd_disconnectOnly (env : Env) (w : World) (arg : Nat)
    (hq : w.disconnectQueue = []) (hd : DisconnectOnly env w arg) :
    DisconnectOnly env (dispatchEnd env w arg) arg := by
  intro k c id ht a ha
  rw [dispatchEnd_targetOf env w arg hq] at ht
  rw [dispatchEnd_alive env w arg hq]
  exact hd k c id ht a ha

/-- C6, as the claim states it, fails. On the Signal with the listeners 1, 2 and 3, all
live at the start, in a dispatch that starts no other dispatch: when the callable of 2
disconnects 3 and then raises, the exception leaves the loop and 3 is not called; when the
callable of 1 disconnects 3 and lets go of the only owning reference of 2, listener 2 is
not called; when the callable of 1 disconnects 3 and calls `clear()`, `observers` is
empty after the dispatch, not the initial set minus 3; when it disconnects 3 and blocks
the receiver of 2, listener 2 is not called; and when it disconnects 3 and connects a new
listener, the new listener 4 is called in this dispatch and is in `observers` afterwards. -/
theorem C6_counterexample :
    threeListenerWorld.observers = [1, 2, 3] ∧
    (∀ k ∈ threeListenerWorld.observers, alive threeListenerWorld k = true) ∧
    (run raiseEnv 20 (.call 7) threeListenerWorld).map
        (fun r => (r.1, calledHandles r.2.log, r.2.observers))
      = some (.raised, [1, 2], [1, 2]) ∧
    (run releaseEnv 20 (.call 7) threeListenerWorld).map
        (fun r => (r.1, calledHandles r.2.log, r.2.observers))
      = some (.ok, [1, 3], [1]) ∧
    (run clearAfterEnv 20 (.call 7) threeListenerWorld).map
        (fun r => (r.1, calledHandles r.2.log, r.2.observers))
      = some (.ok, [1, 2, 3], []) ∧
    (run muteEnv 20 (.call 7) threeListenerWorld).map
        (fun r => (r.1, calledHandles r.2.log, r.2.observers))
      = some (.ok, [1, 3], [1, 2]) ∧
    (run connectAfterEnv 20 (.call 7) threeListenerWorld).map
        (fun r => (r.1, calledHandles r.2.log, r.2.observers))
      = some (.ok, [1, 2, 3, 4], [1, 2, 4]) := by
  decide

/-- C6 amended: in a dispatch of an unblocked Signal that is not in a dispatch and has an
empty queue, whose listeners are all live, unblocked and callable and whose callables do
nothing but call `disconnect(handle)` (on null or owned handles), the disconnects do not
touch the iteration: the dispatch returns, it calls every listener of `observers` exactly
once, in the order of `observers`, the disconnected ones included; afterwards `observers`
is the initial set minus the disconnected handles, and the next dispatch calls exactly the
listeners that remain. -/
theorem C6_deferred_disconnect (env : Env) (w : World) (arg : Nat)
    (h0 : w.isBlocked = 0) (hq : w.disconnectQueue = [])
    (hs : w.observers.Sorted (· < ·)) (hd : DisconnectOnly env w arg)
    (hlive : ∀ k ∈ w.observers, alive w k = true ∧ (targetOf w k).isSome = true) :
    Runs env (.call arg) w (.ok, dispatchEnd env w arg) ∧
    calledHandles ((dispatchEnd env w arg).log.drop w.log.length) = w.observers ∧
    w.observers.Nodup ∧
    (dispatchEnd env w arg).observers
      = w.observers.filter (fun k => decide (k ∉ requestsOf env w arg w.observers)) ∧
    (dispatchEnd env w arg).inCall = false ∧
    Runs env (.call arg) (dispatchEnd env w arg)
      (.ok, dispatchEnd env (dispatchEnd env w arg) arg) ∧
    calledHandles ((dispatchEnd env (dispatchEnd env w arg) arg).log.drop
        (dispatchEnd env w arg).log.length)
      = w.observers.filter (fun k => decide (k ∉ requestsOf env w arg w.observers)) := by
  have hf := dispatchEnd_fields env w arg hq
  have hall : w.observers.filter (alive w) = w.observers :=
    List.filter_eq_self.2 (fun k hk => (hlive k hk).1)
  rw [hall] at hf
  have hobs := hf.2.1
  -- the next dispatch
  have hq1 : (dispatchEnd env w arg).disconnectQueue = [] := hf.2.2.2.1
  have hf1 := dispatchEnd_fields env (dispatchEnd env w arg) arg hq1
  have hsub : ∀ k ∈ (dispatchEnd env w arg).observers, k ∈ w.observers := by
    intro k hk
    rw [hobs] at hk
    exact (List.mem_filter.1 hk).1
  have hall1 : (dispatchEnd env w arg).observers.filter (alive (dispatchEnd env w arg))
      = (dispatchEnd env w arg).observers := by
    rw [dispatchEnd_alive env w arg hq]
    exact List.filter_eq_self.2 (fun k hk => (hlive k (hsub k hk)).1)
  rw [hall1] at hf1
  have hs1 : (dispatchEnd env w arg).observers.Sorted (· < ·) := by
    rw [hobs]; exact hs.filter _
  refine ⟨dispatch_disconnectOnly env w arg h0 hq hs hd, ?_, hs.nodup, hobs, hf.2.2.1,
    dispatch_disconnectOnly env _ arg (hf.2.2.2.2.2.2.2.2.trans h0) hq1 hs1
      (dispatchEnd_disconnectOnly env w arg hq hd), ?_⟩
  · rw [hf.1, List.drop_left]
    exact calledHandles_callsOf w arg _ (fun k hk => (hlive k hk).2)
  · rw [hf1.1, List.drop_left, ← hobs]
    refine calledHandles_callsOf _ arg _ (fun k hk => ?_)
    rw [dispatchEnd_targetOf env w arg hq]
    exact (hlive k (hsub k hk)).2

theorem deferEnv_disconnectOnly : DisconnectOnly deferEnv threeListenerWorld 7 := by
  intro k c id _ a ha
  by_cases hc : c = 2
  · simp only [deferEnv, hc, if_true, List.mem_singleton] at ha
    exact ⟨3, ha, Or.inr (by decide)⟩
  · simp [deferEnv, hc] at ha

/-- The scenario of the amended C6: listeners 1, 2 and 3, listener 2 disconnects listener
3: the three are called once each, and 1 and 2 remain. -/
theorem C6_deferred_disconnect_witness :
    Runs deferEnv (.call 7) threeListenerWorld (.ok, dispatchEnd deferEnv threeListenerWorld 7) ∧
    calledHandles ((dispatchEnd deferEnv threeListenerWorld 7).log.drop
      threeListenerWorld.log.length) = [1, 2, 3] ∧
    (dispatchEnd deferEnv threeListenerWorld 7).observers = [1, 2] ∧
    run deferEnv 9 (.call 7) threeListenerWorld
      = some (.ok, dispatchEnd deferEnv threeListenerWorld 7) :=
  ⟨(C6_deferred_disconnect deferEnv threeListenerWorld 7 (by decide) (by decide) (by decide)
      deferEnv_disconnectOnly (by decide)).1,
   by decide, by decide, by decide⟩


/-! ## Expired references -/


theorem quietEnv_disconnectOnly (w : World) (arg : Nat) : DisconnectOnly quietEnv w arg := by
  intro k c id _ a ha
  simp [quietEnv] at ha


/-! ## A listener that disconnects itself -/


/-- C4, as the claim states it, fails in both parts. Listener 1 disconnects itself during
the dispatch with argument 7; listener 2 then dispatches the Signal again (argument 9) and
listener 1, still in `observers`, is called a second time before the first dispatch has
returned. And when listener 1 is owned by the Signal alone (a named connection) and
listener 2 calls `clear()` instead, the queued disconnect of 1 is dropped with the queue,
the receiver dies, and its reference is still in `observers` after the dispatch. -/
theorem C4_counterexample :
    (run reentrantEnv 20 (.call 7) reentrantWorld).map (fun r => (r.1, r.2.log))
      = some (.ok, [Event.called 1 1 1 7, Event.called 2 2 2 7, Event.called 1 1 1 9]) ∧
    (run clearEnv 20 (.call 7) clearWorld).map (fun r => (r.1, r.2.log, r.2.observers))
      = some (.ok, [Event.called 1 1 1 7, Event.called 2 2 2 7], [1]) := by
  decide

/-- C4 amended: in a dispatch of an unblocked Signal that ends with defined behaviour and
whose callables neither dispatch the Signal again nor call `clear()`, a listener `h` whose
callable `c0` calls `disconnect` on its own handle (before it raises, if it does) and
that is called in this dispatch is called exactly once in it, and when the dispatch returns (also by an
exception) `h` is not in `observers`, `inCall` is false and the queue is empty: the next
dispatch does not find it. -/
theorem C4_self_disconnect (env : Env) (hplain : ∀ c arg, ∀ a ∈ env.prog c arg, a.plain)
    (h c0 arg : Nat) (hh : h ≠ 0)
    (hself : ∃ pre rest, env.prog c0 arg = pre ++ Action.disconnectPtr h :: rest ∧
      ∀ a ∈ pre, a ≠ Action.throw)
    (n : Nat) (w : World) (st : Status) (w1 : World)
    (h0 : w.isBlocked = 0) (hcb : w.blockedCallback = none)
    (hrun : run env n (.call arg) w = some (st, w1)) (hst : st ≠ .undefined)
    (id : Nat) (hcalled : Event.called h id c0 arg ∈ w1.log.drop w.log.length) :
    (calledHandles (w1.log.drop w.log.length)).count h = 1 ∧ h ∉ w1.observers ∧
    w1.inCall = false ∧ w1.disconnectQueue = [] := by
  cases n with
  | zero => simp [run_zero] at hrun
  | succ n =>
    rw [run_call] at hrun
    have hb : Signal.blocked w = false := by simp [Signal.blocked, h0]
    simp only [hb, Bool.not_false, if_true] at hrun
    rcases hl : run env n (.loop w.observers.head? arg) (enterCall w) with _ | ⟨st1, w2⟩
    · simp [hl] at hrun
    · rw [hl] at hrun
      have key : st1 ≠ .undefined → w1.log = w2.log →
          w1.observers = (Signal.scopeExit w2).observers → w1.inCall = false →
          w1.disconnectQueue = [] →
          (calledHandles (w1.log.drop w.log.length)).count h = 1 ∧ h ∉ w1.observers ∧
          w1.inCall = false ∧ w1.disconnectQueue = [] := by
        intro hst1 hlog hobs hinc hque
        obtain ⟨evs, h1, _, _, _, h5, _, _, h8⟩ :=
          loop_plain env hplain h c0 arg hh hself n _ (enterCall w) st1 w2 rfl hl hst1
        have hdrop : w1.log.drop w.log.length = evs := by
          rw [hlog, h1]
          simp [enterCall]
        rw [hdrop] at hcalled ⊢
        have hmem : h ∈ calledHandles evs := by
          simp only [calledHandles, List.mem_filterMap]
          exact ⟨_, hcalled, rfl⟩
        refine ⟨List.count_eq_one_of_mem h5.nodup hmem, ?_, hinc, hque⟩
        rw [hobs]
        have := h8 id hcalled
        simp [Signal.scopeExit, this]
      cases st1 with
      | undefined =>
        simp only at hrun
        cases hrun
        exact absurd rfl hst
      | raised =>
        simp only at hrun
        cases hrun
        exact key (by simp) rfl rfl rfl rfl
      | ok =>
        simp only at hrun
        have hcb2 : (Signal.scopeExit w2).blockedCallback = none := by
          obtain ⟨evs, _, _, h3, _⟩ :=
            loop_plain env hplain h c0 arg hh hself n _ (enterCall w) .ok w2 rfl hl (by simp)
          simp [Signal.scopeExit, h3, enterCall, hcb]
        cases n with
        | zero => simp [run_zero] at hrun
        | succ n =>
          rw [run_blockedPart] at hrun
          simp only [hcb2] at hrun
          split_ifs at hrun
          · cases hrun
            exact key (by simp) rfl rfl rfl rfl
          · cases hrun
            exact key (by simp) rfl rfl rfl rfl

theorem selfEnv_plain : ∀ c arg, ∀ a ∈ selfEnv.prog c arg, a.plain := by
  intro c arg a ha
  by_cases hc : c = 1
  · simp only [selfEnv, hc, if_true, List.mem_singleton] at ha
    subst ha
    exact ⟨fun x => by simp, by simp⟩
  · simp [selfEnv, hc] at ha

/-- The amended C4 on a Signal with the listeners 1 and 2, where 1 disconnects itself:
1 is called once and only 2 remains. -/
theorem C4_self_disconnect_witness :
    run selfEnv 9 (.call 7) selfWorld = some (.ok, selfWorldEnd) ∧
    (calledHandles (selfWorldEnd.log.drop selfWorld.log.length)).count 1 = 1 ∧
    1 ∉ selfWorldEnd.observers ∧ selfWorldEnd.observers = [2] :=
  ⟨by decide,
   (C4_self_disconnect selfEnv selfEnv_plain 1 1 7 (by decide) ⟨[], [], rfl, by simp⟩ 9 selfWorld .ok
      selfWorldEnd (by decide) (by decide) (by decide) (by decide) 1 (by decide)).1,
   (C4_self_disconnect selfEnv selfEnv_plain 1 1 7 (by decide) ⟨[], [], rfl, by simp⟩ 9 selfWorld .ok
      selfWorldEnd (by decide) (by decide) (by decide) (by decide) 1 (by decide)).2.1,
   by decide⟩


/-! ## Connecting during a dispatch -/


theorem runOps_mono (env : Env) (n m : Nat) (hnm : n ≤ m) :
    ∀ (ops : List Op) (w : World) (r : List Bool × World),
      runOps env n ops w = some r → runOps env m ops w = some r := by
  intro ops
  induction ops with
  | nil => intro w r h; simpa [runOps] using h
  | cons op ops ih =>
    intro w r h
    cases op with
    | block => simp only [runOps] at h ⊢; exact ih _ _ h
    | unblock =>
      simp only [runOps, Option.map_eq_some'] at h ⊢
      obtain ⟨a, ha, hr⟩ := h
      exact ⟨a, ih _ _ ha, hr⟩
    | dispatch arg =>
      simp only [runOps] at h ⊢
      rcases hrun : run env n (.call arg) w with _ | ⟨st, w1⟩
      · simp [hrun] at h
      · rw [hrun] at h
        rw [run_mono env n m hnm _ _ _ hrun]
        cases st
        · exact ih _ _ h
        · exact ih _ _ h
        · simp at h

theorem DisconnectOnly.congr {env : Env} {w w1 : World} {arg : Nat}
    (hd : DisconnectOnly env w arg) (ht : targetOf w1 = targetOf w) (ha : alive w1 = alive w) :
    DisconnectOnly env w1 arg := by
  intro k c id hk a hmem
  rw [ht] at hk
  rw [ha]
  exact hd k c id hk a hmem

theorem CalmSignal.of_same {env : Env} {w w1 : World} (hc : CalmSignal env w)
    (h1 : w1.disconnectQueue = w.disconnectQueue) (h2 : w1.observers = w.observers)
    (h3 : w1.blockedCallback = w.blockedCallback) (h4 : w1.heap = w.heap)
    (h5 : w1.held = w.held) (h6 : w1.locked = w.locked)
    (h7 : w1.ownedConnections = w.ownedConnections) : CalmSignal env w1 :=
  ⟨h1.trans hc.queue, h2 ▸ hc.sorted, h3.trans hc.noCallback,
    fun arg => (hc.calm arg).congr (by funext k; simp [targetOf, receiverAt, h4])
      (alive_congr w w1 h5 h6 h1 h7)⟩

theorem CalmSignal.dispatchEnd {env : Env} {w : World} (hc : CalmSignal env w) (arg : Nat) :
    CalmSignal env (dispatchEnd env w arg) := by
  have hf := dispatchEnd_fields env w arg hc.queue
  refine ⟨hf.2.2.2.1, ?_, ?_, fun arg' => (hc.calm arg').congr
    (dispatchEnd_targetOf env w arg hc.queue) (dispatchEnd_alive env w arg hc.queue)⟩
  · rw [hf.2.1]
    exact (hc.sorted.filter _).filter _
  · exact hc.noCallback

theorem runOps_total (env : Env) :
    ∀ (ops : List Op) (w : World), CalmSignal env w →
      ∃ fuel res w1, runOps env fuel ops w = some (res, w1) := by
  intro ops
  induction ops with
  | nil => intro w _; exact ⟨0, [], w, rfl⟩
  | cons op ops ih =>
    intro w hc
    cases op with
    | block =>
      obtain ⟨fuel, res, w1, h⟩ := ih (Signal.block w)
        (hc.of_same (by simp only [Signal.block]; split_ifs <;> rfl)
          (by simp only [Signal.block]; split_ifs <;> rfl)
          (by simp only [Signal.block]; split_ifs <;> rfl)
          (by simp only [Signal.block]; split_ifs <;> rfl)
          (by simp only [Signal.block]; split_ifs <;> rfl)
          (by simp only [Signal.block]; split_ifs <;> rfl)
          (by simp only [Signal.block]; split_ifs <;> rfl))
      exact ⟨fuel, res, w1, by simpa [runOps] using h⟩
    | unblock =>
      obtain ⟨fuel, res, w1, h⟩ := ih (Signal.unblock w).2
        (hc.of_same (by simp only [Signal.unblock]; split_ifs <;> rfl)
          (by simp only [Signal.unblock]; split_ifs <;> rfl)
          (by simp only [Signal.unblock]; split_ifs <;> rfl)
          (by simp only [Signal.unblock]; split_ifs <;> rfl)
          (by simp only [Signal.unblock]; split_ifs <;> rfl)
          (by simp only [Signal.unblock]; split_ifs <;> rfl)
          (by simp only [Signal.unblock]; split_ifs <;> rfl))
      exact ⟨fuel, (Signal.unblock w).1 :: res, w1, by simp [runOps, h]⟩
    | dispatch arg =>
      by_cases hb : w.isBlocked = 0
      · obtain ⟨n1, h1⟩ := dispatch_disconnectOnly env w arg hb hc.queue hc.sorted (hc.calm arg)
        obtain ⟨n2, res, w1, h2⟩ := ih _ (hc.dispatchEnd arg)
        refine ⟨max n1 n2, res, w1, ?_⟩
        simp only [runOps, run_mono env n1 _ (le_max_left _ _) _ _ _ h1]
        exact runOps_mono env n2 _ (le_max_right _ _) _ _ _ h2
      · obtain ⟨n2, res, w1, h2⟩ := ih (markCalled w) (hc.of_same rfl rfl rfl rfl rfl rfl rfl)
        refine ⟨n2 + 2, res, w1, ?_⟩
        have hbl : Signal.blocked w = true := by simpa [Signal.blocked] using hb
        have hrun : run env (n2 + 2) (.call arg) w = some (.ok, markCalled w) := by
          simp [run, hbl, hc.noCallback]
        simp only [runOps, hrun]
        exact runOps_mono env n2 _ (by omega) _ _ _ h2

/-- C9, as the claim states it, fails. The one listener of `blockingWorld` calls
`block()` from its callable: the dispatch started on the unblocked Signal, the depth goes
from 0 to 1 during it, and the blocked branch at the end of `operator()` sets
`calledWhileBlocked`; the `unblock()` that follows brings the depth from 1 to 0 and returns
true although no dispatch was attempted since that `block()`. And the depth is a 32 bit
`int`: after `2^32` calls of `block()` it is 0 again, so that one more `block()`, a
dispatch and an `unblock()` return true where the depth of the claim is still `2^32`. -/
theorem C9_counterexample :
    blockingWorld.isBlocked = 0 ∧
    (run blockingEnv 20 (.call 7) blockingWorld).map
        (fun r => (r.1, r.2.isBlocked, r.2.calledWhileBlocked, r.2.log))
      = some (.ok, 1, true, [Event.called 1 1 1 7]) ∧
    (runOps blockingEnv 20 [.dispatch 7, .unblock] blockingWorld).map (fun r => r.1)
      = some [true] ∧
    specUnblockResults [.dispatch 7, .unblock] 0 false = [false] ∧
    (runOps quietEnv 10 (List.replicate 4294967296 Op.block ++ [.block, .dispatch 7, .unblock])
        oneListenerWorld).map (fun r => r.1) = some [true] ∧
    specUnblockResults (List.replicate 4294967296 Op.block ++ [.block, .dispatch 7, .unblock])
        0 false = [false] := by
  refine ⟨by decide, by decide, by decide, by decide, ?_, ?_⟩
  · have hs := signal_blocks_state 4294967296 oneListenerWorld (by decide) (by decide)
    have h0 : oneListenerWorld.isBlocked = 0 := by decide
    rw [h0, wrapInt32_full] at hs
    have hw : { oneListenerWorld with isBlocked := 0 } = oneListenerWorld := by decide
    rw [hw] at hs
    rw [runOps_blocks, hs]
    decide
  · rw [specUnblockResults_blocks]
    decide

/-- C9 amended: in a sequence of `block()`, `unblock()` and dispatch calls on a Signal that
starts unblocked and whose callables do not block or unblock it, during which the block
depth stays below `2^31`, the `unblock()` that brings the depth from 1 to 0 returns true
exactly when a dispatch was attempted since the `block()` that raised the depth from 0 to
1, and every other `unblock()` returns false: whenever the dispatches of the sequence
return, the results are those of the specification, and on a Signal whose callables at
most disconnect they do return. -/
theorem C9_unblock_reports_attempts (env : Env)
    (hprog : ∀ c arg, ∀ a ∈ env.prog c arg, a.noBlock) (ops : List Op)
    (w : World) (h0 : w.isBlocked = 0) (hr : depthInRange (blockOpsOf ops) 0) :
    (∀ fuel res w1, runOps env fuel ops w = some (res, w1) →
      res = specUnblockResults ops 0 false) ∧
    (CalmSignal env w →
      ∃ fuel w1, runOps env fuel ops w = some (specUnblockResults ops 0 false, w1)) := by
  have hpart : ∀ fuel res w1, runOps env fuel ops w = some (res, w1) →
      res = specUnblockResults ops 0 false := fun fuel res w1 h =>
    runOps_spec env hprog fuel ops w 0 false res w1 (by simpa using h0) hr
      (fun hp => absurd hp (by omega)) h
  refine ⟨hpart, fun hc => ?_⟩
  obtain ⟨fuel, res, w1, h⟩ := runOps_total env ops w hc
  exact ⟨fuel, w1, by rw [← hpart fuel res w1 h]; exact h⟩

/-- The amended C9 on a Signal with one listener: a dispatch, an empty block/unblock pair
(false), two nested blocks with a dispatch inside (false for the inner unblock, true for
the outer one) and an unblock at depth 0 (false). -/
theorem C9_unblock_reports_attempts_witness :
    runOps quietEnv 10 sampleOps oneListenerWorld = some ([false, false, true, false], sampleOpsEnd) ∧
    [false, false, true, false] = specUnblockResults sampleOps 0 false ∧
    CalmSignal quietEnv oneListenerWorld ∧
    depthInRange (blockOpsOf sampleOps) 0 :=
  ⟨by decide,
   (C9_unblock_reports_attempts quietEnv (fun _ _ a ha => by simp [quietEnv] at ha) sampleOps
     oneListenerWorld (by decide) (depthInRange_of_length _ _ (by decide))).1 10
     [false, false, true, false] sampleOpsEnd (by decide),
   ⟨by decide, by decide, by decide, fun arg => quietEnv_disconnectOnly _ arg⟩,
   depthInRange_of_length _ _ (by decide)⟩

/-! ## disconnect(key) -/


theorem lookup_mapErase_self (key : String) (m : List (String × Nat)) :
    (mapErase key m).lookup key = none := by
  induction m with
  | nil => rfl
  | cons e m ih =>
    obtain ⟨k, v⟩ := e
    by_cases hk : k = key
    · simpa [mapErase, List.filter_cons, hk] using ih
    · have hne : (key == k) = false := by simpa using fun h => hk h.symm
      simp only [mapErase, List.filter_cons, ne_eq, hk, not_false_eq_true, decide_True, if_true,
        List.lookup, hne]
      exact ih

theorem lookup_mapErase_ne (key key2 : String) (h : key2 ≠ key) (m : List (String × Nat)) :
    (mapErase key m).lookup key2 = m.lookup key2 := by
  induction m with
  | nil => rfl
  | cons e m ih =>
    obtain ⟨k, v⟩ := e
    by_cases hk : k = key
    · have hne : (key2 == k) = false := by simpa [hk] using h
      simp only [mapErase, List.filter_cons, hk, ne_eq, not_true_eq_false, decide_False,
        Bool.false_eq_true, if_false, List.lookup]
      rw [hk] at hne
      simp only [hne]
      exact ih
    · simp only [mapErase, List.filter_cons, ne_eq, hk, not_false_eq_true, decide_True, if_true,
        List.lookup]
      cases hkk : key2 == k
      · exact ih
      · rfl

/-- C11: outside a dispatch, `disconnect(key)` for a key that is present erases the stored
handle from `observers` (and no other reference), erases the key, so that `connected(key)`
is false and `connection(key)` is null afterwards, and touches no other key; for a key
that is not present the state is unchanged. -/
theorem C11_disconnect_key (w : World) (key : String) :
    (∀ h, w.ownedConnections.lookup key = some h → w.inCall = false →
      (h ≠ 0 → h ∉ (Signal.disconnectKey w key).observers) ∧
      (∀ k, k ≠ h → (k ∈ (Signal.disconnectKey w key).observers ↔ k ∈ w.observers)) ∧
      Signal.connected (Signal.disconnectKey w key) key = false ∧
      Signal.connection (Signal.disconnectKey w key) key = 0 ∧
      (∀ key2, key2 ≠ key →
        Signal.connection (Signal.disconnectKey w key) key2 = Signal.connection w key2)) ∧
    (w.ownedConnections.lookup key = none → Signal.disconnectKey w key = w) := by
  refine ⟨fun h hl hin => ?_, fun hl => by simp [Signal.disconnectKey, hl]⟩
  have hmap : (Signal.disconnectKey w key).ownedConnections = mapErase key w.ownedConnections := by
    simp only [Signal.disconnectKey, hl, Signal.disconnectPtr, eraseObserver]
    split_ifs <;> rfl
  have hobs : (Signal.disconnectKey w key).observers
      = if h ≠ 0 then setErase h w.observers else w.observers := by
    simp only [Signal.disconnectKey, hl, Signal.disconnectPtr, eraseObserver, hin]
    split_ifs <;> simp_all
  refine ⟨?_, ?_, ?_, ?_, ?_⟩
  · intro h0
    rw [hobs, if_pos h0, mem_setErase]
    simp
  · intro k hk
    rw [hobs]
    split_ifs
    · rw [mem_setErase]; simp [hk]
    · rfl
  · simp [Signal.connected, hmap, lookup_mapErase_self]
  · simp [Signal.connection, hmap, lookup_mapErase_self]
  · intro key2 hk2
    simp [Signal.connection, hmap, lookup_mapErase_ne key key2 hk2]

/-- C11 on a Signal with the named connection "finish": after `disconnect("finish")` the
listener 1 is gone from `observers` and the key is gone; `disconnect("other")` changes
nothing. -/
theorem C11_disconnect_key_witness :
    namedWorld.observers = [1] ∧
    1 ∉ (Signal.disconnectKey namedWorld "finish").observers ∧
    Signal.connected (Signal.disconnectKey namedWorld "finish") "finish" = false ∧
    Signal.disconnectKey namedWorld "other" = namedWorld :=
  ⟨by decide,
   ((C11_disconnect_key namedWorld "finish").1 1 (by decide) (by decide)).1 (by decide),
   ((C11_disconnect_key namedWorld "finish").1 1 (by decide) (by decide)).2.2.1,
   (C11_disconnect_key namedWorld "other").2 (by decide)⟩


/-! ## Block depths -/

/-- C14, as the claim states it, fails for long sequences: the depth is a 32 bit `int`.
After `2^31 - 1` calls of `block()` the depth is `2^31 - 1`, and one more `block()` makes
it `-2^31`, a negative depth, while the saturating count of the sequence is `2^31`; on a
receiver and on the Signal alike. -/
theorem C14_counterexample :
    (Receiver.applyOps (List.replicate 2147483647 BlockOp.block) sampleReceiver).isBlocked
      = 2147483647 ∧
    (Receiver.applyOps (List.replicate 2147483647 BlockOp.block ++ [BlockOp.block])
      sampleReceiver).isBlocked = -2147483648 ∧
    (Signal.applyOps (List.replicate 2147483647 BlockOp.block) World.init).isBlocked
      = 2147483647 ∧
    (Signal.applyOps (List.replicate 2147483647 BlockOp.block ++ [BlockOp.block])
      World.init).isBlocked = -2147483648 ∧
    saturatingCount (List.replicate 2147483647 BlockOp.block ++ [BlockOp.block]) 0
      = 2147483648 := by
  have hr : depthInRange (List.replicate 2147483647 BlockOp.block) 0 :=
    depthInRange_blocks 2147483647 0 (by norm_num)
  have h1 := receiver_applyOps_depth (List.replicate 2147483647 BlockOp.block) sampleReceiver 0
    rfl hr
  have h2 := signal_applyOps_depth (List.replicate 2147483647 BlockOp.block) World.init 0
    rfl hr
  rw [saturatingCount_blocks] at h1 h2
  refine ⟨h1, ?_, h2, ?_, ?_⟩
  · rw [receiver_applyOps_append, receiver_applyOps_one, receiver_block_isBlocked, h1]
    exact wrapInt32_overflow
  · rw [signal_applyOps_append, signal_applyOps_one, signal_block_isBlocked, h2]
    exact wrapInt32_overflow
  · rw [saturatingCount_append, saturatingCount_blocks]
    rfl

/-- C14 amended: after every sequence of `block()` and `unblock()` calls during which the
saturating count stays below `2^31`, on a receiver and on the Signal alike, the block
depth is the saturating count of the sequence (from the depth `d` before it); it is not
negative, and `blocked()` is true exactly when the count is positive. A `block()` followed
by an `unblock()` restores the depth when the depth before it is below `2^31 - 1`. -/
theorem C14_block_depth_saturates (ops : List BlockOp) (d : Nat) (hr : depthInRange ops d) :
    (∀ r : Receiver, r.isBlocked = (d : Int) →
      (Receiver.applyOps ops r).isBlocked = (saturatingCount ops d : Int) ∧
      0 ≤ (Receiver.applyOps ops r).isBlocked ∧
      ((Receiver.applyOps ops r).blocked = true ↔ 0 < saturatingCount ops d) ∧
      (d + 1 < 2 ^ 31 → r.block.unblock.isBlocked = r.isBlocked)) ∧
    (∀ w : World, w.isBlocked = (d : Int) →
      (Signal.applyOps ops w).isBlocked = (saturatingCount ops d : Int) ∧
      0 ≤ (Signal.applyOps ops w).isBlocked ∧
      (Signal.blocked (Signal.applyOps ops w) = true ↔ 0 < saturatingCount ops d) ∧
      (d + 1 < 2 ^ 31 → (Signal.unblock (Signal.block w)).2.isBlocked = w.isBlocked)) := by
  refine ⟨fun r h => ?_, fun w h => ?_⟩
  · have hd := receiver_applyOps_depth ops r d h hr
    refine ⟨hd, by rw [hd]; omega, ?_, ?_⟩
    · simp only [Receiver.blocked, hd, bne_iff_ne, ne_eq]
      omega
    · intro hlt
      rw [receiver_unblock_depth _ (d + 1) (receiver_block_depth r d h hlt) hlt, h]
      simp
  · have hd := signal_applyOps_depth ops w d h hr
    refine ⟨hd, by rw [hd]; omega, ?_, ?_⟩
    · simp only [Signal.blocked, hd, bne_iff_ne, ne_eq]
      omega
    · intro hlt
      rw [signal_unblock_depth _ (d + 1) (signal_block_depth w d h hlt) hlt, h]
      simp

theorem sampleBlockOps_inRange :
    depthInRange [.unblock, .unblock, .block, .block, .unblock] 0 := by
  intro k hk
  have hk5 : k ≤ 5 := hk
  interval_cases k <;> simp [saturatingCount]

/-- The amended C14 on a new receiver and a new Signal: two unblocks too many leave the
depth at 0, and of two blocks and one unblock one block remains. -/
theorem C14_block_depth_saturates_witness :
    depthInRange [.unblock, .unblock, .block, .block, .unblock] 0 ∧
    (Receiver.applyOps [.unblock, .unblock, .block, .block, .unblock] sampleReceiver).isBlocked = 1 ∧
    (Signal.applyOps [.unblock, .unblock, .block, .block, .unblock] World.init).isBlocked = 1 ∧
    saturatingCount [.unblock, .unblock, .block, .block, .unblock] 0 = 1 :=
  ⟨sampleBlockOps_inRange,
   ((C14_block_depth_saturates [.unblock, .unblock, .block, .block, .unblock] 0
      sampleBlockOps_inRange).1 sampleReceiver (by decide)).1,
   ((C14_block_depth_saturates [.unblock, .unblock, .block, .block, .unblock] 0
      sampleBlockOps_inRange).2 World.init (by decide)).1,
   by decide⟩

/-! ## A refused named connect -/

theorem capacityCheck_frame (w : World) :
    (capacityCheck w).2.held = w.held ∧ (capacityCheck w).2.locked = w.locked ∧
    (capacityCheck w).2.disconnectQueue = w.disconnectQueue ∧
    (capacityCheck w).2.ownedConnections = w.ownedConnections := by
  unfold capacityCheck
  split_ifs <;> exact ⟨rfl, rfl, rfl, rfl⟩

/-- C19: when the capacity limit refuses `connect(key, callable)`, the call returns null
and adds no reference to `observers` (it only purges the expired ones), and still writes
the key: the entry of `key` is null afterwards, so `connected(key)` is true while
`connection(key)` is null, the other keys keep their handles, and a handle that was
owned through this key alone is not alive any more. -/
theorem C19_refused_connect_writes_key (env : Env) (w : World) (key : String) (cb : Option Nat)
    (hlim : w.observerLimit ≠ sizeMax) (hfull : w.observerLimit ≤ liveCount w) :
    (Signal.connectKey env w key cb).1 = 0 ∧
    (Signal.connectKey env w key cb).2.observers = w.observers.filter (alive w) ∧
    (Signal.connectKey env w key cb).2.ownedConnections.lookup key = some 0 ∧
    Signal.connected (Signal.connectKey env w key cb).2 key = true ∧
    Signal.connection (Signal.connectKey env w key cb).2 key = 0 ∧
    (∀ key2, key2 ≠ key →
      (Signal.connectKey env w key cb).2.ownedConnections.lookup key2
        = w.ownedConnections.lookup key2) ∧
    (∀ h0, w.ownedConnections.lookup key = some h0 → h0 ∉ w.held → h0 ∉ w.locked →
      h0 ∉ w.disconnectQueue → (∀ e ∈ w.ownedConnections, e.2 = h0 → e.1 = key) →
      alive (Signal.connectKey env w key cb).2 h0 = false) := by
  have hfail : (capacityCheck w).1 = false := by
    rw [← Bool.not_eq_true, capacityCheck_pass_iff]
    rintro (h | h)
    · exact hlim h
    · omega
  have hc := connect_fail env w cb hfail
  have hfr := capacityCheck_frame w
  have hmap : (Signal.connectKey env w key cb).2.ownedConnections
      = mapSet key 0 w.ownedConnections := by
    simp [Signal.connectKey, hc, hfr.2.2.2]
  refine ⟨by simp [Signal.connectKey, hc], ?_, ?_, ?_, ?_, ?_, ?_⟩
  · simp only [Signal.connectKey, hc]
    rw [capacityCheck_observers, if_neg hlim]
  · rw [hmap, lookup_mapSet]
  · simp [Signal.connected, hmap, lookup_mapSet]
  · simp [Signal.connection, hmap, lookup_mapSet]
  · intro key2 hk2
    rw [hmap]
    have hne : (key2 == key) = false := by simpa using hk2
    simp only [mapSet, List.lookup, hne]
    exact lookup_mapErase_ne key key2 hk2 w.ownedConnections
  · intro h0 _ h1 h2 h3 h4
    rw [← Bool.not_eq_true, alive_iff]
    rintro ⟨hz, hown⟩
    have e1 : (Signal.connectKey env w key cb).2.held = w.held := by
      simp [Signal.connectKey, hc, hfr.1]
    have e2 : (Signal.connectKey env w key cb).2.locked = w.locked := by
      simp [Signal.connectKey, hc, hfr.2.1]
    have e3 : (Signal.connectKey env w key cb).2.disconnectQueue = w.disconnectQueue := by
      simp [Signal.connectKey, hc, hfr.2.2.1]
    rw [e1, e2, e3, hmap] at hown
    rcases hown with h | h | h | h
    · exact h1 h
    · exact h2 h
    · exact h3 h
    · simp only [mapSet, List.map_cons, List.mem_cons, List.mem_map, List.mem_filter] at h
      rcases h with h | ⟨e, ⟨he, hk⟩, rfl⟩
      · exact hz h
      · have := h4 e he rfl
        simp [this] at hk

/-- C19 on a Signal with limit 1 whose key "finish" holds the only listener: a second
`connect("finish", ...)` is refused, the key stays, its handle is null and the listener 1
is not alive any more. -/
theorem C19_refused_connect_writes_key_witness :
    Signal.connection fullNamedWorld "finish" = 1 ∧
    (Signal.connectKey quietEnv fullNamedWorld "finish" (some 0)).1 = 0 ∧
    Signal.connected (Signal.connectKey quietEnv fullNamedWorld "finish" (some 0)).2 "finish"
      = true ∧
    Signal.connection (Signal.connectKey quietEnv fullNamedWorld "finish" (some 0)).2 "finish"
      = 0 ∧
    alive (Signal.connectKey quietEnv fullNamedWorld "finish" (some 0)).2 1 = false :=
  ⟨by decide,
   (C19_refused_connect_writes_key quietEnv fullNamedWorld "finish" (some 0) (by decide)
      (by decide)).1,
   (C19_refused_connect_writes_key quietEnv fullNamedWorld "finish" (some 0) (by decide)
      (by decide)).2.2.2.1,
   (C19_refused_connect_writes_key quietEnv fullNamedWorld "finish" (some 0) (by decide)
      (by decide)).2.2.2.2.1,
   (C19_refused_connect_writes_key quietEnv fullNamedWorld "finish" (some 0) (by decide)
      (by decide)).2.2.2.2.2.2 1 (by decide) (by decide) (by decide) (by decide) (by decide)⟩

/-! ## The observer limit as an int -/

/-- C20: `getObserverLimit` returns the stored limit converted to a 32 bit `int`: after
`setObserverLimit(n)` it is `n` for `n ≤ 2^31 - 1`; for a larger `n` (a `size_t`) it is
`n` modulo `2^32` read as a signed value, which is not `n`; without a limit (a new Signal,
or after `clearObserverLimit`) it is -1; and `setObserverLimit` with the largest `size_t`
leaves the same state as `clearObserverLimit`. -/
theorem C20_getObserverLimit_conversion (w : World) :
    (∀ n : Nat, n ≤ 2 ^ 31 - 1 →
      Signal.getObserverLimit (Signal.setObserverLimit w n) = (n : Int)) ∧
    (∀ n : Nat, 2 ^ 31 ≤ n → n < 2 ^ 64 →
      Signal.getObserverLimit (Signal.setObserverLimit w n)
        = (if n % 2 ^ 32 < 2 ^ 31 then ((n % 2 ^ 32 : Nat) : Int)
           else ((n % 2 ^ 32 : Nat) : Int) - 2 ^ 32) ∧
      Signal.getObserverLimit (Signal.setObserverLimit w n) ≠ (n : Int)) ∧
    Signal.getObserverLimit World.init = -1 ∧
    Signal.getObserverLimit (Signal.clearObserverLimit w) = -1 ∧
    Signal.setObserverLimit w (2 ^ 64 - 1) = Signal.clearObserverLimit w := by
  refine ⟨?_, ?_, by decide, ?_, ?_⟩
  · intro n hn
    have h1 : n % 2 ^ 64 % 2 ^ 32 = n := by omega
    simp only [Signal.getObserverLimit, Signal.setObserverLimit, h1]
    rw [if_pos (by omega)]
  · intro n h1 h2
    have h3 : n % 2 ^ 64 % 2 ^ 32 = n % 2 ^ 32 := by omega
    have hval : Signal.getObserverLimit (Signal.setObserverLimit w n)
        = (if n % 2 ^ 32 < 2 ^ 31 then ((n % 2 ^ 32 : Nat) : Int)
           else ((n % 2 ^ 32 : Nat) : Int) - 2 ^ 32) := by
      simp only [Signal.getObserverLimit, Signal.setObserverLimit, h3]
    refine ⟨hval, ?_⟩
    rw [hval]
    split_ifs <;> omega
  · simp only [Signal.getObserverLimit, Signal.clearObserverLimit, sizeMax]
    decide
  · simp only [Signal.setObserverLimit, Signal.clearObserverLimit, sizeMax]
    norm_num

/-- C20 at the limits 5, 2^31 and 2^32 + 7: the results are 5, -2^31 and 7. -/
theorem C20_getObserverLimit_conversion_witness :
    Signal.getObserverLimit (Signal.setObserverLimit World.init 5) = 5 ∧
    Signal.getObserverLimit (Signal.setObserverLimit World.init (2 ^ 31)) = -(2 ^ 31) ∧
    Signal.getObserverLimit (Signal.setObserverLimit World.init (2 ^ 32 + 7)) = 7 ∧
    Signal.getObserverLimit (Signal.setObserverLimit World.init (2 ^ 31)) ≠ ((2 ^ 31 : Nat) : Int) :=
  ⟨(C20_getObserverLimit_conversion World.init).1 5 (by decide), by decide, by decide,
   ((C20_getObserverLimit_conversion World.init).2.1 (2 ^ 31) (by decide) (by decide)).2⟩

/-! ## Receiver::notify and blocked listeners -/


theorem calledHandles_callsOf_eq (w : World) (arg : Nat) (ks : List Nat) :
    calledHandles (callsOf w arg ks) = ks.filter (fun k => (targetOf w k).isSome) := by
  induction ks with
  | nil => rfl
  | cons k ks ih =>
    simp only [calledHandles, callsOf] at ih ⊢
    rcases hto : targetOf w k with _ | p
    · simp [List.filterMap_cons, List.filter_cons, hto, ih]
    · simp [List.filterMap_cons, List.filter_cons, hto, ih, Event.handle?]

theorem targetOf_isSome_iff (w : World) (k : Nat) :
    (targetOf w k).isSome = true
      ↔ ∃ r c, receiverAt w k = some r ∧ r.isBlocked = 0 ∧ r.callback = some c := by
  simp only [targetOf]
  rcases hr : receiverAt w k with _ | r
  · simp
  · rcases hc : r.callback with _ | c
    · simp [notifyTarget, Receiver.notify, Receiver.invalid, hc]
    · by_cases hb : r.isBlocked = 0
      · simp [notifyTarget, Receiver.notify, Receiver.invalid, Receiver.blocked, hc, hb]
      · simp [notifyTarget, Receiver.notify, Receiver.invalid, Receiver.blocked, hc, hb]

/-- C13: `notify` and `operator()` of a receiver call the stored callable (once) when the
block depth is 0 and a callable is present, and nothing otherwise; `predicate` returns the
result of the callable in the first case and false otherwise. So a dispatch (callables
that at most disconnect) calls, among the live listeners, exactly those whose receiver is
not blocked and has a callable, each once: a blocked listener is skipped and the others
are still called. -/
theorem C13_receiver_notify (r : Receiver) (result : Nat → Bool) :
    (∀ c, r.isBlocked = 0 → r.callback = some c →
      r.notify = some c ∧ r.call = some c ∧ r.predicate result = (some c, result c)) ∧
    (r.isBlocked ≠ 0 ∨ r.callback = none →
      r.notify = none ∧ r.call = none ∧ r.predicate result = (none, false)) ∧
    (∀ (env : Env) (w : World) (arg : Nat), w.isBlocked = 0 → w.disconnectQueue = [] →
      w.observers.Sorted (· < ·) → DisconnectOnly env w arg →
      Runs env (.call arg) w (.ok, dispatchEnd env w arg) ∧
      (calledHandles ((dispatchEnd env w arg).log.drop w.log.length)).Nodup ∧
      (∀ k ∈ w.observers, alive w k = true →
        (k ∈ calledHandles ((dispatchEnd env w arg).log.drop w.log.length)
          ↔ ∃ rk c, receiverAt w k = some rk ∧ rk.isBlocked = 0 ∧ rk.callback = some c))) := by
  refine ⟨?_, ?_, ?_⟩
  · intro c hb hc
    simp [Receiver.notify, Receiver.call, Receiver.predicate, Receiver.blocked,
      Receiver.invalid, hb, hc]
  · rintro (hb | hc)
    · simp [Receiver.notify, Receiver.call, Receiver.predicate, Receiver.blocked, hb]
    · simp [Receiver.notify, Receiver.call, Receiver.predicate, Receiver.invalid, hc]
  · intro env w arg h0 hq hs hd
    have hf := dispatchEnd_fields env w arg hq
    have hlog : calledHandles ((dispatchEnd env w arg).log.drop w.log.length)
        = (w.observers.filter (alive w)).filter (fun k => (targetOf w k).isSome) := by
      rw [hf.1, List.drop_left, calledHandles_callsOf_eq]
    refine ⟨dispatch_disconnectOnly env w arg h0 hq hs hd, ?_, ?_⟩
    · rw [hlog]
      exact ((hs.filter _).filter _).nodup
    · intro k hk hal
      rw [hlog, ← targetOf_isSome_iff]
      simp [List.mem_filter, hk, hal]

/-- C13 on a blocked and on an unblocked receiver, and on a Signal with the listeners 1,
2 and 3 where the receiver of 2 is blocked: the dispatch calls 1 and 3. -/
theorem C13_receiver_notify_witness :
    sampleReceiver.notify = some 0 ∧ sampleReceiver.block.notify = none ∧
    sampleReceiver.block.predicate (fun _ => true) = (none, false) ∧
    Runs quietEnv (.call 7) blockedListenerWorld
      (.ok, dispatchEnd quietEnv blockedListenerWorld 7) ∧
    calledHandles ((dispatchEnd quietEnv blockedListenerWorld 7).log.drop
      blockedListenerWorld.log.length) = [1, 3] :=
  ⟨((C13_receiver_notify sampleReceiver (fun _ => true)).1 0 (by decide) (by decide)).1,
   ((C13_receiver_notify sampleReceiver.block (fun _ => true)).2.1 (Or.inl (by decide))).1,
   ((C13_receiver_notify sampleReceiver.block (fun _ => true)).2.1 (Or.inl (by decide))).2.2,
   ((C13_receiver_notify sampleReceiver (fun _ => true)).2.2 quietEnv blockedListenerWorld 7
      (by decide) (by decide) (by decide) (quietEnv_disconnectOnly _ _)).1,
   by decide⟩


/-! ## SignalRegister -/


/-- C15, as the claim states it, fails: `clear`, `block`, `unblock`, the limit controls
and `cullDeadObservers` are operations of the list, and no member of `SignalRegister`
forwards to them. -/
theorem C15_counterexample :
    SignalMember.clear ∈ claimedRegisterOps ∧
    (¬ ∃ m : RegisterMember, m.target = some SignalMember.clear) ∧
    (¬ ∃ m : RegisterMember, m.target = some SignalMember.block) ∧
    (¬ ∃ m : RegisterMember, m.target = some SignalMember.unblock) ∧
    (¬ ∃ m : RegisterMember, m.target = some SignalMember.setObserverLimit) ∧
    (¬ ∃ m : RegisterMember, m.target = some SignalMember.cullDeadObservers) := by
  refine ⟨by decide, ?_, ?_, ?_, ?_, ?_⟩ <;>
    · rintro ⟨m, hm⟩
      cases m <;> simp [RegisterMember.target] at hm

/-- C15 amended: `SignalRegister` offers the three connect forms, both disconnect forms,
`connection` and `connected`, and no other operation of the Signal; each of the seven has
exactly the result and the effect on the wrapped Signal of the Signal's own operation. -/
theorem C15_register_forwards (env : Env) (w : World) (cb : Option Nat) (h : Nat)
    (key : String) :
    (∀ op : SignalMember, (∃ m : RegisterMember, m.target = some op) ↔ op ∈ forwardedOps) ∧
    SignalRegister.connect env w cb = Signal.connect env w cb ∧
    SignalRegister.connectPtr w h = Signal.connectPtr w h ∧
    SignalRegister.connectKey env w key cb = Signal.connectKey env w key cb ∧
    SignalRegister.disconnectPtr w h = Signal.disconnectPtr w h ∧
    SignalRegister.disconnectKey w key = Signal.disconnectKey w key ∧
    SignalRegister.connection w key = Signal.connection w key ∧
    SignalRegister.connected w key = Signal.connected w key := by
  refine ⟨?_, rfl, rfl, rfl, rfl, rfl, rfl, rfl⟩
  intro op
  constructor
  · rintro ⟨m, hm⟩
    cases m <;> simp only [RegisterMember.target, Option.some.injEq] at hm <;>
      first
      | (subst hm; decide)
      | exact absurd hm (by simp)
  · intro hop
    simp only [forwardedOps, List.mem_cons, List.mem_singleton, List.not_mem_nil,
      or_false] at hop
    rcases hop with rfl | rfl | rfl | rfl | rfl | rfl | rfl
    · exact ⟨.connect, rfl⟩
    · exact ⟨.connectPtr, rfl⟩
    · exact ⟨.connectKey, rfl⟩
    · exact ⟨.disconnectPtr, rfl⟩
    · exact ⟨.disconnectKey, rfl⟩
    · exact ⟨.connection, rfl⟩
    · exact ⟨.connected, rfl⟩


/-! ## The scope guard of a dispatch -/


theorem prim_blockedCallback (env : Env) (a : Action) (w : World) :
    (prim env a w).blockedCallback = w.blockedCallback := by
  cases a <;>
    simp only [prim, Receiver.make, Signal.connect, Signal.connectPtr, Signal.connectKey,
      Signal.disconnectPtr, Signal.disconnectKey, Signal.clear, Signal.clearObservers,
      Signal.block, Signal.unblock, Signal.setObserverLimit, Signal.clearObserverLimit,
      Signal.cullDeadObservers, Signal.capacityCheck, Signal.eraseObserver, setReceiver] <;>
    (repeat' split) <;> simp_all

theorem run_blockedCallback (env : Env) (n : Nat) (t : Task) (w : World) (st : Status)
    (w1 : World) (h : run env n t w = some (st, w1)) :
    w1.blockedCallback = w.blockedCallback := by
  have hc : StepClosed env (fun _ => True) (fun a b => b.blockedCallback = a.blockedCallback) :=
    { refl := fun _ => rfl
      trans := fun _ _ _ h1 h2 => h2.trans h1
      prim := fun a w _ _ => prim_blockedCallback env a w
      prog := fun _ _ _ _ => trivial
      enter := fun _ _ => rfl
      exit := fun _ => rfl
      flag := fun _ _ => rfl
      log := fun _ _ => rfl
      lock := fun _ _ _ => rfl
      unlock := fun _ _ => rfl
      erase := fun _ _ _ => rfl }
  have ha : t.allowed (fun _ => True) := by
    cases t <;> simp [Task.allowed]
  exact run_rel env _ _ hc n t w st w1 ha h

theorem scopeExit_clean (w : World) :
    (Signal.scopeExit w).inCall = false ∧ (Signal.scopeExit w).disconnectQueue = [] ∧
    (∀ k, k ∈ (Signal.scopeExit w).observers ↔ k ∈ w.observers ∧ k ∉ w.disconnectQueue) := by
  refine ⟨rfl, rfl, ?_⟩
  intro k
  simp [Signal.scopeExit]

/-- C16: a dispatch on an unblocked Signal that returns or that an exception of a
listener's callable leaves. The loop stopped in a state `wl` with the status of the
dispatch; on exit `inCall` is false, `disconnectQueue` is empty and `observers` is that
of `wl` without the handles that were queued in `wl`, so none of them is in `observers`. -/
theorem C16_scope_guard (env : Env) (n : Nat) (w : World) (arg : Nat) (st : Status)
    (w1 : World) (hb : Signal.blocked w = false) (hcb : w.blockedCallback = none)
    (hrun : run env n (.call arg) w = some (st, w1)) (hst : st ≠ .undefined) :
    ∃ m wl, run env m (.loop w.observers.head? arg) (enterCall w) = some (st, wl) ∧
      (st = .ok ∨ st = .raised) ∧
      w1.inCall = false ∧ w1.disconnectQueue = [] ∧
      (∀ k ∈ wl.disconnectQueue, k ∉ w1.observers) ∧
      (∀ k, k ∈ w1.observers ↔ k ∈ wl.observers ∧ k ∉ wl.disconnectQueue) := by
  cases n with
  | zero => simp [run_zero] at hrun
  | succ n =>
    rw [run_call] at hrun
    simp only [hb, Bool.not_false, if_true] at hrun
    cases hr : run env n (.loop w.observers.head? arg) (enterCall w) with
    | none => simp [hr] at hrun
    | some p =>
      rw [hr] at hrun
      obtain ⟨stl, wl⟩ := p
      have hcbl : (Signal.scopeExit wl).blockedCallback = none := by
        have := run_blockedCallback env n _ _ _ _ hr
        simpa [Signal.scopeExit, enterCall, hcb] using this
      obtain ⟨h1, h2, h3⟩ := scopeExit_clean wl
      cases stl with
      | ok =>
        simp only at hrun
        cases n with
        | zero => simp [run_zero] at hrun
        | succ n =>
          rw [run_blockedPart] at hrun
          have hw1 : st = .ok ∧ (w1 = markCalled (Signal.scopeExit wl) ∨ w1 = Signal.scopeExit wl) := by
            split_ifs at hrun with hbl
            · simp only [hcbl] at hrun
              cases hrun
              exact ⟨rfl, Or.inl rfl⟩
            · cases hrun
              exact ⟨rfl, Or.inr rfl⟩
          obtain ⟨rfl, hw1 | hw1⟩ := hw1
          · subst hw1
            refine ⟨_, wl, hr, Or.inl rfl, h1, h2, ?_, h3⟩
            intro k hk hk1
            exact ((h3 k).1 hk1).2 hk
          · subst hw1
            refine ⟨_, wl, hr, Or.inl rfl, h1, h2, ?_, h3⟩
            intro k hk hk1
            exact ((h3 k).1 hk1).2 hk
      | raised =>
        simp only at hrun
        cases hrun
        refine ⟨_, wl, hr, Or.inr rfl, h1, h2, ?_, h3⟩
        intro k hk hk1
        exact ((h3 k).1 hk1).2 hk
      | undefined =>
        simp only at hrun
        cases hrun
        exact absurd rfl hst

/-- C16 on a Signal with the listeners 1, 2 and 3, where the callable of 2 requests the
disconnect of 3 and raises: the exception leaves the dispatch, the flag is reset, the
queue is empty and 3 is no longer in `observers`. -/
theorem C16_scope_guard_witness :
    run raiseEnv 20 (.call 7) threeListenerWorld = some (.raised, raiseWorldEnd) ∧
    raiseWorldEnd.observers = [1, 2] ∧
    (∃ m wl, run raiseEnv m (.loop threeListenerWorld.observers.head? 7)
        (enterCall threeListenerWorld) = some (Status.raised, wl) ∧
      (Status.raised = Status.ok ∨ Status.raised = Status.raised) ∧
      raiseWorldEnd.inCall = false ∧ raiseWorldEnd.disconnectQueue = [] ∧
      (∀ k ∈ wl.disconnectQueue, k ∉ raiseWorldEnd.observers) ∧
      (∀ k, k ∈ raiseWorldEnd.observers ↔ k ∈ wl.observers ∧ k ∉ wl.disconnectQueue)) :=
  ⟨by decide, by decide,
   C16_scope_guard raiseEnv 20 threeListenerWorld 7 .raised raiseWorldEnd (by decide) (by decide)
     (by decide) (by decide)⟩


/-! ## observers holds no identity twice -/


theorem prim_sorted (env : Env) (a : Action) (w : World) (hs : w.observers.Sorted (· < ·)) :
    (prim env a w).observers.Sorted (· < ·) := by
  have hcap := capacityCheck_sorted w hs
  have hconn : (Signal.connect env w none).2.observers.Sorted (· < ·) ∧
      ∀ cb, (Signal.connect env w cb).2.observers.Sorted (· < ·) := by
    refine ⟨?_, ?_⟩ <;>
    · intros
      simp only [Signal.connect]
      split
      · exact setInsert_sorted _ _ (by simpa [Receiver.make] using hcap)
      · exact hcap
  have hdisc : ∀ h, (Signal.disconnectPtr w h).observers.Sorted (· < ·) := by
    intro h
    simp only [Signal.disconnectPtr]
    split_ifs
    · exact hs.filter _
    · exact hs
    · exact hs
  cases a with
  | make cb => exact hs
  | connectFn cb keep =>
    simp only [prim]
    split_ifs
    · exact hconn.2 cb
    · exact hconn.2 cb
  | connectPtr h =>
    simp only [prim, Signal.connectPtr]
    split
    · exact setInsert_sorted _ _ hcap
    · exact hcap
  | connectKey key cb keep =>
    simp only [prim, Signal.connectKey]
    split_ifs
    · exact hconn.2 cb
    · exact hconn.2 cb
  | disconnectPtr h => exact hdisc h
  | disconnectKey key =>
    simp only [prim, Signal.disconnectKey]
    split
    · exact hdisc _
    · exact hs
  | clear =>
    simp only [prim, Signal.clear, Signal.clearObservers]
    split_ifs
    · exact List.sorted_nil
    · exact hs
  | block =>
    simp only [prim, Signal.block]
    split_ifs <;> exact hs
  | unblock =>
    simp only [prim, Signal.unblock]
    split_ifs <;> exact hs
  | setObserverLimit n => exact hs
  | clearObserverLimit => exact hs
  | cullDeadObservers => exact hs.filter _
  | receiverBlock h =>
    simp only [prim]
    split <;> exact hs
  | receiverUnblock h =>
    simp only [prim]
    split <;> exact hs
  | retain h => exact hs
  | release h => exact hs
  | invoke _ => exact hs
  | throw => exact hs

theorem run_sorted (env : Env) (n : Nat) (t : Task) (w : World) (st : Status)
    (w1 : World) (h : run env n t w = some (st, w1)) (hs : w.observers.Sorted (· < ·)) :
    w1.observers.Sorted (· < ·) := by
  have hc : StepClosed env (fun _ => True)
      (fun a b => a.observers.Sorted (· < ·) → b.observers.Sorted (· < ·)) :=
    { refl := fun _ h => h
      trans := fun _ _ _ h1 h2 h => h2 (h1 h)
      prim := fun a w _ _ h => prim_sorted env a w h
      prog := fun _ _ _ _ => trivial
      enter := fun _ _ h => h
      exit := fun _ h => h.filter _
      flag := fun _ _ h => h
      log := fun _ _ h => h
      lock := fun _ _ _ h => h
      unlock := fun _ _ h => h
      erase := fun _ _ _ h => h.filter _ }
  have ha : t.allowed (fun _ => True) := by
    cases t <;> simp [Task.allowed]
  exact run_rel env _ _ hc n t w st w1 ha h hs

theorem prim_log (env : Env) (a : Action) (w : World) : (prim env a w).log = w.log := by
  cases a <;>
    simp only [prim, Receiver.make, Signal.connect, Signal.connectPtr, Signal.connectKey,
      Signal.disconnectPtr, Signal.disconnectKey, Signal.clear, Signal.clearObservers,
      Signal.block, Signal.unblock, Signal.setObserverLimit, Signal.clearObserverLimit,
      Signal.cullDeadObservers, Signal.capacityCheck, Signal.eraseObserver, setReceiver] <;>
    (repeat' split) <;> simp_all

theorem body_log (env : Env) :
    ∀ (acts : List Action) (n : Nat) (w : World) (st : Status) (w1 : World),
      (∀ a ∈ acts, a.noInvoke) → run env n (.body acts) w = some (st, w1) →
      w1.log = w.log ∧ st ≠ .undefined := by
  intro acts
  induction acts with
  | nil =>
    intro n w st w1 _ h
    cases n with
    | zero => simp [run_zero] at h
    | succ n =>
      rw [run_body_nil] at h
      cases h
      exact ⟨rfl, by simp⟩
  | cons a rest ih =>
    intro n w st w1 hall h
    cases n with
    | zero => simp [run_zero] at h
    | succ n =>
      have ha := hall a (List.mem_cons_self _ _)
      rcases action_control_cases a with hctl | rfl | ⟨arg, rfl⟩
      · rw [run_body_prim _ _ _ _ _ hctl] at h
        have := ih n _ st w1 (fun x hx => hall x (List.mem_cons_of_mem _ hx)) h
        exact ⟨this.1.trans (prim_log env a w), this.2⟩
      · rw [run_body_throw] at h
        cases h
        exact ⟨rfl, by simp⟩
      · exact absurd rfl (ha arg)

theorem loop_ascending (env : Env) (hni : ∀ c arg, ∀ a ∈ env.prog c arg, a.noInvoke)
    (arg : Nat) :
    ∀ (n : Nat) (i : Option Nat) (w : World) (st : Status) (w1 : World),
      run env n (.loop i arg) w = some (st, w1) → st ≠ .undefined →
      ∃ evs, w1.log = w.log ++ evs ∧
        (calledHandles evs).Sorted (· < ·) ∧
        (∀ k, i = some k → ∀ x ∈ calledHandles evs, k ≤ x) ∧
        (i = none → evs = []) := by
  intro n
  induction n with
  | zero => intro i w st w1 hr; simp [run_zero] at hr
  | succ n ih =>
    intro i w st w1 hr hst
    have hnil : ∀ w1 : World, w1 = w → ∃ evs, w1.log = w.log ++ evs ∧
        (calledHandles evs).Sorted (· < ·) ∧
        (∀ k, i = some k → ∀ x ∈ calledHandles evs, k ≤ x) ∧
        (i = none → evs = []) := by
      rintro w1 rfl
      exact ⟨[], by simp, by simp [calledHandles], by simp [calledHandles], fun _ => rfl⟩
    have hnext : ∀ (k : Nat) (evs : List Event),
        (∀ k1, setNext k w.observers = some k1 → ∀ x ∈ calledHandles evs, k1 ≤ x) →
        (setNext k w.observers = none → evs = []) → ∀ x ∈ calledHandles evs, k < x := by
      intro k evs h6 h7 x hx
      rcases hn : setNext k w.observers with _ | k1
      · rw [h7 hn] at hx; simp [calledHandles] at hx
      · have := h6 k1 hn x hx
        have := setNext_lt hn
        omega
    cases i with
    | none =>
      rw [run_loop_none] at hr
      cases hr
      exact hnil w rfl
    | some k =>
      rw [run_loop_some] at hr
      split_ifs at hr with he ha
      · cases hr
        exact hnil w rfl
      · rcases hto : (receiverAt (lockListener w k) k).bind notifyTarget with _ | ⟨c, id⟩
        · simp only [hto] at hr
          split_ifs at hr with hs
          · cases hr; exact absurd rfl hst
          · obtain ⟨evs, h1, h5, h6, h7⟩ :=
              ih _ (unlockListener (lockListener w k) k) st w1 hr hst
            refine ⟨evs, h1, h5, ?_, by simp⟩
            intro k' hk' x hx
            cases hk'
            exact le_of_lt (hnext k evs h6 h7 x hx)
        · simp only [hto] at hr
          rcases hb : run env n (.body (env.prog c arg))
              (logEvent (lockListener w k) (Event.called k id c arg)) with _ | ⟨st1, w2⟩
          · simp [hb] at hr
          · rw [hb] at hr
            obtain ⟨hk, hst1⟩ := body_log env _ n _ st1 w2 (hni c arg) hb
            cases st1 with
            | undefined => exact absurd rfl hst1
            | raised =>
              simp only at hr
              cases hr
              refine ⟨[Event.called k id c arg], ?_, ?_, ?_, by simp⟩
              · simp [unlockListener, hk, logEvent, lockListener]
              · simp [calledHandles, Event.handle?]
              · intro k' hk' x hx
                cases hk'
                simp [calledHandles, Event.handle?] at hx
                omega
            | ok =>
              simp only at hr
              split_ifs at hr with hs
              · cases hr; exact absurd rfl hst
              · obtain ⟨evs, h1, h5, h6, h7⟩ := ih _ (unlockListener w2 k) st w1 hr hst
                have hlow := hnext k evs h6 h7
                refine ⟨Event.called k id c arg :: evs, ?_, ?_, ?_, by simp⟩
                · rw [h1]
                  simp [unlockListener, hk, logEvent, lockListener]
                · simp only [calledHandles, List.filterMap_cons, Event.handle?]
                  exact List.sorted_cons.2 ⟨hlow, h5⟩
                · intro k' hk' x hx
                  cases hk'
                  simp only [calledHandles, List.filterMap_cons, Event.handle?,
                    List.mem_cons] at hx
                  rcases hx with rfl | hx
                  · exact le_refl _
                  · exact le_of_lt (hlow x hx)
      · obtain ⟨evs, h1, h5, h6, h7⟩ := ih _ (Signal.eraseObserver w k) st w1 hr hst
        refine ⟨evs, h1, h5, ?_, by simp⟩
        intro k' hk' x hx
        cases hk'
        exact le_of_lt (hnext k evs h6 h7 x hx)

theorem blockedPart_log (env : Env) (hni : ∀ c arg, ∀ a ∈ env.prog c arg, a.noInvoke)
    (n : Nat) (arg : Nat) (w : World) (st : Status) (w1 : World)
    (h : run env n (.blockedPart arg) w = some (st, w1)) :
    ∃ evs, w1.log = w.log ++ evs ∧ calledHandles evs = [] := by
  cases n with
  | zero => simp [run_zero] at h
  | succ n =>
    rw [run_blockedPart] at h
    split_ifs at h with hb
    · rcases Option.eq_none_or_eq_some w.blockedCallback with hcb | ⟨c, hcb⟩
      · simp only [hcb] at h
        cases h
        exact ⟨[], by simp [markCalled], rfl⟩
      · simp only [hcb] at h
        have := (body_log env _ n _ st w1 (hni c arg) h).1
        exact ⟨[Event.blockedCalled arg], by simp [this, logEvent, markCalled],
          by simp [calledHandles, Event.handle?]⟩
    · cases h
      exact ⟨[], by simp, rfl⟩

theorem dispatch_ascending (env : Env) (hni : ∀ c arg, ∀ a ∈ env.prog c arg, a.noInvoke)
    (n : Nat) (arg : Nat) (w : World) (st : Status) (w1 : World)
    (h : run env n (.call arg) w = some (st, w1)) (hst : st ≠ .undefined) :
    ∃ evs, w1.log = w.log ++ evs ∧ (calledHandles evs).Sorted (· < ·) := by
  cases n with
  | zero => simp [run_zero] at h
  | succ n =>
    rw [run_call] at h
    split_ifs at h with hb
    · cases hr : run env n (.loop w.observers.head? arg) (enterCall w) with
      | none => simp [hr] at h
      | some p =>
        rw [hr] at h
        obtain ⟨stl, wl⟩ := p
        cases stl with
        | ok =>
          simp only at h
          obtain ⟨evs, h1, h2, _, _⟩ := loop_ascending env hni arg n _ _ _ _ hr (by simp)
          obtain ⟨evs2, h3, h4⟩ := blockedPart_log env hni n arg _ st w1 h
          refine ⟨evs ++ evs2, ?_, ?_⟩
          · rw [h3]
            have : (Signal.scopeExit wl).log = wl.log := rfl
            rw [this, h1]
            simp [enterCall]
          · have h5 : calledHandles (evs ++ evs2) = calledHandles evs := by
              simp only [calledHandles, List.filterMap_append] at h4 ⊢
              rw [h4, List.append_nil]
            rw [h5]
            exact h2
        | raised =>
          simp only at h
          cases h
          obtain ⟨evs, h1, h2, _, _⟩ := loop_ascending env hni arg n _ _ _ _ hr (by simp)
          exact ⟨evs, by simpa [Signal.scopeExit, enterCall] using h1, h2⟩
        | undefined =>
          simp only at h
          cases h
          exact absurd rfl hst
    · obtain ⟨evs2, h3, h4⟩ := blockedPart_log env hni n arg _ st w1 h
      exact ⟨evs2, h3, by simp [h4]⟩

theorem sorted_count_le_one (l : List Nat) (hs : l.Sorted (· < ·)) (x : Nat) :
    l.count x ≤ 1 :=
  List.nodup_iff_count_le_one.1 hs.nodup x

/-- C18: in a state that a sequence of calls reaches from a new Signal, dispatches and
whatever their listeners call included, `observers` is strictly ascending by identity, so
it holds no identity twice; `connect(h)` of a live handle that is in `observers` leaves
`observers` as the capacity check left it, without a second entry for `h`; and a dispatch
in which no callable dispatches the Signal again calls no listener twice. -/
theorem C18_observers_no_duplicates (env : Env) (n : Nat) (acts : List Action) (st : Status)
    (w : World) (hrun : run env n (.body acts) World.init = some (st, w)) :
    w.observers.Sorted (· < ·) ∧ w.observers.Nodup ∧
    (∀ h, h ∈ w.observers → alive w h = true →
      (Signal.connectPtr w h).2.observers
        = (if w.observerLimit = sizeMax then w.observers else w.observers.filter (alive w))) ∧
    (∀ h x, (Signal.connectPtr w h).2.observers.count x ≤ 1) ∧
    ((∀ c arg, ∀ a ∈ env.prog c arg, a.noInvoke) →
      ∀ m arg st1 w1, run env m (.call arg) w = some (st1, w1) → st1 ≠ .undefined →
        ∃ evs, w1.log = w.log ++ evs ∧ (calledHandles evs).Nodup ∧
          ∀ k, (calledHandles evs).count k ≤ 1) := by
  have hs : w.observers.Sorted (· < ·) :=
    run_sorted env n _ _ _ _ hrun (by simp [World.init])
  have hcap := capacityCheck_sorted w hs
  refine ⟨hs, hs.nodup, ?_, ?_, ?_⟩
  · intro h hmem hal
    have hmem2 : h ∈ (capacityCheck w).2.observers := by
      rw [capacityCheck_observers]
      split_ifs
      · exact hmem
      · exact List.mem_filter.2 ⟨hmem, hal⟩
    rw [← capacityCheck_observers]
    simp only [Signal.connectPtr]
    split
    · exact setInsert_of_mem h _ hcap hmem2
    · rfl
  · intro h x
    apply sorted_count_le_one
    simp only [Signal.connectPtr]
    split
    · exact setInsert_sorted _ _ hcap
    · exact hcap
  · intro hni m arg st1 w1 hr hst
    obtain ⟨evs, h1, h2⟩ := dispatch_ascending env hni m arg w st1 w1 hr hst
    exact ⟨evs, h1, h2.nodup, sorted_count_le_one _ h2⟩

theorem deferEnv_noInvoke : ∀ c arg, ∀ a ∈ deferEnv.prog c arg, a.noInvoke := by
  intro c arg a ha x
  by_cases hc : c = 2
  · simp [deferEnv, hc] at ha
    subst ha
    simp
  · simp [deferEnv, hc] at ha

/-- C18 on the Signal that three `connect(callback)` calls and a second `connect` of the
handle 2 reach: `observers` is `[1, 2, 3]`, connecting 2 once more leaves it so, and one
dispatch calls each of the three listeners once. -/
theorem C18_observers_no_duplicates_witness :
    run deferEnv 20 (.body [.connectFn (some 1) true, .connectFn (some 2) true,
      .connectFn (some 3) true, .connectPtr 2]) World.init = some (.ok, threeListenerWorld) ∧
    threeListenerWorld.observers = [1, 2, 3] ∧
    (Signal.connectPtr threeListenerWorld 2).2.observers = [1, 2, 3] ∧
    calledHandles ((dispatchEnd deferEnv threeListenerWorld 7).log.drop
      threeListenerWorld.log.length) = [1, 2, 3] ∧
    (∃ evs, (dispatchEnd deferEnv threeListenerWorld 7).log = threeListenerWorld.log ++ evs ∧
      (calledHandles evs).Nodup ∧ ∀ k, (calledHandles evs).count k ≤ 1) :=
  have T := C18_observers_no_duplicates deferEnv 20 [.connectFn (some 1) true,
    .connectFn (some 2) true, .connectFn (some 3) true, .connectPtr 2] .ok threeListenerWorld
    (by decide)
  ⟨by decide, by decide, (T.2.2.1 2 (by decide) (by decide)).trans (by decide), by decide,
   T.2.2.2.2 deferEnv_noInvoke 9 7 .ok (dispatchEnd deferEnv threeListenerWorld 7) (by decide)
     (by decide)⟩


/-! ## A dispatch inside a dispatch -/


/-- C17 fails on the code: the scope guard of the nested dispatch sets `inCall` to false
while the outer dispatch is still in its loop. In `nestedWorld` the callable of listener 1
runs with `inCall` true; after the nested dispatch has returned `inCall` is false, and its
`disconnect` of handle 2 erases 2 from `observers` at once and leaves `disconnectQueue`
empty; 2 is the node that the saved iterator `next` of the outer loop points to, so the
behaviour of the outer dispatch is undefined. In `nestedPassedWorld` listener 2 disconnects
the listener 1 in the same way: `observers` is `[2, 3]` before listener 3 is called. -/
theorem C17_nested_dispatch_resets_inCall :
    (callableStart nestedWorld 1 1 1 7).inCall = true ∧
    (run nestedEnv 20 (.body [.receiverBlock 1, .invoke 9, .receiverUnblock 1])
      (callableStart nestedWorld 1 1 1 7)).map (fun r => (r.1, r.2.inCall))
        = some (.ok, false) ∧
    (run nestedEnv 20 (.body (nestedEnv.prog 1 7))
      (callableStart nestedWorld 1 1 1 7)).map
        (fun r => (r.1, r.2.observers, r.2.disconnectQueue, r.2.erased))
        = some (.ok, [1], [], [2]) ∧
    (run nestedEnv 20 (.call 7) nestedWorld).map (fun r => r.1) = some .undefined ∧
    (run nestedEnv 20 (.body (nestedEnv.prog 2 7))
      (logEvent (lockListener (logEvent (enterCall nestedPassedWorld)
        (Event.called 1 1 0 7)) 2) (Event.called 2 2 2 7))).map
        (fun r => (r.1, r.2.inCall, r.2.observers, r.2.disconnectQueue))
        = some (.ok, false, [2, 3], []) ∧
    (run nestedEnv 30 (.call 7) nestedPassedWorld).map
        (fun r => (r.1, r.2.observers, calledHandles r.2.log))
        = some (.ok, [2, 3], [1, 2, 1, 3, 3]) := by
  refine ⟨by decide, by decide, by decide, by decide, by decide, by decide⟩


/-! ## clear() -/


theorem run_log_grows (env : Env) (n : Nat) (t : Task) (w : World) (st : Status)
    (w1 : World) (h : run env n t w = some (st, w1)) : ∃ evs, w1.log = w.log ++ evs := by
  have hc : StepClosed env (fun _ => True) (fun a b => ∃ evs, b.log = a.log ++ evs) :=
    { refl := fun _ => ⟨[], by simp⟩
      trans := fun _ _ _ h1 h2 => by
        obtain ⟨e1, h1⟩ := h1
        obtain ⟨e2, h2⟩ := h2
        exact ⟨e1 ++ e2, by rw [h2, h1, List.append_assoc]⟩
      prim := fun a w _ _ => ⟨[], by simp [prim_log]⟩
      prog := fun _ _ _ _ => trivial
      enter := fun _ _ => ⟨[], by simp [enterCall]⟩
      exit := fun _ => ⟨[], by simp [Signal.scopeExit]⟩
      flag := fun _ _ => ⟨[], by simp [markCalled]⟩
      log := fun _ e => ⟨[e], rfl⟩
      lock := fun _ _ _ => ⟨[], by simp [lockListener]⟩
      unlock := fun _ _ => ⟨[], by simp [unlockListener]⟩
      erase := fun _ _ _ => ⟨[], by simp [Signal.eraseObserver]⟩ }
  have ha : t.allowed (fun _ => True) := by
    cases t <;> simp [Task.allowed]
  exact run_rel env _ _ hc n t w st w1 ha h

theorem mem_drop_of_append {l evs l1 : List Event} {e : Event} (h : l1 = l ++ evs)
    (he : e ∈ evs) : e ∈ l1.drop l.length := by
  rw [h]
  simpa using he

theorem loop_queueKept (env : Env) (arg : Nat) :
    ∀ (n : Nat) (i : Option Nat) (w : World) (st : Status) (w1 : World),
      w.inCall = true → run env n (.loop i arg) w = some (st, w1) →
      (∀ k id c, Event.called k id c arg ∈ w1.log.drop w.log.length →
        ∀ a ∈ env.prog c arg, a.plain) →
      w1.inCall = true ∧ ∀ x ∈ w.disconnectQueue, x ∈ w1.disconnectQueue := by
  intro n
  induction n with
  | zero => intro i w st w1 _ hr; simp [run_zero] at hr
  | succ n ih =>
    intro i w st w1 hin hr hpl
    cases i with
    | none =>
      rw [run_loop_none] at hr
      cases hr
      exact ⟨hin, fun _ hx => hx⟩
    | some k =>
      rw [run_loop_some] at hr
      split_ifs at hr with he ha
      · cases hr
        exact ⟨hin, fun _ hx => hx⟩
      · rcases hto : (receiverAt (lockListener w k) k).bind notifyTarget with _ | ⟨c, id⟩
        · simp only [hto] at hr
          split_ifs at hr with hs
          · cases hr
            exact ⟨hin, fun _ hx => hx⟩
          · exact ih _ (unlockListener (lockListener w k) k) st w1 hin hr hpl
        · simp only [hto] at hr
          rcases hb : run env n (.body (env.prog c arg))
              (logEvent (lockListener w k) (Event.called k id c arg)) with _ | ⟨st1, w2⟩
          · simp [hb] at hr
          · rw [hb] at hr
            have hin1 : (logEvent (lockListener w k) (Event.called k id c arg)).inCall = true := hin
            obtain ⟨evs1, hl1⟩ := run_log_grows env n _ _ _ _ hb
            have hl2 : w2.log = w.log ++ (Event.called k id c arg :: evs1) := by
              rw [hl1]
              simp [logEvent, lockListener]
            have hbody : ∀ w3 : World, (∃ evs2, w3.log = w2.log ++ evs2) → w1 = w3 →
                ∀ a ∈ env.prog c arg, a.plain := by
              rintro w3 ⟨evs2, hl3⟩ rfl
              apply hpl k id
              have : w1.log = w.log ++ (Event.called k id c arg :: (evs1 ++ evs2)) := by
                rw [hl3, hl2]
                simp
              exact mem_drop_of_append this (List.mem_cons_self _ _)
            have hfin : (∀ a ∈ env.prog c arg, a.plain) →
                (unlockListener w2 k).inCall = true ∧
                (∀ x ∈ w.disconnectQueue, x ∈ (unlockListener w2 k).disconnectQueue) ∧
                st1 ≠ .undefined := by
              intro hp
              obtain ⟨hk, hst1⟩ := body_queueKept env _ n _ st1 w2 hp hb
              exact ⟨by simp [unlockListener, hk.2.1, hin1], fun x hx => hk.2.2.2 hin1 x hx, hst1⟩
            cases st1 with
            | undefined =>
              simp only at hr
              have hw : w1 = w2 := by cases hr; rfl
              exact absurd rfl (hfin (hbody w2 ⟨[], by simp⟩ hw)).2.2
            | raised =>
              simp only at hr
              have hw : w1 = unlockListener w2 k := by cases hr; rfl
              obtain ⟨h1, h2, _⟩ := hfin (hbody (unlockListener w2 k) ⟨[], by simp [unlockListener]⟩ hw)
              rw [hw]
              exact ⟨h1, h2⟩
            | ok =>
              simp only at hr
              split_ifs at hr with hs
              · have hw : w1 = unlockListener w2 k := by cases hr; rfl
                obtain ⟨h1, h2, _⟩ := hfin (hbody (unlockListener w2 k) ⟨[], by simp [unlockListener]⟩ hw)
                rw [hw]
                exact ⟨h1, h2⟩
              · obtain ⟨evs2, hl3⟩ := run_log_grows env n _ _ _ _ hr
                have hl3b : w1.log = w2.log ++ evs2 := hl3
                obtain ⟨hin2, hq2, _⟩ := hfin (hbody w1 ⟨evs2, hl3b⟩ rfl)
                have hpl2 : ∀ k' id' c', Event.called k' id' c' arg
                    ∈ w1.log.drop (unlockListener w2 k).log.length →
                    ∀ a ∈ env.prog c' arg, a.plain := by
                  intro k' id' c' hmem
                  apply hpl k' id'
                  have hmem2 : Event.called k' id' c' arg ∈ evs2 := by
                    have hlen : (unlockListener w2 k).log.length = w2.log.length := rfl
                    rw [hlen, hl3b] at hmem
                    simpa using hmem
                  have : w1.log = w.log ++ (Event.called k id c arg :: (evs1 ++ evs2)) := by
                    rw [hl3b, hl2]
                    simp
                  exact mem_drop_of_append this
                    (List.mem_cons_of_mem _ (List.mem_append_right _ hmem2))
                obtain ⟨h1, h2⟩ := ih _ (unlockListener w2 k) st w1 hin2 hr hpl2
                exact ⟨h1, fun x hx => h2 x (hq2 x hx)⟩
      · exact ih _ (Signal.eraseObserver w k) st w1 hin hr hpl

theorem mem_clear_queue (w : World) (hin : w.inCall = true) (k : Nat) :
    k ∈ (Signal.clear w).disconnectQueue
      ↔ k ∈ w.observers ∧ k ≠ 0 ∧ (k ∈ w.held ∨ k ∈ w.locked) := by
  have h : ∀ l : List Nat, k ∈ l.foldl (fun q h => setInsert h q) [] ↔ k ∈ l := by
    intro l
    have := mem_enqueue l [] k
    simpa [enqueue] using this
  simp only [Signal.clear, Signal.clearObservers, hin, Bool.not_true, Bool.false_eq_true,
    if_false]
  rw [h]
  simp [alive_iff]

/-- C12, as the claim states it, fails. In the dispatch from `namedClearWorld` the
listeners 1 and 3, connected by name and owned by the Signal alone, are live when the
callable of listener 2 calls `clear()`; the call snapshots the listeners 2 and 4, which their callers hold, and destroys 1
and 3: listener 3 is not called in this dispatch, and the expired reference of listener 1
is still in `observers` when the dispatch has completed. -/
theorem C12_counterexample :
    namedClearStart.inCall = true ∧ namedClearStart.observers = [1, 2, 3, 4] ∧
    alive namedClearStart 1 = true ∧ alive namedClearStart 3 = true ∧
    (Signal.clear namedClearStart).disconnectQueue = [2, 4] ∧
    alive (Signal.clear namedClearStart) 1 = false ∧
    alive (Signal.clear namedClearStart) 3 = false ∧
    (run clearEnv 20 (.call 7) namedClearWorld).map
        (fun r => (r.1, calledHandles r.2.log, r.2.observers)) = some (.ok, [1, 2, 4], [1]) := by
  decide

theorem clear_inCall (w : World) : (Signal.clear w).inCall = w.inCall := by
  simp only [Signal.clear, Signal.clearObservers]
  split <;> rfl

theorem queued_alive {w : World} {k : Nat} (h0 : k ≠ 0) (hk : k ∈ w.disconnectQueue) :
    alive w k = true :=
  (alive_iff w k).2 ⟨h0, Or.inr (Or.inr (Or.inl hk))⟩

theorem queued_not_observed {w : World} {k : Nat} (hk : k ∈ w.disconnectQueue) :
    k ∉ (Signal.scopeExit w).observers :=
  fun h => (((scopeExit_clean w).2.2 k).1 h).2 hk

/-- C12 amended: `clear()` always leaves `ownedConnections` empty and, outside a dispatch,
leaves `observers` empty. Called by a listener during a dispatch it leaves `observers` as
it is and makes `disconnectQueue` the set of the listeners in `observers` that a caller or
a running loop owns; each of them is alive after the call, and a listener that only
`ownedConnections` or the old queue owned is not. When the rest of the callable and the
callables that the rest of the loop calls neither dispatch the Signal again nor call
`clear()`, each snapshotted listener is alive when the callable ends and when the loop
ends, and the scope guard removes it from `observers`. -/
theorem C12_clear_snapshot (env : Env) (w : World) :
    (Signal.clear w).ownedConnections = [] ∧
    (w.inCall = false → (Signal.clear w).observers = []) ∧
    (w.inCall = true →
      (Signal.clear w).observers = w.observers ∧
      (∀ k, k ∈ (Signal.clear w).disconnectQueue ↔
        k ∈ w.observers ∧ k ≠ 0 ∧ (k ∈ w.held ∨ k ∈ w.locked)) ∧
      (∀ k ∈ (Signal.clear w).disconnectQueue, alive (Signal.clear w) k = true) ∧
      (∀ k, k ∉ w.held → k ∉ w.locked → alive (Signal.clear w) k = false) ∧
      ∀ rest n st w2, (∀ a ∈ rest, a.plain) →
        run env n (.body (.clear :: rest)) w = some (st, w2) →
        (∀ k ∈ (Signal.clear w).disconnectQueue, ∀ k0,
          alive w2 k = true ∧ k ∉ (Signal.scopeExit (unlockListener w2 k0)).observers) ∧
        ∀ k0 i arg m stl wl,
          run env m (.loop i arg) (unlockListener w2 k0) = some (stl, wl) →
          (∀ k id c, Event.called k id c arg ∈ wl.log.drop w2.log.length →
            ∀ a ∈ env.prog c arg, a.plain) →
          ∀ k ∈ (Signal.clear w).disconnectQueue,
            alive wl k = true ∧ k ∉ (Signal.scopeExit wl).observers) := by
  refine ⟨?_, ?_, ?_⟩
  · simp only [Signal.clear, Signal.clearObservers]
    split <;> rfl
  · intro hin
    simp [Signal.clear, Signal.clearObservers, hin]
  · intro hin
    have hmem := mem_clear_queue w hin
    have hne : ∀ k ∈ (Signal.clear w).disconnectQueue, k ≠ 0 :=
      fun k hk => ((hmem k).1 hk).2.1
    refine ⟨?_, hmem, fun k hk => queued_alive (hne k hk) hk, ?_, ?_⟩
    · simp only [Signal.clear, Signal.clearObservers]
      split
      · simp_all
      · rfl
    · intro k h1 h2
      have hq : k ∉ (Signal.clear w).disconnectQueue := fun hk =>
        ((hmem k).1 hk).2.2.elim h1 h2
      have h3 : (Signal.clear w).held = w.held ∧ (Signal.clear w).locked = w.locked ∧
          (Signal.clear w).ownedConnections = [] := by
        simp only [Signal.clear, Signal.clearObservers]
        split <;> exact ⟨rfl, rfl, rfl⟩
      cases hal : alive (Signal.clear w) k with
      | false => rfl
      | true =>
        have := (alive_iff _ _).1 hal
        rw [h3.1, h3.2.1, h3.2.2] at this
        simp [h1, h2, hq] at this
    · intro rest n st w2 hrest hrun
      cases n with
      | zero => simp [run_zero] at hrun
      | succ n =>
        rw [run_body_prim _ _ _ _ _ (by rfl)] at hrun
        have hp : prim env .clear w = Signal.clear w := rfl
        rw [hp] at hrun
        obtain ⟨hk, _⟩ := body_queueKept env rest n _ st w2 hrest hrun
        have hin1 : (Signal.clear w).inCall = true := (clear_inCall w).trans hin
        have hq2 : ∀ k ∈ (Signal.clear w).disconnectQueue, k ∈ w2.disconnectQueue :=
          fun k hk1 => hk.2.2.2 hin1 k hk1
        refine ⟨?_, ?_⟩
        · intro k hk1 k0
          exact ⟨queued_alive (hne k hk1) (hq2 k hk1),
            queued_not_observed (w := unlockListener w2 k0) (hq2 k hk1)⟩
        · intro k0 i arg m stl wl hloop hpl k hk1
          have hin2 : (unlockListener w2 k0).inCall = true := by
            simp [unlockListener, hk.2.1, hin1]
          obtain ⟨_, h2⟩ := loop_queueKept env arg m i _ stl wl hin2 hloop hpl
          have hk2 : k ∈ wl.disconnectQueue := h2 k (hq2 k hk1)
          exact ⟨queued_alive (hne k hk1) hk2, queued_not_observed hk2⟩

theorem namedClearLoopEnd_log :
    namedClearLoopEnd.log.drop (Signal.clear namedClearStart).log.length
      = [Event.called 4 4 0 7] := by
  decide

/-- The amended C12 in the dispatch from `namedClearWorld`: when the callable of listener
2 calls `clear()` the queue becomes `[2, 4]`; listener 4 is called after that, both are
alive when the loop ends, and the scope guard leaves only the expired reference of the
named listener 1 in `observers`. -/
theorem C12_clear_snapshot_witness :
    namedClearStart.inCall = true ∧
    (Signal.clear namedClearStart).disconnectQueue = [2, 4] ∧
    run clearEnv 20 (.loop (some 3) 7) (unlockListener (Signal.clear namedClearStart) 2)
      = some (.ok, namedClearLoopEnd) ∧
    (Signal.scopeExit namedClearLoopEnd).observers = [1] ∧
    (∀ k ∈ (Signal.clear namedClearStart).disconnectQueue,
      alive namedClearLoopEnd k = true ∧ k ∉ (Signal.scopeExit namedClearLoopEnd).observers) :=
  ⟨by decide, by decide, by decide, by decide,
   ((C12_clear_snapshot clearEnv namedClearStart).2.2 (by decide)).2.2.2.2 [] 2 .ok
      (Signal.clear namedClearStart) (by simp) (by decide) |>.2 2 (some 3) 7 20 .ok
      namedClearLoopEnd (by decide)
      (by
        intro k id c hmem
        rw [namedClearLoopEnd_log] at hmem
        simp only [List.mem_singleton, Event.called.injEq] at hmem
        obtain ⟨_, _, rfl, _⟩ := hmem
        intro a ha
        simp [clearEnv] at ha)⟩


/-! ## A destroyed listener -/

end MV
